import Mathlib

set_option autoImplicit false

/-!
# Antares event scheduler

A shallow embedding of `src/ui/event-scheduler.cpp` (class `EventScheduler`):
the two binary heaps (`_event_heap`, `_snapshot_times`), the tick counter
`_ticks`, `schedule_*`, `advance_tick_count`, `have_snapshots_before` and the
driver `loop`; and of three functions of `src/game/admiral.cpp`
(`SetAdmiralFlagship`, `GetAdmiralFlagship`, `PayAdmiralAbsolute`).

Modelling conventions.

* `int64_t` values are mathematical integers; the two places where the code
  computes a new value by arithmetic (`at_usecs * 60` and `_ticks + 1`) wrap
  to the 64-bit two's-complement range through `wrap64`.
* `std::vector` is a `List`; `std::push_heap` / `std::pop_heap` are the algorithms
  of libstdc++ (`bits/stl_heap.h`): `push_heap` sifts the last element up;
  `pop_heap` stores the first element in the last position, moves the hole
  left at the root down to the bottom along the children that come first in
  heap order, and sifts the former last element up from there.
* the `MainLoop` collaborator is an oracle: one `Answers` record per pass of
  the `while` loop holds what `done()`, `next_timer()` and `takes_snapshots()`
  return in that pass.  Calls into the collaborator are recorded in a trace
  of `Action`s, each carrying the value of `_ticks` at the time of the call.
* reading `front()` of an empty vector is undefined behaviour in C++; the
  embedding is total and reports it as `Status.underflow`.
-/

namespace antares

/-! ## Integers -/

/-- Two's-complement wrap of an integer into the `int64_t` range. -/
def wrap64 (x : Int) : Int :=
  (x + 9223372036854775808) % 18446744073709551616 - 9223372036854775808

/-- The value range of `int64_t`. -/
def InInt64 (x : Int) : Prop :=
  -9223372036854775808 ≤ x ∧ x ≤ 9223372036854775807

instance (x : Int) : Decidable (InInt64 x) := by
  unfold InInt64; infer_instance

/-! ## Binary heaps over a vector (`std::push_heap`, `std::pop_heap`) -/

section Heap

variable {α : Type}

/-- Exchange of the elements at positions `i` and `j` (`std::swap(v[i], v[j])`). -/
def swap_at (xs : List α) (i j : Nat) : List α :=
  match xs[i]?, xs[j]? with
  | some a, some b => (xs.set i b).set j a
  | _, _ => xs

/-- Sift the element at position `i` up towards the root: while it has a
parent `p = (i - 1) / 2` with `comp(v[p], v[i])`, exchange the two.  The first
argument bounds the number of levels climbed.  This is the loop of
`std::__push_heap(first, i, 0, value, comp)` of libstdc++ with `value` kept in the
hole at `i`: moving the parent into the hole and making the parent's position
the hole is the exchange of the two positions. -/
def sift_up (comp : α → α → Bool) : Nat → List α → Nat → List α
  | 0, xs, _ => xs
  | fuel + 1, xs, i =>
    if i = 0 then xs
    else
      match xs[(i - 1) / 2]?, xs[i]? with
      | some a, some b =>
        if comp a b then sift_up comp fuel (swap_at xs ((i - 1) / 2) i) ((i - 1) / 2) else xs
      | _, _ => xs

/-- The call `std::push_heap(v.begin(), v.end(), comp)`: the last element of `v` is
sifted up into the heap formed by the elements before it. -/
def push_heap (comp : α → α → Bool) (xs : List α) : List α :=
  sift_up comp xs.length xs (xs.length - 1)

/-- The `while (secondChild < (len - 1) / 2)` loop of `std::__adjust_heap` (libstdc++,
`bits/stl_heap.h`), for the range `[first, first + len)` given as the list
`first`: while the hole at `holeIndex` has two children, the child at
`secondChild = 2 * (holeIndex + 1)` is taken, or the one before it when
`comp(first[secondChild], first[secondChild - 1])`; that child is moved into
the hole and its position becomes the hole.  The result is the vector and the
last hole.  The first argument bounds the number of levels descended. -/
def adjust_hole (comp : α → α → Bool) : Nat → List α → Nat → List α × Nat
  | 0, first, holeIndex => (first, holeIndex)
  | fuel + 1, first, holeIndex =>
    if holeIndex < (first.length - 1) / 2 then
      match first[2 * (holeIndex + 1)]?, first[2 * (holeIndex + 1) - 1]? with
      | some r, some l =>
        if comp r l then adjust_hole comp fuel (first.set holeIndex l) (2 * (holeIndex + 1) - 1)
        else adjust_hole comp fuel (first.set holeIndex r) (2 * (holeIndex + 1))
      | _, _ => (first, holeIndex)
    else (first, holeIndex)

/-- The step `if ((len & 1) == 0 && secondChild == (len - 2) / 2)` of `std::__adjust_heap`: a
hole whose only child is the last element of the range takes that child, at
position `2 * (secondChild + 1) - 1`. -/
def adjust_last (first : List α) (holeIndex : Nat) : List α × Nat :=
  if first.length % 2 = 0 ∧ holeIndex = (first.length - 2) / 2 then
    match first[2 * (holeIndex + 1) - 1]? with
    | some l => (first.set holeIndex l, 2 * (holeIndex + 1) - 1)
    | none => (first, holeIndex)
  else (first, holeIndex)

/-- The call `std::__adjust_heap(first, 0, len, value, comp)` of libstdc++, with the range
`[first, first + len)` given as the list `first`: the hole at the root is moved
down to the bottom of the heap, without looking at `value`; then
`std::__push_heap(first, holeIndex, 0, value, comp)` stores `value` in the hole and
sifts it up towards the root, as in `push_heap`. -/
def adjust_heap (comp : α → α → Bool) (first : List α) (value : α) : List α :=
  let r := adjust_hole comp first.length first 0
  let r2 := adjust_last r.1 r.2
  sift_up comp r2.1.length (r2.1.set r2.2 value) r2.2

/-- The call `std::pop_heap(v.begin(), v.end(), comp)`, as implemented by libstdc++: with more
than one element, `std::__pop_heap` takes the last element as `value`, stores
the first element in the last position and calls `std::__adjust_heap` on the range
without the last position, with the hole at the root. -/
def pop_heap (comp : α → α → Bool) (xs : List α) : List α :=
  match xs with
  | [] => []
  | x :: rest =>
    match rest.getLast? with
    | none => [x]
    | some value => adjust_heap comp (x :: rest.dropLast) value ++ [x]

/-- The call `v.pop_back()`. -/
def pop_back (xs : List α) : List α := xs.dropLast

end Heap

/-! ## Events -/

/-- A screen position (`Point` of `math/geometry.hpp`). -/
structure Point where
  h : Int
  v : Int
deriving DecidableEq, Repr

/-- The event classes of `ui/event.hpp`, with the constructor arguments used by
`schedule_key` and `schedule_mouse`: the tick `at`, then the payload. -/
inductive Event where
  | KeyDownEvent (at_ : Int) (key : Int)
  | KeyUpEvent (at_ : Int) (key : Int)
  | MouseDownEvent (at_ : Int) (button : Int) (where_ : Point)
  | MouseUpEvent (at_ : Int) (button : Int) (where_ : Point)
  | MouseMoveEvent (at_ : Int) (where_ : Point)
deriving DecidableEq, Repr

/-- The accessor `Event::at()`. -/
def Event.at_ : Event → Int
  | .KeyDownEvent t _ => t
  | .KeyUpEvent t _ => t
  | .MouseDownEvent t _ _ => t
  | .MouseUpEvent t _ _ => t
  | .MouseMoveEvent t _ => t

/-! ## Scheduler state -/

/-- The data members of `EventScheduler` (the `EventTracker` member only
receives events; what it receives is recorded in the trace). -/
structure EventScheduler where
  _ticks : Int
  _snapshot_times : List Int
  _event_heap : List Event
deriving DecidableEq, Repr

/-- The constructor `EventScheduler::EventScheduler()`. -/
def EventScheduler.new : EventScheduler :=
  { _ticks := 0, _snapshot_times := [], _event_heap := [] }

/-- The comparator `std::greater<int64_t>`. -/
def greater (x y : Int) : Bool := decide (x > y)

/-- The comparator `EventScheduler::is_later`. -/
def is_later (x y : Event) : Bool := decide (x.at_ > y.at_)

/-- The method `EventScheduler::schedule_snapshot`. -/
def schedule_snapshot (s : EventScheduler) (at_ : Int) : EventScheduler :=
  { s with _snapshot_times := push_heap greater (s._snapshot_times ++ [at_]) }

/-- The method `EventScheduler::schedule_event`. -/
def schedule_event (s : EventScheduler) (event : Event) : EventScheduler :=
  { s with _event_heap := push_heap is_later (s._event_heap ++ [event]) }

/-- The method `EventScheduler::schedule_key`. -/
def schedule_key (s : EventScheduler) (key down up : Int) : EventScheduler :=
  schedule_event (schedule_event s (.KeyDownEvent down key)) (.KeyUpEvent up key)

/-- The method `EventScheduler::schedule_mouse`. -/
def schedule_mouse (s : EventScheduler) (button : Int) (where_ : Point) (down up : Int) :
    EventScheduler :=
  schedule_event (schedule_event s (.MouseDownEvent down button where_))
    (.MouseUpEvent up button where_)

/-! ## Traces and outcomes -/

/-- Calls made by the scheduler, in program order.  `clock` is the value of
`_ticks` when the call is made.  `advance` marks the entry into
`advance_tick_count` and `set_ticks` an assignment to `_ticks`. -/
inductive Action where
  | next_timer
  | advance (target : Int)
  | set_ticks (value : Int)
  | draw (clock : Int)
  | snapshot (ticks : Int) (clock : Int)
  | send_tracker (event : Event) (clock : Int)
  | send_top (event : Event) (clock : Int)
  | fire_timer (clock : Int)
deriving DecidableEq, Repr

/-- How a piece of code ended: it returned, it threw, it read the front of an
empty vector, or it is still running when the model stops following it (the
bound on the passes of a loop is used up, or the oracle has no more answers
while `done()` is still false). -/
inductive Status where
  | returned
  | threw (what : String)
  | underflow
  | pending
deriving DecidableEq, Repr

/-- State reached, calls made and the way the code ended. -/
structure Outcome where
  state : EventScheduler
  trace : List Action
  status : Status
deriving DecidableEq, Repr

/-- What the `MainLoop` answers during one pass of the `while` loop of `loop`:
`done()`, the result and out-parameter of `top()->next_timer(at_usecs)`, and
`takes_snapshots()`. -/
structure Answers where
  done : Bool
  has_timer : Bool
  at_usecs : Int
  takes_snapshots : Bool
deriving DecidableEq, Repr

/-! ## `advance_tick_count` -/

/-- The method `EventScheduler::have_snapshots_before`. -/
def have_snapshots_before (s : EventScheduler) (ticks : Int) : Bool :=
  match s._snapshot_times with
  | [] => false
  | front :: _ => decide (front < ticks)

/-- The `while (have_snapshots_before(ticks))` loop of `advance_tick_count`;
the first argument bounds the number of passes. -/
def fire_snapshots : Nat → EventScheduler → Int → Outcome
  | 0, s, ticks =>
    { state := s, trace := []
      status := if have_snapshots_before s ticks then .pending else .returned }
  | fuel + 1, s, ticks =>
    if have_snapshots_before s ticks then
      match s._snapshot_times with
      | [] => { state := s, trace := [], status := .underflow }
      | front :: _ =>
        let s1 := { s with _ticks := front }
        let s2 := { s1 with _snapshot_times := pop_back (pop_heap greater s1._snapshot_times) }
        let r := fire_snapshots fuel s2 ticks
        { state := r.state
          trace := .set_ticks front :: .snapshot s1._ticks s1._ticks :: r.trace
          status := r.status }
    else { state := s, trace := [], status := .returned }

/-- The method `EventScheduler::advance_tick_count`; `takes_snapshots` is the answer of
`loop.takes_snapshots()`.  The `while` loop pops one snapshot per pass, so the
number of queued snapshots bounds its passes. -/
def advance_tick_count (s : EventScheduler) (takes_snapshots : Bool) (ticks : Int) : Outcome :=
  if takes_snapshots && have_snapshots_before s ticks then
    let r := fire_snapshots s._snapshot_times.length s ticks
    match r.status with
    | .returned =>
      { state := { r.state with _ticks := ticks }
        trace := .advance ticks :: .draw s._ticks :: r.trace ++ [.set_ticks ticks]
        status := .returned }
    | _ => { r with trace := .advance ticks :: .draw s._ticks :: r.trace }
  else
    { state := { s with _ticks := ticks }
      trace := [.advance ticks, .set_ticks ticks]
      status := .returned }

/-! ## `loop` -/

/-- The conversion `at_usecs * 60 / 1000000` of `loop`, in `int64_t` arithmetic
(the quotient truncates towards zero). -/
def usecs_to_ticks (at_usecs : Int) : Int :=
  Int.tdiv (wrap64 (at_usecs * 60)) 1000000

/-- The condition
`!_event_heap.empty() && (!has_timer || (_event_heap.front()->at() <= at_ticks))`
of `loop`, with its short-circuit evaluation. -/
def event_is_next (s : EventScheduler) (has_timer : Bool) (at_ticks : Int) : Bool :=
  match s._event_heap with
  | [] => false
  | front :: _ => !has_timer || decide (front.at_ ≤ at_ticks)

/-- The first branch of the `if` in `loop`: the front event is taken out of the
heap, the tick count is advanced to its tick and it is sent to the event
tracker and to the top card. -/
def event_path (s : EventScheduler) (m : Answers) : Outcome :=
  match s._event_heap with
  | [] => { state := s, trace := [], status := .underflow }
  | event :: _ =>
    let s1 := { s with _event_heap := pop_back (pop_heap is_later s._event_heap) }
    let r := advance_tick_count s1 m.takes_snapshots event.at_
    match r.status with
    | .returned =>
      { state := r.state
        trace := r.trace ++ [.send_tracker event r.state._ticks, .send_top event r.state._ticks]
        status := .returned }
    | _ => r

/-- The `else` branch of the `if` in `loop`. -/
def timer_path (s : EventScheduler) (m : Answers) : Outcome :=
  if !m.has_timer then
    { state := s, trace := [], status := .threw "Event heap empty and timer not set to fire." }
  else
    let r := advance_tick_count s m.takes_snapshots
      (max (wrap64 (s._ticks + 1)) (usecs_to_ticks m.at_usecs))
    match r.status with
    | .returned =>
      { state := r.state, trace := r.trace ++ [.fire_timer r.state._ticks], status := .returned }
    | _ => r

/-- One pass of the body of the `while` loop of `loop`. -/
def loop_body (s : EventScheduler) (m : Answers) : Outcome :=
  let r := if event_is_next s m.has_timer (usecs_to_ticks m.at_usecs) then event_path s m
           else timer_path s m
  { r with trace := .next_timer :: r.trace }

/-- The method `EventScheduler::loop`, driven by the answers of the `MainLoop`, one record
per evaluation of the loop condition. -/
def loop : EventScheduler → List Answers → Outcome
  | s, [] => { state := s, trace := [], status := .pending }
  | s, m :: rest =>
    if m.done then { state := s, trace := [], status := .returned }
    else
      let r := loop_body s m
      match r.status with
      | .returned =>
        let r2 := loop r.state rest
        { state := r2.state, trace := r.trace ++ r2.trace, status := r2.status }
      | _ => r


/-! ## Heap order -/

section HeapOrder

variable {α : Type}

/-- The comparator orders by descending key: `comp x y` holds when `x` has the
larger key (`std::greater`, `is_later`). -/
def ComparesBy (comp : α → α → Bool) (key : α → Int) : Prop :=
  ∀ x y, comp x y = true ↔ key y < key x

/-- Heap order on the implicit binary tree of a vector, for a comparator that
orders by descending key: no element has a smaller key than its parent. -/
def IsHeap (key : α → Int) (xs : List α) : Prop :=
  ∀ j a b, 0 < j → xs[(j - 1) / 2]? = some a → xs[j]? = some b → key a ≤ key b

/-- Heap order everywhere except on the edge into position `i`, whose
children are already in order with its parent. -/
structure SiftUpInv (key : α → Int) (xs : List α) (i : Nat) : Prop where
  others : ∀ j a b, 0 < j → j ≠ i → xs[(j - 1) / 2]? = some a → xs[j]? = some b →
    key a ≤ key b
  below : ∀ j a b, 0 < i → 0 < j → (j - 1) / 2 = i → xs[(i - 1) / 2 ]? = some a →
    xs[j]? = some b → key a ≤ key b

end HeapOrder

/-! ## Reading traces -/

/-- The calls recorded for firing the snapshot ticks `fired` one after the
other: `_ticks` is set to the tick, then `snapshot` is called with it. -/
def snapshot_calls : List Int → List Action
  | [] => []
  | t :: ts => .set_ticks t :: .snapshot t t :: snapshot_calls ts

/-- The tick passed to `snapshot`, for a `snapshot` call. -/
def Action.snapshot_tick : Action → Option Int
  | .snapshot t _ => some t
  | _ => none

/-- The target, for an entry into `advance_tick_count`. -/
def Action.advance_target : Action → Option Int
  | .advance t => some t
  | _ => none

/-- The value assigned, for an assignment to `_ticks`. -/
def Action.assigned : Action → Option Int
  | .set_ticks v => some v
  | _ => none

/-- The ticks passed to the `snapshot` callback, in call order. -/
def snapshots_of (tr : List Action) : List Int := tr.filterMap Action.snapshot_tick

/-- The targets of the calls of `advance_tick_count`, in call order. -/
def advance_targets (tr : List Action) : List Int := tr.filterMap Action.advance_target

/-- The values assigned to `_ticks`, in order. -/
def clock_values (tr : List Action) : List Int := tr.filterMap Action.assigned

/-- An event sent to a receiver, or the timer fired. -/
def Action.is_dispatch : Action → Bool
  | .send_tracker _ _ => true
  | .send_top _ _ => true
  | .fire_timer _ => true
  | _ => false

/-- The event, for a send to the top card. -/
def Action.sent_event : Action → Option Event
  | .send_top e _ => some e
  | _ => none

/-- The event, for a send to the event tracker. -/
def Action.tracked_event : Action → Option Event
  | .send_tracker e _ => some e
  | _ => none

/-- The value of `_ticks` at a send of an event or at a `fire_timer` call. -/
def Action.dispatch_clock : Action → Option Int
  | .send_tracker _ c => some c
  | .send_top _ c => some c
  | .fire_timer c => some c
  | _ => none

/-- The events sent to the top card, in call order. -/
def events_sent (tr : List Action) : List Event := tr.filterMap Action.sent_event

/-- The events sent to the event tracker, in call order. -/
def events_tracked (tr : List Action) : List Event := tr.filterMap Action.tracked_event

/-- The values of `_ticks` at the sends and `fire_timer` calls, in call order. -/
def dispatch_clocks (tr : List Action) : List Int := tr.filterMap Action.dispatch_clock

/-- A call that changes a heap of the scheduler: a push by `schedule_event` or
`schedule_snapshot`, the pop of the front event in `loop`
(`pop_heap` then `pop_back` on `_event_heap`), the pop of the front snapshot
tick in `advance_tick_count`, or a whole pass of the body of `loop`. -/
inductive HeapStep where
  | schedule_event (event : Event)
  | schedule_snapshot (at_ : Int)
  | pop_event
  | pop_snapshot
  | pass (m : Answers)

/-- The scheduler after one heap-changing call. -/
def HeapStep.apply (s : EventScheduler) : HeapStep → EventScheduler
  | .schedule_event event => antares.schedule_event s event
  | .schedule_snapshot at_ => antares.schedule_snapshot s at_
  | .pop_event => { s with _event_heap := pop_back (pop_heap is_later s._event_heap) }
  | .pop_snapshot => { s with _snapshot_times := pop_back (pop_heap greater s._snapshot_times) }
  | .pass m => (loop_body s m).state

/-- The scheduler after a sequence of heap-changing calls. -/
def run_steps (s : EventScheduler) (steps : List HeapStep) : EventScheduler :=
  steps.foldl HeapStep.apply s

/-- Both vectors of the scheduler are in heap order. -/
def WellFormed (s : EventScheduler) : Prop :=
  IsHeap (fun t : Int => t) s._snapshot_times ∧ IsHeap Event.at_ s._event_heap

/-- The tick `_ticks` and every queued event tick are `int64_t` values, and no
queued event lies before `_ticks`. -/
def EventsNotBehind (s : EventScheduler) : Prop :=
  InInt64 s._ticks ∧ ∀ e ∈ s._event_heap, s._ticks ≤ e.at_ ∧ InInt64 e.at_

/-- Whether, in the run of `loop` from `s` on the given answers, every timer
tick the card declares is at or above `_ticks` at the time `next_timer` is
asked. -/
def timers_not_stale : EventScheduler → List Answers → Bool
  | _, [] => true
  | s, m :: rest =>
    if m.done then true
    else
      (!m.has_timer || decide (s._ticks ≤ usecs_to_ticks m.at_usecs)) &&
        (match (loop_body s m).status with
          | .returned => timers_not_stale (loop_body s m).state rest
          | _ => true)

/-! ## Admirals (`src/game/admiral.cpp`)

`admiralType`, `spaceObjectType`, `Fixed`, `kNoShip`, `kMaxPlayerNum` and the
macro `mGetSpaceObjectPtr` are declared in headers that are not part of the
sources studied here.  The structures below hold the fields that the three
functions use; the constants and the object table behind the macro are
parameters of the functions.  Pointers into the arrays are their indices, and
an access outside an array, undefined behaviour in C++, is reported as
`Result.out_of_bounds`. -/

/-- Two's-complement wrap of an integer into the `int32_t` range (`Fixed` is a
32-bit integer). -/
def wrap32 (x : Int) : Int :=
  (x + 2147483648) % 4294967296 - 2147483648

/-- The value range of `int32_t`. -/
def InInt32 (x : Int) : Prop :=
  -2147483648 ≤ x ∧ x ≤ 2147483647

instance (x : Int) : Decidable (InInt32 x) := by
  unfold InInt32; infer_instance

/-- The field of `spaceObjectType` that the flagship functions read. -/
structure spaceObjectType where
  id : Int
deriving DecidableEq, Repr

/-- The fields of `admiralType` that `SetAdmiralFlagship`, `GetAdmiralFlagship`
and `PayAdmiralAbsolute` read or write. -/
structure admiralType where
  flagship : Int
  flagshipID : Int
  cash : Int
deriving DecidableEq, Repr

/-- How a call ended: with a value, with an exception, or with an access
outside an array. -/
inductive Result (α : Type) where
  | returned (value : α)
  | threw (what : String)
  | out_of_bounds
deriving DecidableEq, Repr

/-- The element `*(base + i)` of an array, when `i` is one of its indices. -/
def element {α : Type} (xs : List α) (i : Int) : Option α :=
  if 0 ≤ i then xs[i.toNat]? else none

/-- The function `SetAdmiralFlagship`; `objects i` is the object that
`mGetSpaceObjectPtr(i)` points to and `gAdmiralData` the array of admirals. -/
def SetAdmiralFlagship (objects : Int → Option spaceObjectType)
    (gAdmiralData : List admiralType) (whichAdmiral whichShip : Int) :
    Result (List admiralType) :=
  if whichAdmiral < 0 then .threw "Can't set flagship of -1 admiral."
  else
    match element gAdmiralData whichAdmiral with
    | none => .out_of_bounds
    | some a =>
      if whichShip ≥ 0 then
        match objects whichShip with
        | none => .out_of_bounds
        | some anObject =>
          .returned (gAdmiralData.set whichAdmiral.toNat
            { a with flagship := whichShip, flagshipID := anObject.id })
      else
        .returned (gAdmiralData.set whichAdmiral.toNat { a with flagshipID := -1 })

/-- The function `GetAdmiralFlagship`; the pointer returned is `none` for `NULL` and
`some i` for `mGetSpaceObjectPtr(i)`. -/
def GetAdmiralFlagship (kNoShip : Int) (objects : Int → Option spaceObjectType)
    (gAdmiralData : List admiralType) (whichAdmiral : Int) : Result (Option Int) :=
  if whichAdmiral < 0 then .returned none
  else
    match element gAdmiralData whichAdmiral with
    | none => .out_of_bounds
    | some a =>
      if a.flagship = kNoShip then .returned none
      else
        match objects a.flagship with
        | none => .out_of_bounds
        | some anObject =>
          if anObject.id = a.flagshipID then .returned (some a.flagship)
          else .returned none

/-- The function `PayAdmiralAbsolute`. -/
def PayAdmiralAbsolute (kMaxPlayerNum : Int) (gAdmiralData : List admiralType)
    (whichAdmiral howMuch : Int) : Result (List admiralType) :=
  if whichAdmiral ≥ 0 ∧ whichAdmiral < kMaxPlayerNum then
    match element gAdmiralData whichAdmiral with
    | none => .out_of_bounds
    | some admiral =>
      let cash := wrap32 (admiral.cash + howMuch)
      .returned (gAdmiralData.set whichAdmiral.toNat
        { admiral with cash := if cash < 0 then 0 else cash })
  else .returned gAdmiralData

/-! ## Example sessions -/

/-- Scenario B of the specification: a snapshot at tick 15 and a mouse move at tick 15 are
queued on a new scheduler. -/
def scenario_b : EventScheduler :=
  schedule_event (schedule_snapshot EventScheduler.new 15) (.MouseMoveEvent 15 ⟨1, 2⟩)

/-- A key press at tick 10 (release at tick 20) is queued on a new scheduler,
one pass of the loop has run while the `MainLoop` declared no timer (the key
press is dispatched and the clock stands at 10), and then the snapshot tick 3
is scheduled. -/
def after_key_press : EventScheduler :=
  schedule_snapshot
    (loop_body (schedule_key EventScheduler.new 65 10 20) ⟨false, false, 0, true⟩).state 3

/-- A key press at tick 5 is queued on a new scheduler. -/
def key_at_five : EventScheduler :=
  schedule_event EventScheduler.new (.KeyDownEvent 5 65)

/-- The card declares a timer at 50000 usecs (tick 3) in four passes, snapshots
taken, and no timer in the fifth. -/
def stale_timer_answers : List Answers :=
  [⟨false, true, 50000, true⟩, ⟨false, true, 50000, true⟩, ⟨false, true, 50000, true⟩,
   ⟨false, true, 50000, true⟩, ⟨false, false, 0, true⟩]

/-- A key press at tick 1 and a snapshot at tick 1 are queued on a new
scheduler. -/
def key_and_snapshot_at_one : EventScheduler :=
  schedule_snapshot (schedule_event EventScheduler.new (.KeyDownEvent 1 65)) 1

/-- The card declares a timer at 0 usecs (tick 0) in two passes, snapshots
taken. -/
def timer_now_twice : List Answers :=
  [⟨false, true, 0, true⟩, ⟨false, true, 0, true⟩]

/-- Four key presses, of the keys 1 to 4, all at tick 7, in scheduling order. -/
def four_keys_at_seven : List Event :=
  [.KeyDownEvent 7 1, .KeyDownEvent 7 2, .KeyDownEvent 7 3, .KeyDownEvent 7 4]

/-- A key press at tick 5 and a snapshot at tick 3 are queued on a new
scheduler. -/
def key_at_five_snapshot_at_three : EventScheduler :=
  schedule_snapshot key_at_five 3

/-! ## Specification records -/

/-- What the `while` loop of `advance_tick_count` has done when it ends in
outcome `r` from state `s` with target `ticks`, having fired the snapshot ticks
`fired`. -/
structure FiredSpec (s : EventScheduler) (ticks : Int) (r : Outcome) (fired : List Int) :
    Prop where
  status : r.status = .returned
  trace : r.trace = snapshot_calls fired
  perm : (fired ++ r.state._snapshot_times).Perm s._snapshot_times
  below : ∀ x ∈ fired, x < ticks
  stopped : have_snapshots_before r.state ticks = false
  events : r.state._event_heap = s._event_heap
  clock : r.state._ticks = fired.getLast?.getD s._ticks
  some_fired : have_snapshots_before s ticks = true → fired ≠ []
  none_fired : have_snapshots_before s ticks = false → fired = [] ∧ r.state = s
  heap : IsHeap (fun t : Int => t) s._snapshot_times →
    IsHeap (fun t : Int => t) r.state._snapshot_times ∧ fired.Sorted (· ≤ ·) ∧
      (∀ x ∈ fired, ∀ y ∈ r.state._snapshot_times, x ≤ y) ∧
      ∀ y ∈ r.state._snapshot_times, ticks ≤ y

/-- What `advance_tick_count(ticks)` has done when it ends in outcome `r` from
state `s`, having fired the snapshot ticks `fired`. -/
structure AdvanceSpec (s : EventScheduler) (takes_snapshots : Bool) (ticks : Int)
    (r : Outcome) (fired : List Int) : Prop where
  status : r.status = .returned
  trace : r.trace = .advance ticks ::
    ((if fired = [] then [] else [.draw s._ticks]) ++ snapshot_calls fired ++ [.set_ticks ticks])
  clock : r.state._ticks = ticks
  events : r.state._event_heap = s._event_heap
  perm : (fired ++ r.state._snapshot_times).Perm s._snapshot_times
  below : ∀ x ∈ fired, x < ticks
  not_taken : takes_snapshots = false → fired = []
  none_due : have_snapshots_before s ticks = false → fired = []
  some_due : takes_snapshots = true → have_snapshots_before s ticks = true → fired ≠ []
  stopped : takes_snapshots = true → have_snapshots_before r.state ticks = false
  heap : IsHeap (fun t : Int => t) s._snapshot_times →
    IsHeap (fun t : Int => t) r.state._snapshot_times ∧ fired.Sorted (· ≤ ·) ∧
      (∀ x ∈ fired, ∀ y ∈ r.state._snapshot_times, x ≤ y) ∧
      (takes_snapshots = true → ∀ y ∈ r.state._snapshot_times, ticks ≤ y)

/-! ## Theorems: binary heaps -/

section HeapTheory
variable {α : Type}

theorem swap_at_length (xs : List α) (i j : Nat) : (swap_at xs i j).length = xs.length := by
  unfold swap_at
  split <;> simp

theorem getElem?_swap_at (xs : List α) (i j k : Nat) (a b : α)
    (hi : xs[i]? = some a) (hj : xs[j]? = some b) :
    (swap_at xs i j)[k]? = if k = j then some a else if k = i then some b else xs[k]? := by
  have hil : i < xs.length := (List.getElem?_eq_some.mp hi).1
  have hjl : j < xs.length := (List.getElem?_eq_some.mp hj).1
  unfold swap_at
  rw [hi, hj]
  simp only [List.getElem?_set, List.length_set]
  by_cases h1 : k = j
  · subst h1; simp [hjl]
  · by_cases h2 : k = i
    · subst h2; simp [hil, Ne.symm h1, h1]
    · simp [h1, h2, Ne.symm h1, Ne.symm h2]

theorem swap_at_perm [DecidableEq α] (xs : List α) (i j : Nat) : (swap_at xs i j).Perm xs := by
  unfold swap_at
  split
  · rename_i a b hi hj
    obtain ⟨hil, hia⟩ := List.getElem?_eq_some.mp hi
    obtain ⟨hjl, hjb⟩ := List.getElem?_eq_some.mp hj
    rw [List.perm_iff_count]
    intro c
    have hjl2 : j < (xs.set i b).length := by simpa using hjl
    rw [List.count_set _ _ _ _ hjl2, List.count_set _ _ _ _ hil]
    have hget : (xs.set i b)[j] = if i = j then b else xs[j] := by
      simp [List.getElem_set]
    rw [hget]
    have ha : a ∈ xs := hia ▸ List.getElem_mem _
    have hb : b ∈ xs := hjb ▸ List.getElem_mem _
    have hca : 0 < List.count a xs := List.count_pos_iff.mpr ha
    have hcb : 0 < List.count b xs := List.count_pos_iff.mpr hb
    by_cases hij : i = j
    · subst hij
      have hab : a = b := by rw [← hia, ← hjb]
      subst hab
      by_cases hac : a = c
      · subst hac; simp [hia]; omega
      · simp [hia, hac]
    · simp only [hij, if_false, hia, hjb, beq_iff_eq]
      by_cases hac : a = c <;> by_cases hbc : b = c
      · subst hac; subst hbc; simp; omega
      · subst hac; simp [hbc]; omega
      · subst hbc; simp [hac]
      · simp [hac, hbc]
  · rfl


theorem siftUpInv_swap (key : α → Int) (xs : List α) (i : Nat) (a b : α)
    (inv : SiftUpInv key xs i) (hi : 0 < i)
    (ha : xs[(i - 1) / 2]? = some a) (hb : xs[i]? = some b) (hlt : key b < key a) :
    SiftUpInv key (swap_at xs ((i - 1) / 2) i) ((i - 1) / 2) := by
  have hpi : (i - 1) / 2 ≠ i := by omega
  constructor
  · intro j x y hj hjp hx hy
    rw [getElem?_swap_at xs _ _ _ a b ha hb] at hx hy
    by_cases hji : j = i
    · subst hji
      simp [hpi] at hx hy
      subst hx; subst hy; omega
    · simp only [hji, hjp, if_false] at hy
      by_cases hq : (j - 1) / 2 = i
      · simp only [hq, if_true] at hx
        have := inv.below j a y hi hj hq ha hy
        simp at hx; subst hx; exact this
      · simp only [hq, if_false] at hx
        by_cases hq2 : (j - 1) / 2 = (i - 1) / 2
        · simp only [hq2, if_true] at hx
          simp at hx; subst hx
          have := inv.others j a y hj hji (hq2 ▸ ha) hy
          omega
        · simp only [hq2, if_false] at hx
          exact inv.others j x y hj hji hx hy
  · intro j x y hp hj hjp hx hy
    rw [getElem?_swap_at xs _ _ _ a b ha hb] at hx hy
    have h1 : ((i - 1) / 2 - 1) / 2 ≠ i := by omega
    have h2 : ((i - 1) / 2 - 1) / 2 ≠ (i - 1) / 2 := by omega
    simp only [h1, h2, if_false] at hx
    have hga := inv.others ((i - 1) / 2) x a hp hpi hx ha
    by_cases hji : j = i
    · simp [hji] at hy; subst hy; exact hga
    · have hjp2 : j ≠ (i - 1) / 2 := by omega
      simp only [hji, hjp2, if_false] at hy
      have := inv.others j a y hj hji (hjp ▸ ha) hy
      omega

theorem sift_up_isHeap (comp : α → α → Bool) (key : α → Int) (hc : ComparesBy comp key) :
    ∀ fuel xs i, i ≤ fuel → SiftUpInv key xs i → IsHeap key (sift_up comp fuel xs i) := by
  intro fuel
  induction fuel with
  | zero =>
    intro xs i hi inv j a b hj ha hb
    exact inv.others j a b hj (by omega) ha hb
  | succ fuel ih =>
    intro xs i hi inv
    unfold sift_up
    by_cases h0 : i = 0
    · simp only [h0, if_true]
      intro j a b hj ha hb
      exact inv.others j a b hj (by omega) ha hb
    · simp only [h0, if_false]
      split
      · rename_i a b ha hb
        by_cases hcab : comp a b = true
        · rw [if_pos hcab]
          apply ih _ _ (by omega)
          exact siftUpInv_swap key xs i a b inv (by omega) ha hb ((hc a b).mp hcab)
        · rw [if_neg hcab]
          intro j x y hj hx hy
          by_cases hji : j = i
          · subst hji
            rw [ha] at hx; rw [hb] at hy
            have := (hc a b).not.mp hcab
            simp at hx hy; subst hx; subst hy
            omega
          · exact inv.others j x y hj hji hx hy
      · rename_i hnone
        intro j x y hj hx hy
        by_cases hji : j = i
        · subst hji
          exact absurd hy (by intro h; exact hnone x y hx h)
        · exact inv.others j x y hj hji hx hy

theorem sift_up_perm [DecidableEq α] (comp : α → α → Bool) :
    ∀ fuel (xs : List α) i, (sift_up comp fuel xs i).Perm xs := by
  intro fuel
  induction fuel with
  | zero => intro xs i; exact List.Perm.refl _
  | succ fuel ih =>
    intro xs i
    unfold sift_up
    split
    · exact List.Perm.refl _
    · split
      · split
        · exact (ih _ _).trans (swap_at_perm _ _ _)
        · exact List.Perm.refl _
      · exact List.Perm.refl _

theorem isHeap_nil (key : α → Int) : IsHeap key ([] : List α) := by
  intro j a b _ _ hb
  simp at hb

theorem push_heap_perm [DecidableEq α] (comp : α → α → Bool) (xs : List α) :
    (push_heap comp xs).Perm xs :=
  sift_up_perm comp _ _ _

theorem push_heap_isHeap (comp : α → α → Bool) (key : α → Int) (hc : ComparesBy comp key)
    (xs : List α) (x : α) (h : IsHeap key xs) : IsHeap key (push_heap comp (xs ++ [x])) := by
  unfold push_heap
  apply sift_up_isHeap comp key hc _ _ _ (by omega)
  have hlen : (xs ++ [x]).length - 1 = xs.length := by simp
  rw [hlen]
  constructor
  · intro j a b hj hji ha hb
    have hjl : j < (xs ++ [x]).length := (List.getElem?_eq_some.mp hb).1
    have hjl2 : j < xs.length := by simp at hjl; omega
    rw [List.getElem?_append_left (by omega)] at ha
    rw [List.getElem?_append_left hjl2] at hb
    exact h j a b hj ha hb
  · intro j a b _ hj hjp _ hb
    have hjl : j < (xs ++ [x]).length := (List.getElem?_eq_some.mp hb).1
    simp at hjl
    omega


theorem adjust_hole_length (comp : α → α → Bool) :
    ∀ fuel (xs : List α) h, (adjust_hole comp fuel xs h).1.length = xs.length := by
  intro fuel
  induction fuel with
  | zero => intro xs h; rfl
  | succ fuel ih =>
    intro xs h
    unfold adjust_hole
    split
    · split
      · split
        · rw [ih]; simp
        · rw [ih]; simp
      · rfl
    · rfl

theorem adjust_hole_lt (comp : α → α → Bool) :
    ∀ fuel (xs : List α) h, h < xs.length → (adjust_hole comp fuel xs h).2 < xs.length := by
  intro fuel
  induction fuel with
  | zero => intro xs h hh; exact hh
  | succ fuel ih =>
    intro xs h hh
    unfold adjust_hole
    split
    · split
      · rename_i r l hr hl
        have hrl := (List.getElem?_eq_some.mp hr).1
        split
        · have := ih (xs.set h l) (2 * (h + 1) - 1) (by simp; omega)
          simpa using this
        · have := ih (xs.set h r) (2 * (h + 1)) (by simpa using hrl)
          simpa using this
      · exact hh
    · exact hh

theorem adjust_hole_ge (comp : α → α → Bool) :
    ∀ fuel (xs : List α) h, xs.length ≤ fuel + h →
      (xs.length - 1) / 2 ≤ (adjust_hole comp fuel xs h).2 := by
  intro fuel
  induction fuel with
  | zero => intro xs h hh; show (xs.length - 1) / 2 ≤ h; omega
  | succ fuel ih =>
    intro xs h hh
    unfold adjust_hole
    split
    · rename_i hlt
      split
      · rename_i r l _ _
        split
        · have := ih (xs.set h l) (2 * (h + 1) - 1) (by simp; omega)
          simpa using this
        · have := ih (xs.set h r) (2 * (h + 1)) (by simp; omega)
          simpa using this
      · rename_i hnone
        exfalso
        have h1 : 2 * (h + 1) < xs.length := by omega
        have h2 : 2 * (h + 1) - 1 < xs.length := by omega
        exact hnone _ _ (List.getElem?_eq_getElem h1) (List.getElem?_eq_getElem h2)
    · show (xs.length - 1) / 2 ≤ h; omega

/-- Moving a minimal child into its parent position keeps heap order. -/
theorem isHeap_set_child (key : α → Int) (xs : List α) (h c : Nat) (v : α)
    (hh : IsHeap key xs) (hc : xs[c]? = some v) (hc0 : 0 < c) (hpar : (c - 1) / 2 = h)
    (hmin : ∀ j b, 0 < j → (j - 1) / 2 = h → xs[j]? = some b → key v ≤ key b) :
    IsHeap key (xs.set h v) := by
  have hcl := (List.getElem?_eq_some.mp hc).1
  have hhl : h < xs.length := by omega
  intro j a b hj ha hb
  rw [List.getElem?_set] at ha hb
  by_cases hjh : h = j
  · subst hjh
    have hq : h ≠ (h - 1) / 2 := by omega
    simp only [hq, if_false] at ha
    simp only [if_true, hhl] at hb
    have hvb : v = b := by simpa using hb
    have h1 := hh h a xs[h] hj ha (List.getElem?_eq_getElem hhl)
    have h2 := hh c xs[h] v hc0 (by rw [hpar]; exact List.getElem?_eq_getElem hhl) hc
    rw [← hvb]
    omega
  · simp only [hjh, if_false] at hb
    by_cases hq : h = (j - 1) / 2
    · simp only [hq.symm, if_true, hhl] at ha
      have hva : v = a := by simpa using ha
      rw [← hva]
      exact hmin j b hj hq.symm hb
    · simp only [hq, if_false] at ha
      exact hh j a b hj ha hb

theorem adjust_hole_isHeap (comp : α → α → Bool) (key : α → Int) (hc : ComparesBy comp key) :
    ∀ fuel (xs : List α) h, IsHeap key xs → IsHeap key (adjust_hole comp fuel xs h).1 := by
  intro fuel
  induction fuel with
  | zero => intro xs h hh; exact hh
  | succ fuel ih =>
    intro xs h hh
    unfold adjust_hole
    split
    · split
      · rename_i r l hr hl
        have hl2 : xs[2 * h + 1]? = some l := by
          have : 2 * (h + 1) - 1 = 2 * h + 1 := by omega
          rw [← this]; exact hl
        have hr2 : xs[2 * h + 2]? = some r := hr
        by_cases hcmp : comp r l = true
        · rw [if_pos hcmp]
          have hlt := (hc r l).mp hcmp
          apply ih
          apply isHeap_set_child key xs h (2 * (h + 1) - 1) l hh hl (by omega) (by omega)
          intro j b hj hq hb
          have hjc : j = 2 * h + 1 ∨ j = 2 * h + 2 := by omega
          rcases hjc with h1 | h1 <;> subst h1
          · rw [hl2] at hb; simp at hb; subst hb; exact le_refl _
          · rw [hr2] at hb; simp at hb; subst hb; omega
        · rw [if_neg hcmp]
          have hle := (hc r l).not.mp hcmp
          apply ih
          apply isHeap_set_child key xs h (2 * (h + 1)) r hh hr (by omega) (by omega)
          intro j b hj hq hb
          have hjc : j = 2 * h + 1 ∨ j = 2 * h + 2 := by omega
          rcases hjc with h1 | h1 <;> subst h1
          · rw [hl2] at hb; simp at hb; subst hb; omega
          · rw [hr2] at hb; simp at hb; subst hb; exact le_refl _
      · exact hh
    · exact hh

/-- Moving an element into the hole and marking its old position as the hole is an
exchange on the vector that has the value in the hole. -/
theorem set_hole_perm [DecidableEq α] (xs : List α) (h c : Nat) (a v : α)
    (hh : h < xs.length) (hc : xs[c]? = some a) (hne : h ≠ c) :
    ((xs.set h a).set c v).Perm (xs.set h v) := by
  have hcl := (List.getElem?_eq_some.mp hc).1
  have h1 : (xs.set h v)[h]? = some v := by simp [hh]
  have h2 : (xs.set h v)[c]? = some a := by
    rw [List.getElem?_set]; simp only [hne, if_false]; exact hc
  have : swap_at (xs.set h v) h c = (xs.set h a).set c v := by
    unfold swap_at
    rw [h1, h2]
    simp [List.set_set]
  rw [← this]
  exact swap_at_perm _ _ _

theorem adjust_hole_perm [DecidableEq α] (comp : α → α → Bool) (v : α) :
    ∀ fuel (xs : List α) h, h < xs.length →
      ((adjust_hole comp fuel xs h).1.set (adjust_hole comp fuel xs h).2 v).Perm
        (xs.set h v) := by
  intro fuel
  induction fuel with
  | zero => intro xs h _; exact List.Perm.refl _
  | succ fuel ih =>
    intro xs h hh
    unfold adjust_hole
    split
    · split
      · rename_i r l hr hl
        have hrl := (List.getElem?_eq_some.mp hr).1
        split
        · refine (ih (xs.set h l) (2 * (h + 1) - 1) (by simp; omega)).trans ?_
          exact set_hole_perm xs h _ l v hh hl (by omega)
        · refine (ih (xs.set h r) (2 * (h + 1)) (by simpa using hrl)).trans ?_
          exact set_hole_perm xs h _ r v hh hr (by omega)
      · exact List.Perm.refl _
    · exact List.Perm.refl _

theorem adjust_last_length (xs : List α) (h : Nat) :
    (adjust_last xs h).1.length = xs.length := by
  unfold adjust_last
  split
  · split
    · simp
    · rfl
  · rfl

theorem adjust_last_lt (xs : List α) (h : Nat) (hh : h < xs.length) :
    (adjust_last xs h).2 < xs.length := by
  unfold adjust_last
  split
  · split
    · rename_i l hl
      exact (List.getElem?_eq_some.mp hl).1
    · exact hh
  · exact hh

theorem adjust_last_leaf (xs : List α) (h : Nat) (hge : (xs.length - 1) / 2 ≤ h) :
    xs.length ≤ 2 * (adjust_last xs h).2 + 1 := by
  unfold adjust_last
  split
  · split
    · show xs.length ≤ 2 * (2 * (h + 1) - 1) + 1
      omega
    · rename_i hnone
      have := List.getElem?_eq_none_iff.mp hnone
      show xs.length ≤ 2 * h + 1
      omega
  · show xs.length ≤ 2 * h + 1
    omega

theorem adjust_last_isHeap (key : α → Int) (xs : List α) (h : Nat) (hh : IsHeap key xs) :
    IsHeap key (adjust_last xs h).1 := by
  unfold adjust_last
  split
  · rename_i hcond
    split
    · rename_i l hl
      have hll := (List.getElem?_eq_some.mp hl).1
      apply isHeap_set_child key xs h (2 * (h + 1) - 1) l hh hl (by omega) (by omega)
      intro j b hj hq hb
      have hjl := (List.getElem?_eq_some.mp hb).1
      have hj2 : j = 2 * (h + 1) - 1 := by omega
      subst hj2
      rw [hl] at hb; simp at hb; subst hb; exact le_refl _
    · exact hh
  · exact hh

theorem adjust_last_perm [DecidableEq α] (xs : List α) (h : Nat) (v : α) (hh : h < xs.length) :
    ((adjust_last xs h).1.set (adjust_last xs h).2 v).Perm (xs.set h v) := by
  unfold adjust_last
  split
  · split
    · rename_i l hl
      exact set_hole_perm xs h _ l v hh hl (by omega)
    · exact List.Perm.refl _
  · exact List.Perm.refl _

/-- A value stored in a leaf of a heap can only be out of order with its parent. -/
theorem siftUpInv_set_leaf (key : α → Int) (xs : List α) (h : Nat) (v : α)
    (hh : IsHeap key xs) (hleaf : xs.length ≤ 2 * h + 1) : SiftUpInv key (xs.set h v) h := by
  constructor
  · intro j a b hj hjh ha hb
    rw [List.getElem?_set] at ha hb
    have hjh2 : h ≠ j := Ne.symm hjh
    simp only [hjh2, if_false] at hb
    have hjl := (List.getElem?_eq_some.mp hb).1
    have hq : h ≠ (j - 1) / 2 := by omega
    simp only [hq, if_false] at ha
    exact hh j a b hj ha hb
  · intro j a b _ hj hq _ hb
    have hjl := (List.getElem?_eq_some.mp hb).1
    simp at hjl
    omega

theorem adjust_heap_isHeap (comp : α → α → Bool) (key : α → Int) (hc : ComparesBy comp key)
    (first : List α) (value : α) (hne : 0 < first.length) (hh : IsHeap key first) :
    IsHeap key (adjust_heap comp first value) := by
  have hlen1 := adjust_hole_length comp first.length first 0
  have hlt1 := adjust_hole_lt comp first.length first 0 hne
  have hge1 := adjust_hole_ge comp first.length first 0 (by omega)
  have hheap1 := adjust_hole_isHeap comp key hc first.length first 0 hh
  dsimp only [adjust_heap]
  generalize adjust_hole comp first.length first 0 = r at *
  have hlt2 := adjust_last_lt r.1 r.2 (by omega)
  have hleaf := adjust_last_leaf r.1 r.2 (by omega)
  have hheap2 := adjust_last_isHeap key r.1 r.2 hheap1
  have hlen2 := adjust_last_length r.1 r.2
  generalize adjust_last r.1 r.2 = r2 at *
  apply sift_up_isHeap comp key hc _ _ _ (by omega)
  exact siftUpInv_set_leaf key r2.1 r2.2 value hheap2 (by omega)

theorem adjust_heap_perm [DecidableEq α] (comp : α → α → Bool) (first : List α) (value : α)
    (hne : 0 < first.length) : (adjust_heap comp first value).Perm (first.set 0 value) := by
  have hlen1 := adjust_hole_length comp first.length first 0
  have hlt1 := adjust_hole_lt comp first.length first 0 hne
  have hperm1 := adjust_hole_perm comp value first.length first 0 hne
  dsimp only [adjust_heap]
  generalize adjust_hole comp first.length first 0 = r at *
  have hperm2 := adjust_last_perm r.1 r.2 value (by omega)
  generalize adjust_last r.1 r.2 = r2 at *
  exact (sift_up_perm comp _ _ _).trans (hperm2.trans hperm1)

/-- The front of a heap carries a minimal key. -/
theorem isHeap_front_le (key : α → Int) (x : α) (rest : List α) (h : IsHeap key (x :: rest)) :
    ∀ (j : Nat) (b : α), (x :: rest)[j]? = some b → key x ≤ key b := by
  intro j
  induction j using Nat.strong_induction_on with
  | _ j ih =>
    intro b hb
    by_cases hj : j = 0
    · subst hj; simp at hb; subst hb; exact le_refl _
    · have hjl := (List.getElem?_eq_some.mp hb).1
      have hpl : (j - 1) / 2 < (x :: rest).length := by omega
      have hpa : (x :: rest)[(j - 1) / 2]? = some ((x :: rest)[(j - 1) / 2]) :=
        List.getElem?_eq_getElem hpl
      have h1 := ih ((j - 1) / 2) (by omega) _ hpa
      have h2 := h j _ b (by omega) hpa hb
      omega

theorem isHeap_head_le (key : α → Int) (x : α) (rest : List α) (h : IsHeap key (x :: rest)) :
    ∀ b ∈ rest, key x ≤ key b := by
  intro b hb
  obtain ⟨n, hn⟩ := List.getElem?_of_mem hb
  exact isHeap_front_le key x rest h (n + 1) b (by simpa using hn)

/-- Result of `pop_heap` on a non-empty vector: the old front sits at the back,
before it stands a rearrangement of the other elements, in heap order when the
vector was in heap order. -/
theorem pop_heap_cons [DecidableEq α] (comp : α → α → Bool) (key : α → Int)
    (hc : ComparesBy comp key) (x : α) (rest : List α) :
    ∃ ys, pop_heap comp (x :: rest) = ys ++ [x] ∧ ys.Perm rest ∧
      (IsHeap key (x :: rest) → IsHeap key ys) := by
  cases hlast : rest.getLast? with
  | none =>
    have : rest = [] := List.getLast?_eq_none_iff.mp hlast
    subst this
    exact ⟨[], rfl, List.Perm.refl _, fun _ => isHeap_nil key⟩
  | some y =>
    have hrest : rest.dropLast ++ [y] = rest := List.dropLast_append_getLast? y hlast
    refine ⟨adjust_heap comp (x :: rest.dropLast) y, ?_, ?_, ?_⟩
    · simp only [pop_heap, hlast]
    · refine (adjust_heap_perm comp _ _ (by simp)).trans ?_
      conv => rhs; rw [← hrest]
      exact (List.perm_append_singleton y rest.dropLast).symm
    · intro h
      apply adjust_heap_isHeap comp key hc _ _ (by simp)
      intro j a b hj ha hb
      have key_eq : ∀ (k : Nat) (c : α), (x :: rest.dropLast)[k]? = some c → (x :: rest)[k]? = some c := by
        intro k c hk
        cases k with
        | zero => simpa using hk
        | succ k =>
          simp only [List.getElem?_cons_succ] at hk ⊢
          have hkl := (List.getElem?_eq_some.mp hk).1
          rw [← hrest, List.getElem?_append_left hkl]
          exact hk
      exact h j a b hj (key_eq _ a ha) (key_eq _ b hb)

end HeapTheory

/-! ## Theorems: the scheduler -/

theorem greater_comparesBy : ComparesBy greater (fun t : Int => t) := by
  intro x y; simp [greater]

theorem is_later_comparesBy : ComparesBy is_later Event.at_ := by
  intro x y; simp [is_later]

theorem pop_back_pop_heap {α : Type} [DecidableEq α] (comp : α → α → Bool) (key : α → Int)
    (hc : ComparesBy comp key) (x : α) (rest : List α) :
    (pop_back (pop_heap comp (x :: rest))).Perm rest ∧
      (IsHeap key (x :: rest) → IsHeap key (pop_back (pop_heap comp (x :: rest)))) := by
  obtain ⟨ys, hys, hperm, hheap⟩ := pop_heap_cons comp key hc x rest
  have : pop_back (pop_heap comp (x :: rest)) = ys := by
    rw [hys]; simp [pop_back]
  rw [this]
  exact ⟨hperm, hheap⟩


theorem have_snapshots_before_false (s : EventScheduler) (ticks : Int)
    (h : have_snapshots_before s ticks = false)
    (hh : IsHeap (fun t : Int => t) s._snapshot_times) :
    ∀ y ∈ s._snapshot_times, ticks ≤ y := by
  intro y hy
  cases hs : s._snapshot_times with
  | nil => rw [hs] at hy; simp at hy
  | cons front rest =>
    rw [hs] at hy hh
    have hf : ticks ≤ front := by
      simpa [have_snapshots_before, hs] using h
    rcases List.mem_cons.mp hy with h1 | h1
    · subst h1; exact hf
    · have := isHeap_head_le _ front rest hh y h1
      simp only at this
      omega

theorem fire_snapshots_spec : ∀ (fuel : Nat) (s : EventScheduler) (ticks : Int),
    s._snapshot_times.length ≤ fuel →
    ∃ fired, FiredSpec s ticks (fire_snapshots fuel s ticks) fired := by
  intro fuel
  induction fuel with
  | zero =>
    intro s ticks hlen
    have hnil : s._snapshot_times = [] := List.length_eq_zero.mp (by omega)
    have hb : have_snapshots_before s ticks = false := by
      simp [have_snapshots_before, hnil]
    refine ⟨[], ?_⟩
    constructor
    · simp [fire_snapshots, hb]
    · simp [fire_snapshots, snapshot_calls]
    · simp [fire_snapshots]
    · simp
    · simpa [fire_snapshots] using hb
    · simp [fire_snapshots]
    · simp [fire_snapshots]
    · intro h; rw [hb] at h; simp at h
    · intro _; simp [fire_snapshots]
    · intro hh
      simp only [fire_snapshots]
      refine ⟨hh, List.sorted_nil, by simp, ?_⟩
      exact have_snapshots_before_false s ticks hb hh
  | succ fuel ih =>
    intro s ticks hlen
    by_cases hb : have_snapshots_before s ticks = true
    · cases hs : s._snapshot_times with
      | nil => simp [have_snapshots_before, hs] at hb
      | cons front rest =>
        have hft : front < ticks := by simpa [have_snapshots_before, hs] using hb
        obtain ⟨hperm, hheap⟩ :=
          pop_back_pop_heap greater (fun t : Int => t) greater_comparesBy front rest
        have hlen2 : (pop_back (pop_heap greater (front :: rest))).length ≤ fuel := by
          rw [hperm.length_eq]
          simp [hs] at hlen
          omega
        obtain ⟨fired, sp⟩ := ih
          { _ticks := front
            _snapshot_times := pop_back (pop_heap greater (front :: rest))
            _event_heap := s._event_heap } ticks hlen2
        refine ⟨front :: fired, ?_⟩
        simp only [fire_snapshots, hb, if_true, hs]
        constructor
        · exact sp.status
        · simp only [snapshot_calls]; rw [sp.trace]
        · have := sp.perm.trans hperm
          rw [hs]
          exact List.Perm.cons front this
        · intro x hx
          rcases List.mem_cons.mp hx with h1 | h1
          · subst h1; exact hft
          · exact sp.below x h1
        · exact sp.stopped
        · exact sp.events
        · rw [sp.clock]
          cases fired with
          | nil => simp
          | cons y ys =>
            rw [List.getLast?_eq_getLast _ (List.cons_ne_nil y ys),
              List.getLast?_eq_getLast _ (List.cons_ne_nil front (y :: ys))]
            simp
        · intro _; simp
        · intro h; rw [hb] at h; simp at h
        · intro hh
          rw [hs] at hh
          obtain ⟨h1, h2, h3, h4⟩ := sp.heap (hheap hh)
          have hmin : ∀ x ∈ fired ++ (fire_snapshots fuel
              { _ticks := front
                _snapshot_times := pop_back (pop_heap greater (front :: rest))
                _event_heap := s._event_heap } ticks).state._snapshot_times, front ≤ x := by
            intro x hx
            have hx2 : x ∈ rest := (sp.perm.trans hperm).subset hx
            exact isHeap_head_le _ front rest hh x hx2
          refine ⟨h1, ?_, ?_, h4⟩
          · exact List.sorted_cons.mpr ⟨fun b hb2 => hmin b (List.mem_append_left _ hb2), h2⟩
          · intro x hx y hy
            rcases List.mem_cons.mp hx with h5 | h5
            · subst h5; exact hmin y (List.mem_append_right _ hy)
            · exact h3 x h5 y hy
    · have hb2 : have_snapshots_before s ticks = false := by simpa using hb
      refine ⟨[], ?_⟩
      simp only [fire_snapshots, hb2]
      constructor
      · simp
      · simp [snapshot_calls]
      · simp
      · simp
      · simpa using hb2
      · simp
      · simp
      · intro h; rw [hb2] at h; simp at h
      · intro _; simp
      · intro hh
        refine ⟨by simpa using hh, List.sorted_nil, by simp, ?_⟩
        simpa using have_snapshots_before_false s ticks hb2 hh


theorem have_snapshots_before_ticks (s : EventScheduler) (v ticks : Int) :
    have_snapshots_before { s with _ticks := v } ticks = have_snapshots_before s ticks := rfl

theorem advance_tick_count_spec (s : EventScheduler) (takes_snapshots : Bool) (ticks : Int) :
    ∃ fired, AdvanceSpec s takes_snapshots ticks
      (advance_tick_count s takes_snapshots ticks) fired := by
  by_cases hc : (takes_snapshots && have_snapshots_before s ticks) = true
  · obtain ⟨fired, sp⟩ := fire_snapshots_spec s._snapshot_times.length s ticks (le_refl _)
    have ht : takes_snapshots = true := by
      cases takes_snapshots <;> simp_all
    have hb : have_snapshots_before s ticks = true := by
      cases takes_snapshots <;> simp_all
    have hne := sp.some_fired hb
    refine ⟨fired, ?_⟩
    simp only [advance_tick_count, hc, if_true, sp.status]
    constructor
    · rfl
    · simp [hne, sp.trace]
    · rfl
    · exact sp.events
    · exact sp.perm
    · exact sp.below
    · intro h; rw [ht] at h; simp at h
    · intro h; rw [hb] at h; simp at h
    · intro _ _; exact hne
    · intro _; exact sp.stopped
    · intro hh
      obtain ⟨h1, h2, h3, h4⟩ := sp.heap hh
      exact ⟨h1, h2, h3, fun _ => h4⟩
  · refine ⟨[], ?_⟩
    simp only [advance_tick_count, hc]
    constructor
    · rfl
    · simp [snapshot_calls]
    · rfl
    · rfl
    · simp
    · simp
    · intro _; rfl
    · intro _; rfl
    · intro h1 h2; rw [h1, h2] at hc; simp at hc
    · intro h1
      rw [h1] at hc
      simpa [have_snapshots_before_ticks] using hc
    · intro hh
      refine ⟨hh, List.sorted_nil, by simp, ?_⟩
      intro h1
      rw [h1] at hc
      have hb : have_snapshots_before s ticks = false := by simpa using hc
      exact have_snapshots_before_false s ticks hb hh


theorem snapshot_calls_no_dispatch (fired : List Int) :
    ∀ a ∈ snapshot_calls fired, a.is_dispatch = false := by
  induction fired with
  | nil => intro a ha; simp [snapshot_calls] at ha
  | cons t ts ih =>
    intro a ha
    simp only [snapshot_calls, List.mem_cons] at ha
    rcases ha with h | h | h
    · subst h; rfl
    · subst h; rfl
    · exact ih a h

theorem advance_no_dispatch (s : EventScheduler) (takes_snapshots : Bool) (ticks : Int) :
    ∀ a ∈ (advance_tick_count s takes_snapshots ticks).trace, a.is_dispatch = false := by
  obtain ⟨fired, sp⟩ := advance_tick_count_spec s takes_snapshots ticks
  intro a ha
  rw [sp.trace] at ha
  simp only [List.mem_cons, List.mem_append, List.mem_singleton] at ha
  rcases ha with h | (h | h) | h
  · subst h; rfl
  · split at h
    · simp at h
    · simp at h; subst h; rfl
  · exact snapshot_calls_no_dispatch fired a h
  · simp at h; subst h; rfl

theorem event_path_eq (s : EventScheduler) (m : Answers) (e : Event) (rest : List Event)
    (h : s._event_heap = e :: rest) :
    event_path s m =
      { state := (advance_tick_count
          { s with _event_heap := pop_back (pop_heap is_later s._event_heap) }
          m.takes_snapshots e.at_).state
        trace := (advance_tick_count
          { s with _event_heap := pop_back (pop_heap is_later s._event_heap) }
          m.takes_snapshots e.at_).trace ++ [.send_tracker e e.at_, .send_top e e.at_]
        status := .returned } := by
  obtain ⟨fired, sp⟩ := advance_tick_count_spec
    { s with _event_heap := pop_back (pop_heap is_later s._event_heap) } m.takes_snapshots e.at_
  unfold event_path
  rw [h] at sp ⊢
  simp only [sp.status, sp.clock]

theorem timer_path_eq (s : EventScheduler) (m : Answers) (h : m.has_timer = true) :
    timer_path s m =
      { state := (advance_tick_count s m.takes_snapshots
          (max (wrap64 (s._ticks + 1)) (usecs_to_ticks m.at_usecs))).state
        trace := (advance_tick_count s m.takes_snapshots
          (max (wrap64 (s._ticks + 1)) (usecs_to_ticks m.at_usecs))).trace ++
            [.fire_timer (max (wrap64 (s._ticks + 1)) (usecs_to_ticks m.at_usecs))]
        status := .returned } := by
  obtain ⟨fired, sp⟩ := advance_tick_count_spec s m.takes_snapshots
    (max (wrap64 (s._ticks + 1)) (usecs_to_ticks m.at_usecs))
  unfold timer_path
  simp only [h, Bool.not_true, sp.status, sp.clock]
  simp

theorem event_is_next_iff (s : EventScheduler) (has_timer : Bool) (at_ticks : Int) :
    event_is_next s has_timer at_ticks = true ↔
      ∃ e rest, s._event_heap = e :: rest ∧ (has_timer = false ∨ e.at_ ≤ at_ticks) := by
  unfold event_is_next
  cases h : s._event_heap with
  | nil => simp
  | cons e rest => simp


theorem wrap64_of_inInt64 (x : Int) (h : InInt64 x) : wrap64 x = x := by
  unfold InInt64 at h
  unfold wrap64
  omega

theorem wellFormed_new : WellFormed EventScheduler.new :=
  ⟨isHeap_nil _, isHeap_nil _⟩

theorem wellFormed_schedule_snapshot (s : EventScheduler) (at_ : Int) (wf : WellFormed s) :
    WellFormed (schedule_snapshot s at_) :=
  ⟨push_heap_isHeap greater _ greater_comparesBy _ _ wf.1, wf.2⟩

theorem wellFormed_schedule_event (s : EventScheduler) (event : Event) (wf : WellFormed s) :
    WellFormed (schedule_event s event) :=
  ⟨wf.1, push_heap_isHeap is_later _ is_later_comparesBy _ _ wf.2⟩

theorem loop_body_event (s : EventScheduler) (m : Answers)
    (h : event_is_next s m.has_timer (usecs_to_ticks m.at_usecs) = true) :
    loop_body s m = { event_path s m with trace := .next_timer :: (event_path s m).trace } := by
  simp [loop_body, h]

theorem loop_body_timer (s : EventScheduler) (m : Answers)
    (h : event_is_next s m.has_timer (usecs_to_ticks m.at_usecs) = false) :
    loop_body s m = { timer_path s m with trace := .next_timer :: (timer_path s m).trace } := by
  simp [loop_body, h]

/-- With the event heap in heap order, the front event is next exactly when the
heap is non-empty and there is no timer or an earliest event is due no later
than the timer. -/
theorem event_is_next_iff_earliest (s : EventScheduler) (has_timer : Bool) (at_ticks : Int)
    (wf : WellFormed s) :
    event_is_next s has_timer at_ticks = true ↔
      (s._event_heap ≠ [] ∧ (has_timer = false ∨
        ∃ e ∈ s._event_heap, (∀ e2 ∈ s._event_heap, e.at_ ≤ e2.at_) ∧ e.at_ ≤ at_ticks)) := by
  rw [event_is_next_iff]
  constructor
  · rintro ⟨e, rest, he, hor⟩
    refine ⟨by simp [he], ?_⟩
    rcases hor with h | h
    · exact Or.inl h
    · refine Or.inr ⟨e, by simp [he], ?_, h⟩
      intro e2 he2
      rw [he] at he2
      have hh := wf.2
      rw [he] at hh
      rcases List.mem_cons.mp he2 with h1 | h1
      · subst h1; exact le_refl _
      · exact isHeap_head_le _ e rest hh e2 h1
  · rintro ⟨hne, hor⟩
    cases he : s._event_heap with
    | nil => exact absurd he hne
    | cons e rest =>
      refine ⟨e, rest, rfl, ?_⟩
      rcases hor with h | ⟨e1, he1, _, hle⟩
      · exact Or.inl h
      · have hh := wf.2
        rw [he] at hh he1
        have hfront : e.at_ ≤ e1.at_ := by
          rcases List.mem_cons.mp he1 with h1 | h1
          · subst h1; exact le_refl _
          · exact isHeap_head_le _ e rest hh e1 h1
        exact Or.inr (by omega)

/-- C1: in a pass of the loop body (`done()` was false) the event branch runs exactly when
the event heap is non-empty and the card reports no timer or an earliest
pending event has `at <= at_ticks`; then the front event, an earliest one, is
sent and `fire_timer` is not called.  In every other case the timer branch
runs and no event is sent.  An event whose tick equals the timer tick is
therefore dispatched, without `fire_timer`, in that pass. -/
theorem loop_body_chooses_path (s : EventScheduler) (m : Answers) (wf : WellFormed s) :
    ((s._event_heap ≠ [] ∧ (m.has_timer = false ∨
        ∃ e ∈ s._event_heap, (∀ e2 ∈ s._event_heap, e.at_ ≤ e2.at_) ∧
          e.at_ ≤ usecs_to_ticks m.at_usecs)) →
      loop_body s m = { event_path s m with trace := .next_timer :: (event_path s m).trace } ∧
      (∃ e, s._event_heap.head? = some e ∧ (∀ e2 ∈ s._event_heap, e.at_ ≤ e2.at_) ∧
        Action.send_tracker e e.at_ ∈ (loop_body s m).trace ∧
        Action.send_top e e.at_ ∈ (loop_body s m).trace) ∧
      ∀ c, Action.fire_timer c ∉ (loop_body s m).trace) ∧
    (¬ (s._event_heap ≠ [] ∧ (m.has_timer = false ∨
        ∃ e ∈ s._event_heap, (∀ e2 ∈ s._event_heap, e.at_ ≤ e2.at_) ∧
          e.at_ ≤ usecs_to_ticks m.at_usecs)) →
      loop_body s m = { timer_path s m with trace := .next_timer :: (timer_path s m).trace } ∧
      ∀ e c, Action.send_tracker e c ∉ (loop_body s m).trace ∧
        Action.send_top e c ∉ (loop_body s m).trace) ∧
    (∀ e, s._event_heap.head? = some e → m.has_timer = true →
      e.at_ = usecs_to_ticks m.at_usecs →
      Action.send_top e e.at_ ∈ (loop_body s m).trace ∧
      ∀ c, Action.fire_timer c ∉ (loop_body s m).trace) := by
  have key_event : event_is_next s m.has_timer (usecs_to_ticks m.at_usecs) = true →
      loop_body s m = { event_path s m with trace := .next_timer :: (event_path s m).trace } ∧
      (∃ e, s._event_heap.head? = some e ∧ (∀ e2 ∈ s._event_heap, e.at_ ≤ e2.at_) ∧
        Action.send_tracker e e.at_ ∈ (loop_body s m).trace ∧
        Action.send_top e e.at_ ∈ (loop_body s m).trace) ∧
      ∀ c, Action.fire_timer c ∉ (loop_body s m).trace := by
    intro hnext
    obtain ⟨e, rest, he, _⟩ := (event_is_next_iff s _ _).mp hnext
    have hbody := loop_body_event s m hnext
    have hpath := event_path_eq s m e rest he
    have hnd := advance_no_dispatch
      { s with _event_heap := pop_back (pop_heap is_later s._event_heap) } m.takes_snapshots e.at_
    refine ⟨hbody, ⟨e, by simp [he], ?_, ?_, ?_⟩, ?_⟩
    · intro e2 he2
      have hh := wf.2
      rw [he] at hh he2
      rcases List.mem_cons.mp he2 with h1 | h1
      · subst h1; exact le_refl _
      · exact isHeap_head_le _ e rest hh e2 h1
    · rw [hbody, hpath]; simp
    · rw [hbody, hpath]; simp
    · intro c hc
      rw [hbody, hpath] at hc
      simp only [List.mem_cons, List.mem_append, List.mem_singleton] at hc
      rcases hc with h | h | h | h | h
      · cases h
      · have := hnd _ h; simp [Action.is_dispatch] at this
      · cases h
      · cases h
      · cases h
  refine ⟨fun hcond => key_event ((event_is_next_iff_earliest s _ _ wf).mpr hcond), ?_, ?_⟩
  · intro hcond
    have hnext : event_is_next s m.has_timer (usecs_to_ticks m.at_usecs) = false := by
      cases h : event_is_next s m.has_timer (usecs_to_ticks m.at_usecs) with
      | false => rfl
      | true => exact absurd ((event_is_next_iff_earliest s _ _ wf).mp h) hcond
    have hbody := loop_body_timer s m hnext
    refine ⟨hbody, ?_⟩
    intro e c
    rw [hbody]
    cases ht : m.has_timer with
    | false => simp [timer_path, ht]
    | true =>
      have hnd := advance_no_dispatch s m.takes_snapshots
        (max (wrap64 (s._ticks + 1)) (usecs_to_ticks m.at_usecs))
      rw [timer_path_eq s m ht]
      constructor
      · intro hc
        simp only [List.mem_cons, List.mem_append, List.mem_singleton] at hc
        rcases hc with h | h | h | h
        · cases h
        · have := hnd _ h; simp [Action.is_dispatch] at this
        · cases h
        · cases h
      · intro hc
        simp only [List.mem_cons, List.mem_append, List.mem_singleton] at hc
        rcases hc with h | h | h | h
        · cases h
        · have := hnd _ h; simp [Action.is_dispatch] at this
        · cases h
        · cases h
  · intro e he ht heq
    have hnext : event_is_next s m.has_timer (usecs_to_ticks m.at_usecs) = true := by
      rw [event_is_next_iff]
      cases hs : s._event_heap with
      | nil => rw [hs] at he; simp at he
      | cons e1 rest =>
        rw [hs] at he
        simp at he
        subst he
        exact ⟨e1, rest, rfl, Or.inr (by omega)⟩
    obtain ⟨_, ⟨e1, he1, _, _, hsend⟩, hno⟩ := key_event hnext
    rw [he] at he1
    simp at he1
    subst he1
    exact ⟨hsend, hno⟩

theorem wellFormed_scenario_b : WellFormed scenario_b :=
  wellFormed_schedule_event _ _ (wellFormed_schedule_snapshot _ _ wellFormed_new)

/-- Witness of C1 in scenario B with a timer declared at 250000 usecs, tick 15: the mouse
move at tick 15 is sent and the timer is not fired. -/
theorem loop_body_chooses_path_witness :
    WellFormed scenario_b ∧
      (Action.send_top (.MouseMoveEvent 15 ⟨1, 2⟩) 15 ∈
          (loop_body scenario_b ⟨false, true, 250000, true⟩).trace ∧
        ∀ c, Action.fire_timer c ∉ (loop_body scenario_b ⟨false, true, 250000, true⟩).trace) :=
  ⟨wellFormed_scenario_b,
    (loop_body_chooses_path scenario_b ⟨false, true, 250000, true⟩ wellFormed_scenario_b).2.2
      (.MouseMoveEvent 15 ⟨1, 2⟩) (by decide) rfl (by decide)⟩

/-- C2: when the event branch of the loop body runs on a heap with front event `e`, the pass
returns with `_ticks = e.at()`, its trace ends with `e` sent to the event
tracker and then `e` sent to the top card, both with the clock at `e.at()`, no
other event is sent and no timer is fired in the pass, and the events left in
the heap are the other events. -/
theorem event_path_dispatch (s : EventScheduler) (m : Answers) (e : Event) (rest : List Event)
    (hfront : s._event_heap = e :: rest)
    (hnext : event_is_next s m.has_timer (usecs_to_ticks m.at_usecs) = true) :
    (loop_body s m).status = .returned ∧
    (loop_body s m).state._ticks = e.at_ ∧
    (∃ pre, (loop_body s m).trace =
        pre ++ [Action.send_tracker e e.at_, Action.send_top e e.at_] ∧
      ∀ a ∈ pre, a.is_dispatch = false) ∧
    (loop_body s m).state._event_heap.Perm rest := by
  obtain ⟨fired, sp⟩ := advance_tick_count_spec
    { s with _event_heap := pop_back (pop_heap is_later s._event_heap) } m.takes_snapshots e.at_
  have hnd := advance_no_dispatch
    { s with _event_heap := pop_back (pop_heap is_later s._event_heap) } m.takes_snapshots e.at_
  rw [loop_body_event s m hnext, event_path_eq s m e rest hfront]
  refine ⟨rfl, sp.clock, ⟨_, (List.cons_append _ _ _).symm, ?_⟩, ?_⟩
  · intro a ha
    rcases List.mem_cons.mp ha with h | h
    · subst h; rfl
    · exact hnd a h
  · show (advance_tick_count _ _ _).state._event_heap.Perm rest
    rw [sp.events]
    show (pop_back (pop_heap is_later s._event_heap)).Perm rest
    rw [hfront]
    exact (pop_back_pop_heap is_later Event.at_ is_later_comparesBy e rest).1

/-- Witness of C2 in scenario B with no timer declared. -/
theorem event_path_dispatch_witness :
    scenario_b._event_heap = [.MouseMoveEvent 15 ⟨1, 2⟩] ∧
    event_is_next scenario_b false (usecs_to_ticks 0) = true ∧
    (loop_body scenario_b ⟨false, false, 0, true⟩).state._ticks = 15 :=
  ⟨by decide, by decide,
    (event_path_dispatch scenario_b ⟨false, false, 0, true⟩ (.MouseMoveEvent 15 ⟨1, 2⟩) []
      (by decide) (by decide)).2.1⟩

/-- C3: when the timer branch of the loop body runs with a timer declared and `_ticks + 1`
is an `int64_t` value, the pass returns with
`_ticks = max(old _ticks + 1, at_ticks)`, which exceeds the old `_ticks`; its
trace ends with the assignment of that value to `_ticks` followed by the one
`fire_timer` call of the pass; and the event heap is unchanged. -/
theorem timer_path_progress (s : EventScheduler) (m : Answers)
    (hnext : event_is_next s m.has_timer (usecs_to_ticks m.at_usecs) = false)
    (htimer : m.has_timer = true) (hrange : InInt64 (s._ticks + 1)) :
    (loop_body s m).status = .returned ∧
    (loop_body s m).state._ticks = max (s._ticks + 1) (usecs_to_ticks m.at_usecs) ∧
    s._ticks < (loop_body s m).state._ticks ∧
    (∃ pre, (loop_body s m).trace =
        pre ++ [Action.set_ticks (max (s._ticks + 1) (usecs_to_ticks m.at_usecs)),
          Action.fire_timer (max (s._ticks + 1) (usecs_to_ticks m.at_usecs))] ∧
      ∀ a ∈ pre, a.is_dispatch = false) ∧
    (loop_body s m).state._event_heap = s._event_heap := by
  obtain ⟨fired, sp⟩ := advance_tick_count_spec s m.takes_snapshots
    (max (wrap64 (s._ticks + 1)) (usecs_to_ticks m.at_usecs))
  rw [loop_body_timer s m hnext, timer_path_eq s m htimer]
  rw [wrap64_of_inInt64 _ hrange] at sp ⊢
  refine ⟨rfl, sp.clock, ?_, ?_, sp.events⟩
  · show s._ticks < (advance_tick_count _ _ _).state._ticks
    rw [sp.clock]
    exact lt_of_lt_of_le (by omega) (le_max_left _ _)
  · refine ⟨.next_timer :: .advance (max (s._ticks + 1) (usecs_to_ticks m.at_usecs)) ::
      ((if fired = [] then [] else [.draw s._ticks]) ++ snapshot_calls fired), ?_, ?_⟩
    · show Action.next_timer :: ((advance_tick_count _ _ _).trace ++ _) = _
      rw [sp.trace]
      simp
    · intro a ha
      simp only [List.mem_cons, List.mem_append] at ha
      rcases ha with h | h | h | h
      · subst h; rfl
      · subst h; rfl
      · split at h
        · simp at h
        · simp at h; subst h; rfl
      · exact snapshot_calls_no_dispatch fired a h

/-- Witness of C3: a new scheduler and a timer declared at 500000 usecs, tick 30. -/
theorem timer_path_progress_witness :
    event_is_next EventScheduler.new true (usecs_to_ticks 500000) = false ∧
    InInt64 (EventScheduler.new._ticks + 1) ∧
    (loop_body EventScheduler.new ⟨false, true, 500000, true⟩).state._ticks =
      max (EventScheduler.new._ticks + 1) (usecs_to_ticks 500000) :=
  ⟨by decide, by decide,
    (timer_path_progress EventScheduler.new ⟨false, true, 500000, true⟩ (by decide) rfl
      (by decide)).2.1⟩

/-- C4: a pass of the loop body throws "Event heap empty and timer not set to fire." exactly
when the event heap is empty and the card reports no timer; when the heap is
non-empty or a timer is declared the pass returns.  Accordingly `loop` throws
in its first pass under that condition, and otherwise throws only if a later
pass does. -/
theorem loop_body_throws_iff (s : EventScheduler) (m : Answers) :
    ((∃ what, (loop_body s m).status = .threw what) ↔
      (s._event_heap = [] ∧ m.has_timer = false)) ∧
    ((s._event_heap = [] ∧ m.has_timer = false) →
      (loop_body s m).status = .threw "Event heap empty and timer not set to fire.") ∧
    ((s._event_heap ≠ [] ∨ m.has_timer = true) → (loop_body s m).status = .returned) ∧
    (∀ rest, m.done = false →
      ((s._event_heap = [] ∧ m.has_timer = false) →
        (loop s (m :: rest)).status = .threw "Event heap empty and timer not set to fire.") ∧
      ((s._event_heap ≠ [] ∨ m.has_timer = true) →
        (loop s (m :: rest)).status = (loop (loop_body s m).state rest).status)) := by
  have hthrow : (s._event_heap = [] ∧ m.has_timer = false) →
      (loop_body s m).status = .threw "Event heap empty and timer not set to fire." := by
    rintro ⟨h1, h2⟩
    simp [loop_body, event_is_next, timer_path, h1, h2]
  have hret : (s._event_heap ≠ [] ∨ m.has_timer = true) →
      (loop_body s m).status = .returned := by
    intro hor
    cases hnext : event_is_next s m.has_timer (usecs_to_ticks m.at_usecs) with
    | true =>
      obtain ⟨e, rest, he, _⟩ := (event_is_next_iff s _ _).mp hnext
      rw [loop_body_event s m hnext, event_path_eq s m e rest he]
    | false =>
      have ht : m.has_timer = true := by
        rcases hor with h | h
        · cases hs : s._event_heap with
          | nil => exact absurd hs h
          | cons e rest =>
            cases hm : m.has_timer with
            | true => rfl
            | false => simp [event_is_next, hs, hm] at hnext
        · exact h
      rw [loop_body_timer s m hnext, timer_path_eq s m ht]
  refine ⟨⟨?_, fun h => ⟨_, hthrow h⟩⟩, hthrow, hret, ?_⟩
  · rintro ⟨what, hw⟩
    by_contra hcon
    have : s._event_heap ≠ [] ∨ m.has_timer = true := by
      by_cases h1 : s._event_heap = []
      · right
        cases hm : m.has_timer with
        | true => rfl
        | false => exact absurd ⟨h1, hm⟩ hcon
      · exact Or.inl h1
    rw [hret this] at hw
    cases hw
  · intro rest hdone
    constructor
    · intro h
      simp [loop, hdone, hthrow h]
    · intro h
      simp [loop, hdone, hret h]

theorem snapshots_of_snapshot_calls (fired : List Int) :
    snapshots_of (snapshot_calls fired) = fired := by
  induction fired with
  | nil => rfl
  | cons t ts ih =>
    simp only [snapshots_of] at ih
    simp [snapshots_of, snapshot_calls, Action.snapshot_tick, ih]

theorem clock_values_snapshot_calls (fired : List Int) :
    clock_values (snapshot_calls fired) = fired := by
  induction fired with
  | nil => rfl
  | cons t ts ih =>
    simp only [clock_values] at ih
    simp [clock_values, snapshot_calls, Action.assigned, ih]

theorem advance_targets_snapshot_calls (fired : List Int) :
    advance_targets (snapshot_calls fired) = [] := by
  induction fired with
  | nil => rfl
  | cons t ts ih =>
    simp only [advance_targets] at ih
    simp [advance_targets, snapshot_calls, Action.advance_target, ih]

theorem mem_snapshot_calls (fired : List Int) (S c : Int)
    (h : Action.snapshot S c ∈ snapshot_calls fired) : S ∈ fired ∧ c = S := by
  induction fired with
  | nil => simp [snapshot_calls] at h
  | cons t ts ih =>
    simp only [snapshot_calls, List.mem_cons] at h
    rcases h with h | h | h
    · cases h
    · cases h; exact ⟨List.mem_cons_self _ _, rfl⟩
    · exact ⟨List.mem_cons_of_mem _ (ih h).1, (ih h).2⟩

theorem AdvanceSpec.snapshots_eq {s : EventScheduler} {takes_snapshots : Bool} {ticks : Int}
    {r : Outcome} {fired : List Int} (sp : AdvanceSpec s takes_snapshots ticks r fired) :
    snapshots_of r.trace = fired := by
  rw [sp.trace]
  have h := snapshots_of_snapshot_calls fired
  simp only [snapshots_of] at h ⊢
  by_cases hf : fired = []
  · subst hf; simp [snapshot_calls, Action.snapshot_tick]
  · simp [hf, Action.snapshot_tick, h]

theorem AdvanceSpec.clock_values_eq {s : EventScheduler} {takes_snapshots : Bool}
    {ticks : Int} {r : Outcome} {fired : List Int}
    (sp : AdvanceSpec s takes_snapshots ticks r fired) :
    clock_values r.trace = fired ++ [ticks] := by
  rw [sp.trace]
  have h := clock_values_snapshot_calls fired
  simp only [clock_values] at h ⊢
  by_cases hf : fired = []
  · subst hf; simp [snapshot_calls, Action.assigned]
  · simp [hf, Action.assigned, h]

theorem AdvanceSpec.targets_eq {s : EventScheduler} {takes_snapshots : Bool}
    {ticks : Int} {r : Outcome} {fired : List Int}
    (sp : AdvanceSpec s takes_snapshots ticks r fired) :
    advance_targets r.trace = [ticks] := by
  rw [sp.trace]
  have h := advance_targets_snapshot_calls fired
  simp only [advance_targets] at h ⊢
  by_cases hf : fired = []
  · subst hf; simp [snapshot_calls, Action.advance_target]
  · simp [hf, Action.advance_target, h]

theorem AdvanceSpec.mem_snapshot {s : EventScheduler} {takes_snapshots : Bool}
    {ticks : Int} {r : Outcome} {fired : List Int}
    (sp : AdvanceSpec s takes_snapshots ticks r fired) (S c : Int)
    (h : Action.snapshot S c ∈ r.trace) : S ∈ fired ∧ c = S := by
  rw [sp.trace] at h
  simp only [List.mem_cons, List.mem_append, List.mem_singleton] at h
  rcases h with h | (h | h) | h
  · cases h
  · split at h
    · simp at h
    · simp at h
  · exact mem_snapshot_calls fired S c h
  · simp at h

theorem have_snapshots_before_of_le (s : EventScheduler) (ticks : Int)
    (h : ∀ x ∈ s._snapshot_times, ticks ≤ x) : have_snapshots_before s ticks = false := by
  unfold have_snapshots_before
  cases hs : s._snapshot_times with
  | nil => rfl
  | cons front rest =>
    have := h front (by simp [hs])
    simp only [decide_eq_false_iff_not]
    omega

/-- C5 (counterexample): with the clock at 10 and the snapshot tick 3 queued,
`advance_tick_count` with target 5 returns normally, fires `snapshot(3)` and leaves the
clock at 5; and `loop`, given a further key press scheduled at tick 5, returns
normally after dispatching it with the clock moved from 10 back to 5. -/
theorem advance_below_clock_counterexample :
    after_key_press._ticks = 10 ∧
    (advance_tick_count after_key_press true 5).status = .returned ∧
    (advance_tick_count after_key_press true 5).state._ticks = 5 ∧
    (advance_tick_count after_key_press true 5).trace =
      [.advance 5, .draw 10, .set_ticks 3, .snapshot 3 3, .set_ticks 5] ∧
    loop (schedule_event after_key_press (.KeyDownEvent 5 66))
        [⟨false, false, 0, true⟩, ⟨true, false, 0, true⟩] =
      { state := { _ticks := 5, _snapshot_times := [], _event_heap := [.KeyUpEvent 20 65] }
        trace := [.next_timer, .advance 5, .draw 10, .set_ticks 3, .snapshot 3 3, .set_ticks 5,
          .send_tracker (.KeyDownEvent 5 66) 5, .send_top (.KeyDownEvent 5 66) 5]
        status := .returned } := by
  decide

/-- C5 (amended): `advance_tick_count` called with a target strictly below `_ticks` does not
fail.  It returns with `_ticks` set to the target, after firing the queued
snapshot ticks it finds strictly below the target when snapshots are taken;
when no snapshots are taken or every queued snapshot tick is at or above the
target it only assigns the target to `_ticks`.  It sends no event, fires no
timer and leaves the event heap unchanged. -/
theorem advance_below_clock (s : EventScheduler) (takes_snapshots : Bool) (ticks : Int)
    (hbelow : ticks < s._ticks) :
    (advance_tick_count s takes_snapshots ticks).status = .returned ∧
    (advance_tick_count s takes_snapshots ticks).state._ticks = ticks ∧
    (advance_tick_count s takes_snapshots ticks).state._ticks < s._ticks ∧
    (advance_tick_count s takes_snapshots ticks).state._event_heap = s._event_heap ∧
    (∀ a ∈ (advance_tick_count s takes_snapshots ticks).trace, a.is_dispatch = false) ∧
    (∀ x ∈ snapshots_of (advance_tick_count s takes_snapshots ticks).trace,
      x < ticks ∧ x ∈ s._snapshot_times) ∧
    ((takes_snapshots = false ∨ ∀ x ∈ s._snapshot_times, ticks ≤ x) →
      (advance_tick_count s takes_snapshots ticks).trace = [.advance ticks, .set_ticks ticks] ∧
      (advance_tick_count s takes_snapshots ticks).state._snapshot_times =
        s._snapshot_times) := by
  obtain ⟨fired, sp⟩ := advance_tick_count_spec s takes_snapshots ticks
  refine ⟨sp.status, sp.clock, by rw [sp.clock]; exact hbelow, sp.events,
    advance_no_dispatch s takes_snapshots ticks, ?_, ?_⟩
  · intro x hx
    rw [sp.snapshots_eq] at hx
    exact ⟨sp.below x hx, sp.perm.subset (List.mem_append_left _ hx)⟩
  · intro hor
    have hf : fired = [] := by
      rcases hor with h | h
      · exact sp.not_taken h
      · exact sp.none_due (have_snapshots_before_of_le s ticks h)
    have hc : (takes_snapshots && have_snapshots_before s ticks) = false := by
      rcases hor with h | h
      · simp [h]
      · simp [have_snapshots_before_of_le s ticks h]
    simp [advance_tick_count, hc]

/-- Witness of C5 (amended): the clock at 10 and the target 5. -/
theorem advance_below_clock_witness :
    (5 : Int) < after_key_press._ticks ∧
    (advance_tick_count after_key_press true 5).state._ticks = 5 :=
  ⟨by decide, (advance_below_clock after_key_press true 5 (by decide)).2.1⟩

/-- C7 (counterexample): with the clock at 10 and the snapshot tick 3 queued,
`advance_tick_count` with target 12 assigns 3 and then 12 to `_ticks`: the first value is
below the clock on entry. -/
theorem advance_rewinds_counterexample :
    after_key_press._ticks = 10 ∧ after_key_press._snapshot_times = [3] ∧
    clock_values (advance_tick_count after_key_press true 12).trace = [3, 12] ∧
    ¬ (∀ v ∈ clock_values (advance_tick_count after_key_press true 12).trace,
        after_key_press._ticks ≤ v) := by
  decide

/-- C7 (amended): in `advance_tick_count(target)` with `target >= _ticks`, when every queued
snapshot tick is at or above `_ticks` on entry, every value assigned to
`_ticks` (each popped snapshot tick, then the target) is at or above `_ticks`
on entry; with the snapshot heap in heap order the assigned values are
moreover non-decreasing. -/
theorem advance_never_rewinds (s : EventScheduler) (takes_snapshots : Bool) (ticks : Int)
    (htarget : s._ticks ≤ ticks) (hqueued : ∀ x ∈ s._snapshot_times, s._ticks ≤ x) :
    (∃ fired, clock_values (advance_tick_count s takes_snapshots ticks).trace =
        fired ++ [ticks] ∧
      snapshots_of (advance_tick_count s takes_snapshots ticks).trace = fired) ∧
    (∀ v ∈ clock_values (advance_tick_count s takes_snapshots ticks).trace, s._ticks ≤ v) ∧
    (IsHeap (fun t : Int => t) s._snapshot_times →
      (clock_values (advance_tick_count s takes_snapshots ticks).trace).Sorted (· ≤ ·)) := by
  obtain ⟨fired, sp⟩ := advance_tick_count_spec s takes_snapshots ticks
  refine ⟨⟨fired, sp.clock_values_eq, sp.snapshots_eq⟩, ?_, ?_⟩
  · intro v hv
    rw [sp.clock_values_eq] at hv
    rcases List.mem_append.mp hv with h | h
    · exact hqueued v (sp.perm.subset (List.mem_append_left _ h))
    · simp at h; subst h; exact htarget
  · intro hh
    rw [sp.clock_values_eq]
    obtain ⟨_, hsorted, _, _⟩ := sp.heap hh
    refine List.pairwise_append.mpr ⟨hsorted, List.pairwise_singleton _ _, ?_⟩
    intro a ha b hb
    simp at hb; subst hb
    exact le_of_lt (sp.below a ha)

/-- Witness of C7 (amended): scenario B, target 20. -/
theorem advance_never_rewinds_witness :
    scenario_b._ticks ≤ 20 ∧ (∀ x ∈ scenario_b._snapshot_times, scenario_b._ticks ≤ x) ∧
    (∀ v ∈ clock_values (advance_tick_count scenario_b true 20).trace, scenario_b._ticks ≤ v) :=
  ⟨by decide, by decide,
    (advance_never_rewinds scenario_b true 20 (by decide) (by decide)).2.1⟩

/-- C9: every `snapshot` call made by `advance_tick_count` passes a tick that is queued in
`_snapshot_times` when `advance_tick_count` is entered, and `_ticks` equals that tick at
the time of the call. -/
theorem snapshot_call_exact (s : EventScheduler) (takes_snapshots : Bool) (ticks S c : Int)
    (hcall : Action.snapshot S c ∈ (advance_tick_count s takes_snapshots ticks).trace) :
    S ∈ s._snapshot_times ∧ c = S := by
  obtain ⟨fired, sp⟩ := advance_tick_count_spec s takes_snapshots ticks
  obtain ⟨h1, h2⟩ := sp.mem_snapshot S c hcall
  exact ⟨sp.perm.subset (List.mem_append_left _ h1), h2⟩

/-- Witness of C9: scenario B, target 20, the call `snapshot(15)`. -/
theorem snapshot_call_exact_witness :
    Action.snapshot 15 15 ∈ (advance_tick_count scenario_b true 20).trace ∧
    (15 : Int) ∈ scenario_b._snapshot_times :=
  ⟨by decide, (snapshot_call_exact scenario_b true 20 15 15 (by decide)).1⟩

/-- With snapshots taken and the snapshot heap in heap order, `advance_tick_count` fires
every queued copy of a tick below its target and leaves none queued. -/
theorem advance_fires_all_below (s : EventScheduler) (ticks S : Int)
    (hh : IsHeap (fun t : Int => t) s._snapshot_times) (hS : S < ticks) :
    List.count S (snapshots_of (advance_tick_count s true ticks).trace) =
      List.count S s._snapshot_times ∧
    S ∉ (advance_tick_count s true ticks).state._snapshot_times := by
  obtain ⟨fired, sp⟩ := advance_tick_count_spec s true ticks
  obtain ⟨_, _, _, hrem⟩ := sp.heap hh
  have hnot : S ∉ (advance_tick_count s true ticks).state._snapshot_times := by
    intro hmem
    have := hrem rfl S hmem
    omega
  refine ⟨?_, hnot⟩
  rw [sp.snapshots_eq]
  have hc := sp.perm.count_eq S
  rw [List.count_append, List.count_eq_zero_of_not_mem hnot] at hc
  omega

/-- `advance_tick_count` fires no tick at or above its target and keeps every queued copy
of such a tick. -/
theorem advance_keeps_at_or_above (s : EventScheduler) (takes_snapshots : Bool)
    (ticks S : Int) (hS : ticks ≤ S) :
    List.count S (snapshots_of (advance_tick_count s takes_snapshots ticks).trace) = 0 ∧
    List.count S (advance_tick_count s takes_snapshots ticks).state._snapshot_times =
      List.count S s._snapshot_times := by
  obtain ⟨fired, sp⟩ := advance_tick_count_spec s takes_snapshots ticks
  have hnot : S ∉ fired := by
    intro hmem
    have := sp.below S hmem
    omega
  rw [sp.snapshots_eq]
  have hc := sp.perm.count_eq S
  rw [List.count_append, List.count_eq_zero_of_not_mem hnot] at hc
  exact ⟨List.count_eq_zero_of_not_mem hnot, by omega⟩

theorem loop_body_cases (s : EventScheduler) (m : Answers) :
    (∃ e rest, s._event_heap = e :: rest ∧
      (m.has_timer = false ∨ e.at_ ≤ usecs_to_ticks m.at_usecs) ∧
      loop_body s m =
        { state := (advance_tick_count
            { s with _event_heap := pop_back (pop_heap is_later s._event_heap) }
            m.takes_snapshots e.at_).state
          trace := .next_timer :: ((advance_tick_count
            { s with _event_heap := pop_back (pop_heap is_later s._event_heap) }
            m.takes_snapshots e.at_).trace ++ [.send_tracker e e.at_, .send_top e e.at_])
          status := .returned }) ∨
    (m.has_timer = true ∧
      (∀ e rest, s._event_heap = e :: rest → usecs_to_ticks m.at_usecs < e.at_) ∧
      loop_body s m =
        { state := (advance_tick_count s m.takes_snapshots
            (max (wrap64 (s._ticks + 1)) (usecs_to_ticks m.at_usecs))).state
          trace := .next_timer :: ((advance_tick_count s m.takes_snapshots
            (max (wrap64 (s._ticks + 1)) (usecs_to_ticks m.at_usecs))).trace ++
              [.fire_timer (max (wrap64 (s._ticks + 1)) (usecs_to_ticks m.at_usecs))])
          status := .returned }) ∨
    (s._event_heap = [] ∧ m.has_timer = false ∧
      loop_body s m =
        { state := s, trace := [.next_timer]
          status := .threw "Event heap empty and timer not set to fire." }) := by
  cases hnext : event_is_next s m.has_timer (usecs_to_ticks m.at_usecs) with
  | true =>
    obtain ⟨e, rest, he, hor⟩ := (event_is_next_iff s _ _).mp hnext
    refine Or.inl ⟨e, rest, he, hor, ?_⟩
    rw [loop_body_event s m hnext, event_path_eq s m e rest he]
  | false =>
    cases ht : m.has_timer with
    | true =>
      refine Or.inr (Or.inl ⟨rfl, ?_, ?_⟩)
      · intro e rest he
        simp [event_is_next, he, ht] at hnext
        exact hnext
      · rw [loop_body_timer s m hnext, timer_path_eq s m ht]
    | false =>
      refine Or.inr (Or.inr ⟨?_, rfl, ?_⟩)
      · cases hs : s._event_heap with
        | nil => rfl
        | cons e rest => simp [event_is_next, hs, ht] at hnext
      · rw [loop_body_timer s m hnext]
        simp [timer_path, ht]

theorem loop_body_shape (s : EventScheduler) (m : Answers) :
    (∃ s1 target tail, s1._ticks = s._ticks ∧ s1._snapshot_times = s._snapshot_times ∧
      loop_body s m =
        { state := (advance_tick_count s1 m.takes_snapshots target).state
          trace := .next_timer :: ((advance_tick_count s1 m.takes_snapshots target).trace ++ tail)
          status := .returned } ∧
      ∀ a ∈ tail, a.is_dispatch = true) ∨
    loop_body s m =
      { state := s, trace := [.next_timer]
        status := .threw "Event heap empty and timer not set to fire." } := by
  rcases loop_body_cases s m with ⟨e, rest, _, _, h⟩ | ⟨_, _, h⟩ | ⟨_, _, h⟩
  · refine Or.inl ⟨{ s with _event_heap := pop_back (pop_heap is_later s._event_heap) },
      e.at_, _, rfl, rfl, h, ?_⟩
    intro a ha
    simp at ha
    rcases ha with h1 | h1 <;> subst h1 <;> rfl
  · refine Or.inl ⟨s, _, _, rfl, rfl, h, ?_⟩
    intro a ha
    simp at ha
    subst ha; rfl
  · exact Or.inr h

theorem snapshots_of_dispatches (tail : List Action) (h : ∀ a ∈ tail, a.is_dispatch = true) :
    snapshots_of tail = [] := by
  unfold snapshots_of
  rw [List.filterMap_eq_nil_iff]
  intro a ha
  have := h a ha
  cases a <;> simp_all [Action.is_dispatch, Action.snapshot_tick]

theorem advance_targets_dispatches (tail : List Action)
    (h : ∀ a ∈ tail, a.is_dispatch = true) : advance_targets tail = [] := by
  unfold advance_targets
  rw [List.filterMap_eq_nil_iff]
  intro a ha
  have := h a ha
  cases a <;> simp_all [Action.is_dispatch, Action.advance_target]

theorem snapshots_of_append (a b : List Action) :
    snapshots_of (a ++ b) = snapshots_of a ++ snapshots_of b := by
  simp [snapshots_of]

theorem advance_targets_append (a b : List Action) :
    advance_targets (a ++ b) = advance_targets a ++ advance_targets b := by
  simp [advance_targets]

/-- What one pass of the loop body does to the snapshot heap when it returns. -/
theorem loop_body_snapshots (s : EventScheduler) (m : Answers) :
    (∃ target,
      (loop_body s m).status = .returned ∧
      advance_targets (loop_body s m).trace = [target] ∧
      (loop_body s m).state._ticks = target ∧
      (snapshots_of (loop_body s m).trace ++ (loop_body s m).state._snapshot_times).Perm
        s._snapshot_times ∧
      (∀ x ∈ snapshots_of (loop_body s m).trace, x < target) ∧
      (IsHeap (fun t : Int => t) s._snapshot_times →
        IsHeap (fun t : Int => t) (loop_body s m).state._snapshot_times ∧
        (m.takes_snapshots = true → ∀ y ∈ (loop_body s m).state._snapshot_times, target ≤ y))) ∨
    loop_body s m =
      { state := s, trace := [.next_timer]
        status := .threw "Event heap empty and timer not set to fire." } := by
  rcases loop_body_shape s m with ⟨s1, target, tail, h1, h2, hbody, htail⟩ | h
  · left
    obtain ⟨fired, sp⟩ := advance_tick_count_spec s1 m.takes_snapshots target
    have hsnap : snapshots_of (loop_body s m).trace = fired := by
      rw [hbody]
      show snapshots_of ([Action.next_timer] ++ (_ ++ tail)) = fired
      rw [snapshots_of_append, snapshots_of_append, sp.snapshots_eq,
        snapshots_of_dispatches tail htail]
      simp [snapshots_of, Action.snapshot_tick]
    have htar : advance_targets (loop_body s m).trace = [target] := by
      rw [hbody]
      show advance_targets ([Action.next_timer] ++ (_ ++ tail)) = [target]
      rw [advance_targets_append, advance_targets_append, sp.targets_eq,
        advance_targets_dispatches tail htail]
      simp [advance_targets, Action.advance_target]
    refine ⟨target, by rw [hbody], htar, by rw [hbody]; exact sp.clock, ?_, ?_, ?_⟩
    · rw [hsnap, hbody, ← h2]; exact sp.perm
    · rw [hsnap]; exact sp.below
    · intro hh
      rw [← h2] at hh
      obtain ⟨k1, _, _, k4⟩ := sp.heap hh
      rw [hbody]
      exact ⟨k1, k4⟩
  · exact Or.inr h


theorem loop_cons_done (s : EventScheduler) (m : Answers) (rest : List Answers)
    (h : m.done = true) :
    loop s (m :: rest) = { state := s, trace := [], status := .returned } := by
  simp [loop, h]

theorem loop_cons_returned (s : EventScheduler) (m : Answers) (rest : List Answers)
    (hd : m.done = false) (hr : (loop_body s m).status = .returned) :
    loop s (m :: rest) =
      { state := (loop (loop_body s m).state rest).state
        trace := (loop_body s m).trace ++ (loop (loop_body s m).state rest).trace
        status := (loop (loop_body s m).state rest).status } := by
  simp [loop, hd, hr]

theorem loop_cons_threw (s : EventScheduler) (m : Answers) (rest : List Answers)
    (hd : m.done = false)
    (hr : loop_body s m =
      { state := s, trace := [.next_timer]
        status := .threw "Event heap empty and timer not set to fire." }) :
    loop s (m :: rest) =
      { state := s, trace := [.next_timer]
        status := .threw "Event heap empty and timer not set to fire." } := by
  simp [loop, hd, hr]

/-- Snapshot ticks are neither created nor lost by `loop`: those passed to `snapshot`
together with those still queued are those queued at the start. -/
theorem loop_snapshots_conserved : ∀ (script : List Answers) (s : EventScheduler),
    (snapshots_of (loop s script).trace ++ (loop s script).state._snapshot_times).Perm
      s._snapshot_times := by
  intro script
  induction script with
  | nil => intro s; simp [loop, snapshots_of]
  | cons m rest ih =>
    intro s
    cases hd : m.done with
    | true => rw [loop_cons_done s m rest hd]; simp [snapshots_of]
    | false =>
      rcases loop_body_snapshots s m with ⟨target, hr, _, _, hperm, _, _⟩ | h
      · rw [loop_cons_returned s m rest hd hr]
        show (snapshots_of (_ ++ _) ++ _).Perm _
        rw [snapshots_of_append, List.append_assoc]
        exact ((ih (loop_body s m).state).append_left _).trans hperm
      · rw [loop_cons_threw s m rest hd h]
        simp [snapshots_of, Action.snapshot_tick]

/-- Once an advance target of the run exceeds the tick `S`, no copy of `S` is queued any more
(snapshots taken in every pass, snapshot heap in heap order at the start). -/
theorem loop_snapshots_fired : ∀ (script : List Answers) (s : EventScheduler) (S : Int),
    IsHeap (fun t : Int => t) s._snapshot_times →
    (∀ m ∈ script, m.takes_snapshots = true) →
    (∃ t ∈ advance_targets (loop s script).trace, S < t) →
    S ∉ (loop s script).state._snapshot_times := by
  intro script
  induction script with
  | nil =>
    intro s S _ _ hex
    simp [loop, advance_targets] at hex
  | cons m rest ih =>
    intro s S hh htakes hex
    cases hd : m.done with
    | true =>
      rw [loop_cons_done s m rest hd] at hex
      simp [advance_targets] at hex
    | false =>
      rcases loop_body_snapshots s m with ⟨target, hr, htar, _, _, _, hheap⟩ | h
      · obtain ⟨hh2, hrem⟩ := hheap hh
        rw [loop_cons_returned s m rest hd hr] at hex ⊢
        obtain ⟨t, ht, hSt⟩ := hex
        simp only [advance_targets_append, htar, List.mem_append, List.mem_singleton] at ht
        rcases ht with h1 | h1
        · subst h1
          intro hmem
          have hsub : S ∈ (loop_body s m).state._snapshot_times :=
            (loop_snapshots_conserved rest (loop_body s m).state).subset
              (List.mem_append_right _ hmem)
          have := hrem (htakes m (List.mem_cons_self _ _)) S hsub
          omega
        · exact ih (loop_body s m).state S hh2
            (fun m2 hm2 => htakes m2 (List.mem_cons_of_mem _ hm2)) ⟨t, h1, hSt⟩
      · rw [loop_cons_threw s m rest hd h] at hex
        simp [advance_targets, Action.advance_target] at hex

/-- The trace of a run on a longer oracle extends the trace on a shorter one. -/
theorem loop_trace_prefix : ∀ (pre post : List Answers) (s : EventScheduler),
    ∃ more, (loop s (pre ++ post)).trace = (loop s pre).trace ++ more := by
  intro pre
  induction pre with
  | nil => intro post s; exact ⟨(loop s post).trace, by simp [loop]⟩
  | cons m rest ih =>
    intro post s
    cases hd : m.done with
    | true =>
      refine ⟨[], ?_⟩
      rw [List.cons_append, loop_cons_done s m _ hd, loop_cons_done s m _ hd]
      rfl
    | false =>
      rcases loop_body_snapshots s m with ⟨target, hr, _⟩ | h
      · obtain ⟨more, hmore⟩ := ih post (loop_body s m).state
        refine ⟨more, ?_⟩
        rw [List.cons_append, loop_cons_returned s m _ hd hr, loop_cons_returned s m _ hd hr]
        show _ ++ _ = (_ ++ _) ++ _
        rw [hmore, List.append_assoc]
      · refine ⟨[], ?_⟩
        rw [List.cons_append, loop_cons_threw s m _ hd h, loop_cons_threw s m _ hd h]
        rfl

/-- C10: in a run of `loop` with snapshots taken in every pass, from a state whose snapshot
heap is in heap order (as `schedule_snapshot` leaves it): the calls
`snapshot(S)` made so far and the copies of `S` still queued always add up to
the copies of `S` queued at the start; once an advance target of the run
exceeds `S`, `snapshot(S)` has been called once per queued copy and `S` is no
longer queued; and extending the run beyond such a point adds no further call
of `snapshot(S)`.  A single `advance_tick_count` with a target above `S` already calls
`snapshot(S)` once per queued copy. -/
theorem snapshot_exactly_once (s : EventScheduler) (script : List Answers) (S : Int)
    (hheap : IsHeap (fun t : Int => t) s._snapshot_times)
    (htakes : ∀ m ∈ script, m.takes_snapshots = true) :
    (List.count S (snapshots_of (loop s script).trace) +
        List.count S (loop s script).state._snapshot_times =
      List.count S s._snapshot_times) ∧
    ((∃ t ∈ advance_targets (loop s script).trace, S < t) →
      List.count S (snapshots_of (loop s script).trace) = List.count S s._snapshot_times ∧
      S ∉ (loop s script).state._snapshot_times) ∧
    (∀ pre post, script = pre ++ post →
      (∃ t ∈ advance_targets (loop s pre).trace, S < t) →
      List.count S (snapshots_of (loop s script).trace) =
        List.count S (snapshots_of (loop s pre).trace)) ∧
    (∀ ticks, S < ticks →
      List.count S (snapshots_of (advance_tick_count s true ticks).trace) =
        List.count S s._snapshot_times) := by
  have hsum : ∀ sc : List Answers,
      List.count S (snapshots_of (loop s sc).trace) +
        List.count S (loop s sc).state._snapshot_times = List.count S s._snapshot_times := by
    intro sc
    have := (loop_snapshots_conserved sc s).count_eq S
    rw [List.count_append] at this
    exact this
  have hall : ∀ sc : List Answers, (∀ m ∈ sc, m.takes_snapshots = true) →
      (∃ t ∈ advance_targets (loop s sc).trace, S < t) →
      List.count S (snapshots_of (loop s sc).trace) = List.count S s._snapshot_times ∧
      S ∉ (loop s sc).state._snapshot_times := by
    intro sc hsc hex
    have hnot := loop_snapshots_fired sc s S hheap hsc hex
    have := hsum sc
    rw [List.count_eq_zero_of_not_mem hnot] at this
    exact ⟨by omega, hnot⟩
  refine ⟨hsum script, hall script htakes, ?_, ?_⟩
  · intro pre post hsplit hex
    have hpre := hall pre (fun m hm => htakes m (by rw [hsplit]; exact List.mem_append_left _ hm))
      hex
    obtain ⟨more, hmore⟩ := loop_trace_prefix pre post s
    have hex2 : ∃ t ∈ advance_targets (loop s script).trace, S < t := by
      obtain ⟨t, ht, hSt⟩ := hex
      refine ⟨t, ?_, hSt⟩
      rw [hsplit, hmore, advance_targets_append]
      exact List.mem_append_left _ ht
    rw [(hall script htakes hex2).1, hpre.1]
  · intro ticks hlt
    exact (advance_fires_all_below s ticks S hheap hlt).1

/-- Witness of C10: scenario B with no timer in the first pass and a timer at tick 30 in the
second; the target 30 exceeds the snapshot tick 15. -/
theorem snapshot_exactly_once_witness :
    IsHeap (fun t : Int => t) scenario_b._snapshot_times ∧
    (∃ t ∈ advance_targets (loop scenario_b
      [⟨false, false, 0, true⟩, ⟨false, true, 500000, true⟩]).trace, (15 : Int) < t) ∧
    List.count 15 (snapshots_of (loop scenario_b
      [⟨false, false, 0, true⟩, ⟨false, true, 500000, true⟩]).trace) =
      List.count 15 scenario_b._snapshot_times :=
  ⟨wellFormed_scenario_b.1, by decide,
    ((snapshot_exactly_once scenario_b
      [⟨false, false, 0, true⟩, ⟨false, true, 500000, true⟩] 15 wellFormed_scenario_b.1
      (by decide)).2.1 (by decide)).1⟩

theorem wrap64_inInt64 (x : Int) : InInt64 (wrap64 x) := by
  unfold InInt64 wrap64
  omega

/-- The timer tick computed by `loop` lies well inside the `int64_t` range. -/
theorem usecs_to_ticks_bound (u : Int) :
    -9223372036854 ≤ usecs_to_ticks u ∧ usecs_to_ticks u ≤ 9223372036854 := by
  unfold usecs_to_ticks
  have hw := wrap64_inInt64 (u * 60)
  unfold InInt64 at hw
  generalize wrap64 (u * 60) = w at hw
  by_cases h0 : 0 ≤ w
  · rw [Int.tdiv_eq_ediv h0 (by decide)]
    omega
  · have hneg : w = -(-w) := by omega
    rw [hneg, Int.neg_tdiv, Int.tdiv_eq_ediv (by omega) (by decide)]
    omega


/-- A pass of the loop body that returns keeps both heaps in heap order. -/
theorem loop_body_wellFormed (s : EventScheduler) (m : Answers) (wf : WellFormed s) :
    WellFormed (loop_body s m).state := by
  rcases loop_body_cases s m with ⟨e, rest, he, _, h⟩ | ⟨_, _, h⟩ | ⟨_, _, h⟩
  · obtain ⟨fired, sp⟩ := advance_tick_count_spec
      { s with _event_heap := pop_back (pop_heap is_later s._event_heap) }
      m.takes_snapshots e.at_
    rw [h]
    refine ⟨(sp.heap wf.1).1, ?_⟩
    show IsHeap Event.at_ (advance_tick_count _ _ _).state._event_heap
    rw [sp.events]
    show IsHeap Event.at_ (pop_back (pop_heap is_later s._event_heap))
    have hh := wf.2
    rw [he] at hh ⊢
    exact (pop_back_pop_heap is_later Event.at_ is_later_comparesBy e rest).2 hh
  · obtain ⟨fired, sp⟩ := advance_tick_count_spec s m.takes_snapshots
      (max (wrap64 (s._ticks + 1)) (usecs_to_ticks m.at_usecs))
    rw [h]
    refine ⟨(sp.heap wf.1).1, ?_⟩
    show IsHeap Event.at_ (advance_tick_count _ _ _).state._event_heap
    rw [sp.events]
    exact wf.2
  · rw [h]; exact wf

/-- A pass of the loop body in which the declared timer tick, if any, is not below `_ticks`
moves `_ticks` forward to its advance target and leaves no queued event behind
the clock. -/
theorem loop_body_monotone (s : EventScheduler) (m : Answers) (wf : WellFormed s)
    (inv : EventsNotBehind s)
    (hfresh : m.has_timer = true → s._ticks ≤ usecs_to_ticks m.at_usecs)
    (hr : (loop_body s m).status = .returned) :
    EventsNotBehind (loop_body s m).state ∧ s._ticks ≤ (loop_body s m).state._ticks ∧
      advance_targets (loop_body s m).trace = [(loop_body s m).state._ticks] := by
  have htargets : advance_targets (loop_body s m).trace = [(loop_body s m).state._ticks] := by
    rcases loop_body_snapshots s m with ⟨target, _, htar, hclock, _⟩ | h
    · rw [htar, hclock]
    · rw [h] at hr; cases hr
  refine ⟨?_, ?_, htargets⟩ <;>
  rcases loop_body_cases s m with ⟨e, rest, he, _, h⟩ | ⟨ht, hlt, h⟩ | ⟨_, _, h⟩
  · obtain ⟨fired, sp⟩ := advance_tick_count_spec
      { s with _event_heap := pop_back (pop_heap is_later s._event_heap) }
      m.takes_snapshots e.at_
    rw [h]
    have hmem : e ∈ s._event_heap := by simp [he]
    constructor
    · show InInt64 (advance_tick_count _ _ _).state._ticks
      rw [sp.clock]; exact (inv.2 e hmem).2
    · intro e2 he2
      have he2' : e2 ∈ (advance_tick_count
          { s with _event_heap := pop_back (pop_heap is_later s._event_heap) }
          m.takes_snapshots e.at_).state._event_heap := he2
      rw [sp.events] at he2'
      have he3 : e2 ∈ pop_back (pop_heap is_later s._event_heap) := he2'
      rw [he] at he3
      have hrest : e2 ∈ rest :=
        (pop_back_pop_heap is_later Event.at_ is_later_comparesBy e rest).1.subset he3
      have hh := wf.2
      rw [he] at hh
      have hle := isHeap_head_le _ e rest hh e2 hrest
      show (advance_tick_count _ _ _).state._ticks ≤ e2.at_ ∧ InInt64 e2.at_
      rw [sp.clock]
      exact ⟨hle, (inv.2 e2 (by rw [he]; exact List.mem_cons_of_mem _ hrest)).2⟩
  · obtain ⟨fired, sp⟩ := advance_tick_count_spec s m.takes_snapshots
      (max (wrap64 (s._ticks + 1)) (usecs_to_ticks m.at_usecs))
    have hb := usecs_to_ticks_bound m.at_usecs
    have hf := hfresh ht
    have hin := inv.1
    unfold InInt64 at hin
    rw [h]
    cases hs : s._event_heap with
    | nil =>
      have hw : wrap64 (s._ticks + 1) = s._ticks + 1 :=
        wrap64_of_inInt64 _ (by unfold InInt64; omega)
      constructor
      · show InInt64 (advance_tick_count _ _ _).state._ticks
        rw [sp.clock, hw]
        unfold InInt64
        rcases max_choice (s._ticks + 1) (usecs_to_ticks m.at_usecs) with h1 | h1 <;>
          rw [h1] <;> omega
      · intro e2 he2
        have he2' : e2 ∈ (advance_tick_count s m.takes_snapshots
          (max (wrap64 (s._ticks + 1)) (usecs_to_ticks m.at_usecs))).state._event_heap := he2
        rw [sp.events, hs] at he2'
        simp at he2'
    | cons e rest =>
      have hfront := hlt e rest hs
      have hh := wf.2
      rw [hs] at hh
      have hein := (inv.2 e (by simp [hs])).2
      unfold InInt64 at hein
      have hw : wrap64 (s._ticks + 1) = s._ticks + 1 :=
        wrap64_of_inInt64 _ (by unfold InInt64; omega)
      constructor
      · show InInt64 (advance_tick_count _ _ _).state._ticks
        rw [sp.clock, hw]
        unfold InInt64
        rcases max_choice (s._ticks + 1) (usecs_to_ticks m.at_usecs) with h1 | h1 <;>
          rw [h1] <;> omega
      · intro e2 he2
        have he2' : e2 ∈ (advance_tick_count s m.takes_snapshots
          (max (wrap64 (s._ticks + 1)) (usecs_to_ticks m.at_usecs))).state._event_heap := he2
        rw [sp.events, hs] at he2'
        have hle : e.at_ ≤ e2.at_ := by
          rcases List.mem_cons.mp he2' with h1 | h1
          · subst h1; exact le_refl _
          · exact isHeap_head_le _ e rest hh e2 h1
        show (advance_tick_count _ _ _).state._ticks ≤ e2.at_ ∧ InInt64 e2.at_
        rw [sp.clock, hw]
        refine ⟨?_, (inv.2 e2 (by rw [hs]; exact he2')).2⟩
        rcases max_choice (s._ticks + 1) (usecs_to_ticks m.at_usecs) with h1 | h1 <;>
          rw [h1] <;> omega
  · rw [h] at hr; cases hr
  · obtain ⟨fired, sp⟩ := advance_tick_count_spec
      { s with _event_heap := pop_back (pop_heap is_later s._event_heap) }
      m.takes_snapshots e.at_
    rw [h]
    show s._ticks ≤ (advance_tick_count _ _ _).state._ticks
    rw [sp.clock]
    exact (inv.2 e (by simp [he])).1
  · obtain ⟨fired, sp⟩ := advance_tick_count_spec s m.takes_snapshots
      (max (wrap64 (s._ticks + 1)) (usecs_to_ticks m.at_usecs))
    rw [h]
    show s._ticks ≤ (advance_tick_count _ _ _).state._ticks
    rw [sp.clock]
    exact le_trans (hfresh ht) (le_max_right _ _)
  · rw [h] at hr; cases hr


theorem eventsNotBehind_new : EventsNotBehind EventScheduler.new := by
  unfold EventsNotBehind
  decide

theorem eventsNotBehind_schedule_event (s : EventScheduler) (event : Event)
    (inv : EventsNotBehind s) (h : s._ticks ≤ event.at_ ∧ InInt64 event.at_) :
    EventsNotBehind (schedule_event s event) := by
  refine ⟨inv.1, ?_⟩
  intro e he
  have hmem : e ∈ s._event_heap ++ [event] := (push_heap_perm is_later _).subset he
  rcases List.mem_append.mp hmem with h1 | h1
  · exact inv.2 e h1
  · simp at h1; subst h1; exact h

theorem eventsNotBehind_schedule_snapshot (s : EventScheduler) (at_ : Int)
    (inv : EventsNotBehind s) : EventsNotBehind (schedule_snapshot s at_) :=
  inv

theorem loop_targets_sorted : ∀ (script : List Answers) (s : EventScheduler),
    WellFormed s → EventsNotBehind s → timers_not_stale s script = true →
    (advance_targets (loop s script).trace).Sorted (· ≤ ·) ∧
      ∀ t ∈ advance_targets (loop s script).trace, s._ticks ≤ t := by
  intro script
  induction script with
  | nil => intro s _ _ _; simp [loop, advance_targets]
  | cons m rest ih =>
    intro s wf inv hfresh
    cases hd : m.done with
    | true => rw [loop_cons_done s m rest hd]; simp [advance_targets]
    | false =>
      rcases loop_body_snapshots s m with ⟨target, hr, _⟩ | h
      · simp only [timers_not_stale, hd, hr, Bool.false_eq_true, if_false, Bool.and_eq_true,
          Bool.or_eq_true, Bool.not_eq_true', decide_eq_true_eq] at hfresh
        obtain ⟨hnow, hlater⟩ := hfresh
        have hnow2 : m.has_timer = true → s._ticks ≤ usecs_to_ticks m.at_usecs := by
          intro ht
          rcases hnow with h1 | h1
          · rw [ht] at h1; cases h1
          · exact h1
        obtain ⟨inv2, hle, htar⟩ := loop_body_monotone s m wf inv hnow2 hr
        obtain ⟨hsorted, hall⟩ := ih (loop_body s m).state (loop_body_wellFormed s m wf) inv2 hlater
        rw [loop_cons_returned s m rest hd hr]
        show (advance_targets (_ ++ _)).Sorted _ ∧ ∀ t ∈ advance_targets (_ ++ _), _
        rw [advance_targets_append, htar]
        constructor
        · exact List.sorted_cons.mpr ⟨hall, hsorted⟩
        · intro t ht
          rcases List.mem_cons.mp ht with h1 | h1
          · rw [h1]; exact hle
          · exact le_trans hle (hall t h1)
      · rw [loop_cons_threw s m rest hd h]
        simp [advance_targets, Action.advance_target]

/-- C6 (counterexample): a key press is queued at tick 5 on a new scheduler and the card
declares a timer at tick 3 in four passes, then none: the advance targets are
3, 4, 5, 6 and then 5. -/
theorem loop_targets_counterexample :
    advance_targets (loop key_at_five stale_timer_answers).trace = [3, 4, 5, 6, 5] ∧
    ¬ (advance_targets (loop key_at_five stale_timer_answers).trace).Sorted (· ≤ ·) := by
  decide

/-- C6 (amended): for every run of `loop` from a state with both heaps in heap order, whose
`_ticks` and queued event ticks are `int64_t` values with no queued event
before `_ticks` (a new scheduler with non-negative event ticks is one), and in
which every timer tick the card declares is at or above `_ticks` when it is
asked, the targets of the successive `advance_tick_count` calls are non-decreasing and
none is below the initial `_ticks`. -/
theorem loop_targets_monotone (s : EventScheduler) (script : List Answers)
    (wf : WellFormed s) (inv : EventsNotBehind s)
    (hfresh : timers_not_stale s script = true) :
    (advance_targets (loop s script).trace).Sorted (· ≤ ·) ∧
      ∀ t ∈ advance_targets (loop s script).trace, s._ticks ≤ t :=
  loop_targets_sorted script s wf inv hfresh

/-- Witness of C6 (amended): the key press at tick 5, a timer declared at tick 3, then no timer. -/
theorem loop_targets_monotone_witness :
    WellFormed key_at_five ∧ EventsNotBehind key_at_five ∧
    timers_not_stale key_at_five
      [⟨false, true, 50000, true⟩, ⟨false, false, 0, true⟩, ⟨true, false, 0, true⟩] = true ∧
    (advance_targets (loop key_at_five
      [⟨false, true, 50000, true⟩, ⟨false, false, 0, true⟩, ⟨true, false, 0, true⟩]).trace).Sorted
      (· ≤ ·) :=
  ⟨wellFormed_schedule_event _ _ wellFormed_new, by unfold EventsNotBehind; decide, by decide,
    (loop_targets_monotone key_at_five
      [⟨false, true, 50000, true⟩, ⟨false, false, 0, true⟩, ⟨true, false, 0, true⟩]
      (wellFormed_schedule_event _ _ wellFormed_new) (by unfold EventsNotBehind; decide)
      (by decide)).1⟩

theorem events_sent_append (a b : List Action) :
    events_sent (a ++ b) = events_sent a ++ events_sent b := by
  simp [events_sent]

theorem events_tracked_append (a b : List Action) :
    events_tracked (a ++ b) = events_tracked a ++ events_tracked b := by
  simp [events_tracked]

theorem dispatch_clocks_append (a b : List Action) :
    dispatch_clocks (a ++ b) = dispatch_clocks a ++ dispatch_clocks b := by
  simp [dispatch_clocks]

theorem events_sent_no_dispatch (tr : List Action) (h : ∀ a ∈ tr, a.is_dispatch = false) :
    events_sent tr = [] := by
  unfold events_sent
  rw [List.filterMap_eq_nil_iff]
  intro a ha
  have := h a ha
  cases a <;> simp_all [Action.is_dispatch, Action.sent_event]

theorem events_tracked_no_dispatch (tr : List Action)
    (h : ∀ a ∈ tr, a.is_dispatch = false) : events_tracked tr = [] := by
  unfold events_tracked
  rw [List.filterMap_eq_nil_iff]
  intro a ha
  have := h a ha
  cases a <;> simp_all [Action.is_dispatch, Action.tracked_event]

theorem dispatch_clocks_no_dispatch (tr : List Action)
    (h : ∀ a ∈ tr, a.is_dispatch = false) : dispatch_clocks tr = [] := by
  unfold dispatch_clocks
  rw [List.filterMap_eq_nil_iff]
  intro a ha
  have := h a ha
  cases a <;> simp_all [Action.is_dispatch, Action.dispatch_clock]

/-- The calls of a pass of the loop body, split into the part up to the end of
`advance_tick_count` and the sends or the `fire_timer` call that follow it. -/
theorem loop_body_dispatch (s : EventScheduler) (m : Answers) :
    (∃ e rest head, s._event_heap = e :: rest ∧
      (m.has_timer = false ∨ e.at_ ≤ usecs_to_ticks m.at_usecs) ∧
      (loop_body s m).status = .returned ∧
      (loop_body s m).trace = head ++ [.send_tracker e e.at_, .send_top e e.at_] ∧
      (∀ a ∈ head, a.is_dispatch = false) ∧
      (loop_body s m).state._ticks = e.at_ ∧
      (loop_body s m).state._event_heap = pop_back (pop_heap is_later (e :: rest)) ∧
      (loop_body s m).state._event_heap.Perm rest) ∨
    (∃ head, m.has_timer = true ∧
      (∀ e rest, s._event_heap = e :: rest → usecs_to_ticks m.at_usecs < e.at_) ∧
      (loop_body s m).status = .returned ∧
      (loop_body s m).trace = head ++ [.fire_timer (loop_body s m).state._ticks] ∧
      (∀ a ∈ head, a.is_dispatch = false) ∧
      (loop_body s m).state._ticks =
        max (wrap64 (s._ticks + 1)) (usecs_to_ticks m.at_usecs) ∧
      (loop_body s m).state._event_heap = s._event_heap) ∨
    (s._event_heap = [] ∧ m.has_timer = false ∧
      loop_body s m =
        { state := s, trace := [.next_timer]
          status := .threw "Event heap empty and timer not set to fire." }) := by
  rcases loop_body_cases s m with ⟨e, rest, he, hor, h⟩ | ⟨ht, hlt, h⟩ | h
  · obtain ⟨fired, sp⟩ := advance_tick_count_spec
      { s with _event_heap := pop_back (pop_heap is_later s._event_heap) }
      m.takes_snapshots e.at_
    have hnd := advance_no_dispatch
      { s with _event_heap := pop_back (pop_heap is_later s._event_heap) }
      m.takes_snapshots e.at_
    refine Or.inl ⟨e, rest, .next_timer :: (advance_tick_count
      { s with _event_heap := pop_back (pop_heap is_later s._event_heap) }
      m.takes_snapshots e.at_).trace, he, hor, by rw [h], by rw [h]; rfl, ?_,
      by rw [h]; exact sp.clock, ?_, ?_⟩
    · intro a ha
      rcases List.mem_cons.mp ha with h1 | h1
      · subst h1; rfl
      · exact hnd a h1
    · rw [h]
      show (advance_tick_count _ _ _).state._event_heap = _
      rw [sp.events, ← he]
    · rw [h]
      show (advance_tick_count _ _ _).state._event_heap.Perm rest
      rw [sp.events]
      show (pop_back (pop_heap is_later s._event_heap)).Perm rest
      rw [he]
      exact (pop_back_pop_heap is_later Event.at_ is_later_comparesBy e rest).1
  · obtain ⟨fired, sp⟩ := advance_tick_count_spec s m.takes_snapshots
      (max (wrap64 (s._ticks + 1)) (usecs_to_ticks m.at_usecs))
    have hnd := advance_no_dispatch s m.takes_snapshots
      (max (wrap64 (s._ticks + 1)) (usecs_to_ticks m.at_usecs))
    refine Or.inr (Or.inl ⟨.next_timer :: (advance_tick_count s m.takes_snapshots
      (max (wrap64 (s._ticks + 1)) (usecs_to_ticks m.at_usecs))).trace, ht, hlt,
      by rw [h], ?_, ?_, by rw [h]; exact sp.clock, by rw [h]; exact sp.events⟩)
    · rw [h]
      show _ = _ :: (_ ++ [Action.fire_timer (advance_tick_count _ _ _).state._ticks])
      rw [sp.clock]
    · intro a ha
      rcases List.mem_cons.mp ha with h1 | h1
      · subst h1; rfl
      · exact hnd a h1
  · exact Or.inr (Or.inr h)

/-- The events a pass sends to the top card, the same events it sends to the
tracker, and the events it leaves queued make up the events queued before. -/
theorem loop_body_events (s : EventScheduler) (m : Answers) :
    (events_sent (loop_body s m).trace ++ (loop_body s m).state._event_heap).Perm
        s._event_heap ∧
      events_tracked (loop_body s m).trace = events_sent (loop_body s m).trace ∧
      (events_sent (loop_body s m).trace).length ≤ 1 ∧
      (∀ e ∈ events_sent (loop_body s m).trace, s._event_heap.head? = some e) ∧
      (∀ k ∈ dispatch_clocks (loop_body s m).trace, k = (loop_body s m).state._ticks) := by
  rcases loop_body_dispatch s m with
    ⟨e, rest, head, he, _, _, htr, hhead, hclock, _, hperm⟩ | ⟨head, _, _, _, htr, hhead, _, hev⟩ |
    ⟨_, _, h⟩
  · have h1 : events_sent (loop_body s m).trace = [e] := by
      rw [htr, events_sent_append, events_sent_no_dispatch head hhead]
      simp [events_sent, Action.sent_event]
    have h2 : events_tracked (loop_body s m).trace = [e] := by
      rw [htr, events_tracked_append, events_tracked_no_dispatch head hhead]
      simp [events_tracked, Action.tracked_event]
    have h3 : dispatch_clocks (loop_body s m).trace = [e.at_, e.at_] := by
      rw [htr, dispatch_clocks_append, dispatch_clocks_no_dispatch head hhead]
      simp [dispatch_clocks, Action.dispatch_clock]
    rw [h1, h2, h3, he, hclock]
    refine ⟨List.Perm.cons e hperm, rfl, by simp, by simp, by simp⟩
  · have h1 : events_sent (loop_body s m).trace = [] := by
      rw [htr, events_sent_append, events_sent_no_dispatch head hhead]
      simp [events_sent, Action.sent_event]
    have h2 : events_tracked (loop_body s m).trace = [] := by
      rw [htr, events_tracked_append, events_tracked_no_dispatch head hhead]
      simp [events_tracked, Action.tracked_event]
    have h3 : dispatch_clocks (loop_body s m).trace = [(loop_body s m).state._ticks] := by
      rw [htr, dispatch_clocks_append, dispatch_clocks_no_dispatch head hhead]
      simp [dispatch_clocks, Action.dispatch_clock]
    rw [h1, h2, h3, hev]
    simp
  · rw [h]
    simp [events_sent, events_tracked, dispatch_clocks, Action.sent_event,
      Action.tracked_event, Action.dispatch_clock]


/-- In a run of `loop` from an oracle whose first pass is not the last, the pass
either returns, and the run goes on from its state, or throws and ends the
run. -/
theorem loop_cons_cases (s : EventScheduler) (m : Answers) (rest : List Answers)
    (hd : m.done = false) :
    ((loop_body s m).status = .returned ∧
      loop s (m :: rest) =
        { state := (loop (loop_body s m).state rest).state
          trace := (loop_body s m).trace ++ (loop (loop_body s m).state rest).trace
          status := (loop (loop_body s m).state rest).status }) ∨
    (loop_body s m =
        { state := s, trace := [.next_timer]
          status := .threw "Event heap empty and timer not set to fire." } ∧
      loop s (m :: rest) =
        { state := s, trace := [.next_timer]
          status := .threw "Event heap empty and timer not set to fire." }) := by
  rcases loop_body_snapshots s m with ⟨target, hr, _⟩ | h
  · exact Or.inl ⟨hr, loop_cons_returned s m rest hd hr⟩
  · exact Or.inr ⟨h, loop_cons_threw s m rest hd h⟩

/-- Events are neither created nor lost by `loop`: those sent to the top card together with
those still queued are those queued at the start. -/
theorem loop_events_conserved : ∀ (script : List Answers) (s : EventScheduler),
    (events_sent (loop s script).trace ++ (loop s script).state._event_heap).Perm
      s._event_heap := by
  intro script
  induction script with
  | nil => intro s; simp [loop, events_sent]
  | cons m rest ih =>
    intro s
    cases hd : m.done with
    | true => rw [loop_cons_done s m rest hd]; simp [events_sent]
    | false =>
      rcases loop_cons_cases s m rest hd with ⟨_, h⟩ | ⟨_, h⟩
      · rw [h]
        show (events_sent (_ ++ _) ++ _).Perm _
        rw [events_sent_append, List.append_assoc]
        exact ((ih (loop_body s m).state).append_left _).trans (loop_body_events s m).1
      · rw [h]
        simp [events_sent, Action.sent_event]

theorem loop_events_tracked : ∀ (script : List Answers) (s : EventScheduler),
    events_tracked (loop s script).trace = events_sent (loop s script).trace := by
  intro script
  induction script with
  | nil => intro s; simp [loop, events_sent, events_tracked]
  | cons m rest ih =>
    intro s
    cases hd : m.done with
    | true => rw [loop_cons_done s m rest hd]; simp [events_sent, events_tracked]
    | false =>
      rcases loop_cons_cases s m rest hd with ⟨_, h⟩ | ⟨_, h⟩
      · rw [h]
        show events_tracked (_ ++ _) = events_sent (_ ++ _)
        rw [events_sent_append, events_tracked_append, ih, (loop_body_events s m).2.1]
      · rw [h]
        simp [events_sent, events_tracked, Action.sent_event, Action.tracked_event]

/-- Both heaps stay in heap order along a run of `loop`. -/
theorem loop_wellFormed : ∀ (script : List Answers) (s : EventScheduler),
    WellFormed s → WellFormed (loop s script).state := by
  intro script
  induction script with
  | nil => intro s wf; exact wf
  | cons m rest ih =>
    intro s wf
    cases hd : m.done with
    | true => rw [loop_cons_done s m rest hd]; exact wf
    | false =>
      rcases loop_cons_cases s m rest hd with ⟨_, h⟩ | ⟨_, h⟩
      · rw [h]; exact ih _ (loop_body_wellFormed s m wf)
      · rw [h]; exact wf

/-- The events `loop` sends to the top card come in non-decreasing tick order. -/
theorem loop_events_sorted : ∀ (script : List Answers) (s : EventScheduler),
    WellFormed s →
    ((events_sent (loop s script).trace).map Event.at_).Sorted (· ≤ ·) := by
  intro script
  induction script with
  | nil => intro s _; simp [loop, events_sent]
  | cons m rest ih =>
    intro s wf
    cases hd : m.done with
    | true => rw [loop_cons_done s m rest hd]; simp [events_sent]
    | false =>
      rcases loop_cons_cases s m rest hd with ⟨hr, h⟩ | ⟨_, h⟩
      · rw [h]
        show ((events_sent (_ ++ _)).map Event.at_).Sorted _
        rw [events_sent_append, List.map_append]
        have ihs := ih (loop_body s m).state (loop_body_wellFormed s m wf)
        have hcons := loop_events_conserved rest (loop_body s m).state
        rcases loop_body_dispatch s m with
          ⟨e, tl, head, he, _, _, htr, hhead, _, _, hperm⟩ |
          ⟨head, _, _, _, htr, hhead, _, _⟩ | ⟨_, _, h2⟩
        · have h1 : events_sent (loop_body s m).trace = [e] := by
            rw [htr, events_sent_append, events_sent_no_dispatch head hhead]
            simp [events_sent, Action.sent_event]
          rw [h1]
          refine List.sorted_cons.mpr ⟨?_, ihs⟩
          intro b hb
          obtain ⟨e2, he2, rfl⟩ := List.mem_map.mp hb
          have hmem : e2 ∈ tl :=
            hperm.subset (hcons.subset (List.mem_append_left _ he2))
          have hh := wf.2
          rw [he] at hh
          exact isHeap_head_le _ e tl hh e2 hmem
        · have h1 : events_sent (loop_body s m).trace = [] := by
            rw [htr, events_sent_append, events_sent_no_dispatch head hhead]
            simp [events_sent, Action.sent_event]
          rw [h1]
          exact ihs
        · rw [h2] at hr; cases hr
      · rw [h]
        simp [events_sent, Action.sent_event]

/-- When `loop` sends an event to the top card, every event queued at the start with a
strictly smaller tick has been sent before. -/
theorem loop_earlier_sent_first : ∀ (script : List Answers) (s : EventScheduler),
    WellFormed s → ∀ pre e post,
    events_sent (loop s script).trace = pre ++ e :: post →
    ∀ e2 ∈ s._event_heap, e2.at_ < e.at_ → e2 ∈ pre := by
  intro script
  induction script with
  | nil =>
    intro s _ pre e post h
    simp [loop, events_sent] at h
  | cons m rest ih =>
    intro s wf pre e post hsplit e2 he2 hlt
    cases hd : m.done with
    | true =>
      rw [loop_cons_done s m rest hd] at hsplit
      simp [events_sent] at hsplit
    | false =>
      rcases loop_cons_cases s m rest hd with ⟨hr, h⟩ | ⟨_, h⟩
      · rw [h] at hsplit
        have hsplit2 : events_sent ((loop_body s m).trace ++
            (loop (loop_body s m).state rest).trace) = pre ++ e :: post := hsplit
        rw [events_sent_append] at hsplit2
        have ihs := ih (loop_body s m).state (loop_body_wellFormed s m wf)
        rcases loop_body_dispatch s m with
          ⟨e0, tl, head, he, _, _, htr, hhead, _, _, hperm⟩ |
          ⟨head, _, _, _, htr, hhead, _, hev⟩ | ⟨_, _, h2⟩
        · have h1 : events_sent (loop_body s m).trace = [e0] := by
            rw [htr, events_sent_append, events_sent_no_dispatch head hhead]
            simp [events_sent, Action.sent_event]
          rw [h1] at hsplit2
          have hh := wf.2
          rw [he] at hh he2
          cases pre with
          | nil =>
            simp at hsplit2
            obtain ⟨h3, _⟩ := hsplit2
            subst h3
            rcases List.mem_cons.mp he2 with h4 | h4
            · subst h4; omega
            · have := isHeap_head_le _ e0 tl hh e2 h4
              simp only at this
              omega
          | cons p pre2 =>
            simp at hsplit2
            obtain ⟨h3, h4⟩ := hsplit2
            subst h3
            rcases List.mem_cons.mp he2 with h5 | h5
            · subst h5; exact List.mem_cons_self _ _
            · exact List.mem_cons_of_mem _
                (ihs pre2 e post h4 e2 (hperm.symm.subset h5) hlt)
        · have h1 : events_sent (loop_body s m).trace = [] := by
            rw [htr, events_sent_append, events_sent_no_dispatch head hhead]
            simp [events_sent, Action.sent_event]
          rw [h1] at hsplit2
          exact ihs pre e post hsplit2 e2 (by rw [hev]; exact he2) hlt
        · rw [h2] at hr; cases hr
      · rw [h] at hsplit
        simp [events_sent, Action.sent_event] at hsplit

theorem wellFormed_schedule_events (events : List Event) :
    ∀ s : EventScheduler, WellFormed s → WellFormed (events.foldl schedule_event s) := by
  induction events with
  | nil => intro s wf; exact wf
  | cons e es ih => intro s wf; exact ih _ (wellFormed_schedule_event s e wf)

/-- C12: whatever the order in which events are scheduled (on a scheduler whose heaps are in
heap order, such as a new one) and whatever the `MainLoop` answers, the events
`loop` sends to the top card, which are the events it sends to the event
tracker, come in non-decreasing order of `at()`; and when an event is sent,
every queued event with a strictly smaller tick has been sent before it. -/
theorem events_dispatched_in_order (s : EventScheduler) (events : List Event)
    (script : List Answers) (wf : WellFormed s) :
    ((events_sent (loop (events.foldl schedule_event s) script).trace).map
      Event.at_).Sorted (· ≤ ·) ∧
    events_tracked (loop (events.foldl schedule_event s) script).trace =
      events_sent (loop (events.foldl schedule_event s) script).trace ∧
    (∀ pre e post,
      events_sent (loop (events.foldl schedule_event s) script).trace = pre ++ e :: post →
      ∀ e2 ∈ (events.foldl schedule_event s)._event_heap, e2.at_ < e.at_ → e2 ∈ pre) :=
  ⟨loop_events_sorted script _ (wellFormed_schedule_events events s wf),
    loop_events_tracked script _,
    loop_earlier_sent_first script _ (wellFormed_schedule_events events s wf)⟩

/-- Witness of C12, scenario A with the release scheduled first: the key release at tick 20
and the key press at tick 10 are scheduled in that order on a new scheduler,
and the press is sent before the release. -/
theorem events_dispatched_in_order_witness :
    WellFormed EventScheduler.new ∧
    events_sent (loop ([Event.KeyUpEvent 20 65, Event.KeyDownEvent 10 65].foldl schedule_event
        EventScheduler.new) [⟨false, false, 0, true⟩, ⟨false, false, 0, true⟩]).trace =
      [.KeyDownEvent 10 65, .KeyUpEvent 20 65] ∧
    ((events_sent (loop ([Event.KeyUpEvent 20 65, Event.KeyDownEvent 10 65].foldl schedule_event
        EventScheduler.new) [⟨false, false, 0, true⟩, ⟨false, false, 0, true⟩]).trace).map
      Event.at_).Sorted (· ≤ ·) :=
  ⟨wellFormed_new, by decide,
    (events_dispatched_in_order EventScheduler.new [.KeyUpEvent 20 65, .KeyDownEvent 10 65]
      [⟨false, false, 0, true⟩, ⟨false, false, 0, true⟩] wellFormed_new).1⟩

/-- C13: at every point of a run of `loop`, the events sent to the top card so far together
with the events still in the heap are exactly the events queued at the start,
with multiplicity; each was sent to the event tracker as well.  A pass sends
at most one event, the front of the heap, and a pass of the event branch
leaves exactly the other events in the heap. -/
theorem event_conservation (s : EventScheduler) (script : List Answers) :
    (events_sent (loop s script).trace ++ (loop s script).state._event_heap).Perm
      s._event_heap ∧
    (∀ e, List.count e (events_sent (loop s script).trace) +
        List.count e (loop s script).state._event_heap = List.count e s._event_heap) ∧
    events_tracked (loop s script).trace = events_sent (loop s script).trace ∧
    (∀ m, (events_sent (loop_body s m).trace).length ≤ 1 ∧
      (events_sent (loop_body s m).trace ++ (loop_body s m).state._event_heap).Perm
        s._event_heap) ∧
    (∀ m e rest, s._event_heap = e :: rest →
      event_is_next s m.has_timer (usecs_to_ticks m.at_usecs) = true →
      events_sent (loop_body s m).trace = [e] ∧
      (loop_body s m).state._event_heap.Perm rest) := by
  refine ⟨loop_events_conserved script s, ?_, loop_events_tracked script s, ?_, ?_⟩
  · intro e
    have := (loop_events_conserved script s).count_eq e
    rw [List.count_append] at this
    exact this
  · intro m
    exact ⟨(loop_body_events s m).2.2.1, (loop_body_events s m).1⟩
  · intro m e rest he hnext
    rcases loop_body_dispatch s m with
      ⟨e0, tl, head, he0, _, _, htr, hhead, _, _, hperm⟩ |
      ⟨head, ht, hlt, _⟩ | ⟨hnil, _, _⟩
    · rw [he] at he0
      cases he0
      refine ⟨?_, hperm⟩
      rw [htr, events_sent_append, events_sent_no_dispatch head hhead]
      simp [events_sent, Action.sent_event]
    · obtain ⟨e1, r1, he1, hor⟩ := (event_is_next_iff s _ _).mp hnext
      have := hlt e1 r1 he1
      rcases hor with h1 | h1
      · rw [ht] at h1; cases h1
      · omega
    · rw [he] at hnil; cases hnil

/-- C15: when `done()` is true at the first evaluation of the loop condition, `loop` returns
with an empty trace (no `next_timer`, no send, no `fire_timer`, no `draw`, no
`snapshot`) and the scheduler unchanged, whatever is queued. -/
theorem loop_done_at_once (s : EventScheduler) (m : Answers) (rest : List Answers)
    (hdone : m.done = true) :
    (loop s (m :: rest)).status = .returned ∧
    (loop s (m :: rest)).trace = [] ∧
    (loop s (m :: rest)).state = s ∧
    (loop s (m :: rest)).state._ticks = s._ticks ∧
    (loop s (m :: rest)).state._event_heap = s._event_heap ∧
    (loop s (m :: rest)).state._snapshot_times = s._snapshot_times := by
  rw [loop_cons_done s m rest hdone]
  exact ⟨rfl, rfl, rfl, rfl, rfl, rfl⟩

/-- Witness of C15: scenario B, with a snapshot and an event queued, and `done()` true. -/
theorem loop_done_at_once_witness :
    (loop scenario_b [⟨true, true, 0, true⟩, ⟨false, false, 0, true⟩]).trace = [] ∧
    (loop scenario_b [⟨true, true, 0, true⟩, ⟨false, false, 0, true⟩]).state = scenario_b :=
  ⟨(loop_done_at_once scenario_b ⟨true, true, 0, true⟩ [⟨false, false, 0, true⟩] rfl).2.1,
    (loop_done_at_once scenario_b ⟨true, true, 0, true⟩ [⟨false, false, 0, true⟩] rfl).2.2.1⟩

theorem wellFormed_apply (s : EventScheduler) (step : HeapStep) (wf : WellFormed s) :
    WellFormed (step.apply s) := by
  cases step with
  | schedule_event e => exact wellFormed_schedule_event s e wf
  | schedule_snapshot t => exact wellFormed_schedule_snapshot s t wf
  | pop_event =>
    refine ⟨wf.1, ?_⟩
    show IsHeap Event.at_ (pop_back (pop_heap is_later s._event_heap))
    cases hs : s._event_heap with
    | nil => exact isHeap_nil _
    | cons e rest =>
      have hh := wf.2
      rw [hs] at hh
      exact (pop_back_pop_heap is_later Event.at_ is_later_comparesBy e rest).2 hh
  | pop_snapshot =>
    refine ⟨?_, wf.2⟩
    show IsHeap (fun t : Int => t) (pop_back (pop_heap greater s._snapshot_times))
    cases hs : s._snapshot_times with
    | nil => exact isHeap_nil _
    | cons t rest =>
      have hh := wf.1
      rw [hs] at hh
      exact (pop_back_pop_heap greater (fun t : Int => t) greater_comparesBy t rest).2 hh
  | pass m => exact loop_body_wellFormed s m wf

theorem wellFormed_run_steps (steps : List HeapStep) :
    ∀ s : EventScheduler, WellFormed s → WellFormed (run_steps s steps) := by
  induction steps with
  | nil => intro s wf; exact wf
  | cons st sts ih => intro s wf; exact ih _ (wellFormed_apply s st wf)

/-- C16: after any sequence of `schedule_event` and `schedule_snapshot` pushes, pops of the
front event or of the front snapshot tick and passes of the body of `loop` on
a new scheduler, the front of the event heap has a minimal `at()` among the
pending events and the front of the snapshot heap is a minimal pending tick;
`pop_heap` followed by `pop_back` removes that front element and keeps every
other element, and a push keeps every element and adds the new one. -/
theorem heap_front_is_minimum (steps : List HeapStep) :
    (∀ e rest, (run_steps EventScheduler.new steps)._event_heap = e :: rest →
      (∀ e2 ∈ rest, e.at_ ≤ e2.at_) ∧
      (pop_back (pop_heap is_later (run_steps EventScheduler.new steps)._event_heap)).Perm
        rest) ∧
    (∀ t rest, (run_steps EventScheduler.new steps)._snapshot_times = t :: rest →
      (∀ t2 ∈ rest, t ≤ t2) ∧
      (pop_back (pop_heap greater (run_steps EventScheduler.new steps)._snapshot_times)).Perm
        rest) ∧
    (∀ e, (schedule_event (run_steps EventScheduler.new steps) e)._event_heap.Perm
      ((run_steps EventScheduler.new steps)._event_heap ++ [e])) ∧
    (∀ t, (schedule_snapshot (run_steps EventScheduler.new steps) t)._snapshot_times.Perm
      ((run_steps EventScheduler.new steps)._snapshot_times ++ [t])) := by
  have wf := wellFormed_run_steps steps EventScheduler.new wellFormed_new
  refine ⟨?_, ?_, fun e => push_heap_perm is_later _, fun t => push_heap_perm greater _⟩
  · intro e rest he
    have hh := wf.2
    rw [he] at hh ⊢
    exact ⟨isHeap_head_le _ e rest hh,
      (pop_back_pop_heap is_later Event.at_ is_later_comparesBy e rest).1⟩
  · intro t rest ht
    have hh := wf.1
    rw [ht] at hh ⊢
    exact ⟨isHeap_head_le _ t rest hh,
      (pop_back_pop_heap greater (fun t : Int => t) greater_comparesBy t rest).1⟩

/-- C17: `schedule_key(key, down, up)` adds to the event heap exactly a `KeyDownEvent` of
`key` at tick `down` and a `KeyUpEvent` of `key` at tick `up`, and
`schedule_mouse(button, where, down, up)` exactly a `MouseDownEvent` and a
`MouseUpEvent` of `button` at `where`, at ticks `down` and `up`; this for all
ticks, whether or not `down <= up`; `_ticks` and the snapshot heap are
unchanged. -/
theorem schedule_key_mouse_effect (s : EventScheduler) (key button down up : Int)
    (where_ : Point) :
    (schedule_key s key down up)._event_heap.Perm
      (s._event_heap ++ [.KeyDownEvent down key, .KeyUpEvent up key]) ∧
    (schedule_key s key down up)._ticks = s._ticks ∧
    (schedule_key s key down up)._snapshot_times = s._snapshot_times ∧
    (schedule_mouse s button where_ down up)._event_heap.Perm
      (s._event_heap ++ [.MouseDownEvent down button where_, .MouseUpEvent up button where_]) ∧
    (schedule_mouse s button where_ down up)._ticks = s._ticks ∧
    (schedule_mouse s button where_ down up)._snapshot_times = s._snapshot_times := by
  have two : ∀ (a b : Event),
      (schedule_event (schedule_event s a) b)._event_heap.Perm (s._event_heap ++ [a, b]) := by
    intro a b
    have h1 : (schedule_event s a)._event_heap.Perm (s._event_heap ++ [a]) :=
      push_heap_perm is_later _
    have h2 : (schedule_event (schedule_event s a) b)._event_heap.Perm
        ((schedule_event s a)._event_heap ++ [b]) := push_heap_perm is_later _
    refine h2.trans ?_
    have h3 := h1.append_right [b]
    simpa using h3
  exact ⟨two _ _, rfl, rfl, two _ _, rfl, rfl⟩

theorem new_key_release_first (key down up : Int) (hlt : up < down) :
    (schedule_key EventScheduler.new key down up)._event_heap =
      [.KeyUpEvent up key, .KeyDownEvent down key] := by
  simp [schedule_key, schedule_event, EventScheduler.new, push_heap, sift_up, swap_at,
    is_later, Event.at_, hlt]

theorem new_mouse_release_first (button down up : Int) (where_ : Point) (hlt : up < down) :
    (schedule_mouse EventScheduler.new button where_ down up)._event_heap =
      [.MouseUpEvent up button where_, .MouseDownEvent down button where_] := by
  simp [schedule_mouse, schedule_event, EventScheduler.new, push_heap, sift_up, swap_at,
    is_later, Event.at_, hlt]

/-- On a scheduler with no snapshot queued whose event heap holds two events, two passes in
which the card declares no timer send the front event and then the other. -/
theorem loop_two_events (s : EventScheduler) (a b : Event) (t1 t2 : Bool) (u1 u2 : Int)
    (hs : s._snapshot_times = []) (he : s._event_heap = [a, b]) :
    (loop s [⟨false, false, u1, t1⟩, ⟨false, false, u2, t2⟩]).trace =
      [.next_timer, .advance a.at_, .set_ticks a.at_, .send_tracker a a.at_, .send_top a a.at_,
       .next_timer, .advance b.at_, .set_ticks b.at_, .send_tracker b b.at_,
       .send_top b b.at_] := by
  simp [loop, loop_body, event_is_next, event_path, advance_tick_count, have_snapshots_before,
    pop_heap, pop_back, adjust_heap, adjust_hole, adjust_last, sift_up, hs, he]


theorem schedule_event_perm (s : EventScheduler) (e : Event) :
    (schedule_event s e)._event_heap.Perm (s._event_heap ++ [e]) :=
  push_heap_perm is_later _

/-- C18: `schedule_key` and `schedule_mouse` called with `up < down` queue both events, and
in every run of `loop` (heaps in heap order before the call) the press is sent
to the top card only after the release has been sent.  On a new scheduler, two
passes in which the card declares no timer send the release at tick `up` and
then the press at tick `down`. -/
theorem release_before_press (s : EventScheduler) (script : List Answers)
    (key button down up : Int) (where_ : Point) (wf : WellFormed s) (hlt : up < down) :
    (Event.KeyUpEvent up key ∈ (schedule_key s key down up)._event_heap ∧
      Event.KeyDownEvent down key ∈ (schedule_key s key down up)._event_heap) ∧
    (∀ pre post, events_sent (loop (schedule_key s key down up) script).trace =
        pre ++ Event.KeyDownEvent down key :: post → Event.KeyUpEvent up key ∈ pre) ∧
    (Event.MouseUpEvent up button where_ ∈
        (schedule_mouse s button where_ down up)._event_heap ∧
      Event.MouseDownEvent down button where_ ∈
        (schedule_mouse s button where_ down up)._event_heap) ∧
    (∀ pre post, events_sent (loop (schedule_mouse s button where_ down up) script).trace =
        pre ++ Event.MouseDownEvent down button where_ :: post →
      Event.MouseUpEvent up button where_ ∈ pre) ∧
    (∀ t1 t2 u1 u2,
      (loop (schedule_key EventScheduler.new key down up)
        [⟨false, false, u1, t1⟩, ⟨false, false, u2, t2⟩]).trace =
      [.next_timer, .advance up, .set_ticks up,
       .send_tracker (.KeyUpEvent up key) up, .send_top (.KeyUpEvent up key) up,
       .next_timer, .advance down, .set_ticks down,
       .send_tracker (.KeyDownEvent down key) down, .send_top (.KeyDownEvent down key) down]) ∧
    (∀ t1 t2 u1 u2,
      (loop (schedule_mouse EventScheduler.new button where_ down up)
        [⟨false, false, u1, t1⟩, ⟨false, false, u2, t2⟩]).trace =
      [.next_timer, .advance up, .set_ticks up,
       .send_tracker (.MouseUpEvent up button where_) up,
       .send_top (.MouseUpEvent up button where_) up,
       .next_timer, .advance down, .set_ticks down,
       .send_tracker (.MouseDownEvent down button where_) down,
       .send_top (.MouseDownEvent down button where_) down]) := by
  have mem_two : ∀ (a b : Event),
      a ∈ (schedule_event (schedule_event s a) b)._event_heap ∧
      b ∈ (schedule_event (schedule_event s a) b)._event_heap := by
    intro a b
    have h2 := schedule_event_perm (schedule_event s a) b
    have h1 := schedule_event_perm s a
    constructor
    · exact h2.symm.subset (List.mem_append_left _ (h1.symm.subset (by simp)))
    · exact h2.symm.subset (by simp)
  have wf_two : ∀ (a b : Event), WellFormed (schedule_event (schedule_event s a) b) :=
    fun a b => wellFormed_schedule_event _ _ (wellFormed_schedule_event _ _ wf)
  refine ⟨⟨(mem_two _ _).2, (mem_two _ _).1⟩, ?_, ⟨(mem_two _ _).2, (mem_two _ _).1⟩, ?_, ?_, ?_⟩
  · intro pre post hsplit
    exact loop_earlier_sent_first script _ (wf_two _ _) pre _ post hsplit _
      (mem_two (.KeyDownEvent down key) (.KeyUpEvent up key)).2 hlt
  · intro pre post hsplit
    exact loop_earlier_sent_first script _ (wf_two _ _) pre _ post hsplit _
      (mem_two (.MouseDownEvent down button where_) (.MouseUpEvent up button where_)).2 hlt
  · intro t1 t2 u1 u2
    exact loop_two_events _ _ _ t1 t2 u1 u2 rfl (new_key_release_first key down up hlt)
  · intro t1 t2 u1 u2
    exact loop_two_events _ _ _ t1 t2 u1 u2 rfl
      (new_mouse_release_first button down up where_ hlt)

/-- Witness of C18: a key scheduled with press at tick 20 and release at tick 10. -/
theorem release_before_press_witness :
    WellFormed EventScheduler.new ∧ (10 : Int) < 20 ∧
    events_sent (loop (schedule_key EventScheduler.new 65 20 10)
        [⟨false, false, 0, true⟩, ⟨false, false, 0, true⟩]).trace =
      [] ++ Event.KeyUpEvent 10 65 :: Event.KeyDownEvent 20 65 :: [] ∧
    Event.KeyUpEvent 10 65 ∈ [Event.KeyUpEvent 10 65] :=
  ⟨wellFormed_new, by decide, by decide,
    (release_before_press EventScheduler.new
      [⟨false, false, 0, true⟩, ⟨false, false, 0, true⟩] 65 0 20 10 ⟨0, 0⟩ wellFormed_new
      (by decide)).2.1 [.KeyUpEvent 10 65] [] (by decide)⟩

/-- C19 (counterexample): a deadline of -1 usecs gives the timer tick 0, while
`floor(-1 * 60 / 1000000)` is -1; so with an event queued at tick 0 the event is
sent, where a timer tick of -1 would have fired the timer first. -/
theorem usecs_to_ticks_counterexample :
    InInt64 (-1 * 60) ∧ usecs_to_ticks (-1) = 0 ∧ Int.fdiv (-1 * 60) 1000000 = -1 ∧
    (loop_body (schedule_event EventScheduler.new (.KeyDownEvent 0 65))
        ⟨false, true, -1, true⟩).trace =
      [.next_timer, .advance 0, .set_ticks 0, .send_tracker (.KeyDownEvent 0 65) 0,
       .send_top (.KeyDownEvent 0 65) 0] := by
  decide

/-- C19 (amended): for every deadline `u` in microseconds whose product `u * 60` is an
`int64_t` value, the timer tick used by `loop` is the quotient of `u * 60` by
1000000 truncated towards zero: `floor(u * 60 / 1000000)` when `u >= 0`
(500000 usecs gives tick 30) and `-floor(-(u * 60) / 1000000)` when `u < 0`.
In the timer branch `loop` advances to the later of `_ticks + 1` and that
tick. -/
theorem usecs_to_ticks_truncates (u : Int) (hrange : InInt64 (u * 60)) :
    usecs_to_ticks u = Int.tdiv (u * 60) 1000000 ∧
    (0 ≤ u → usecs_to_ticks u = Int.fdiv (u * 60) 1000000) ∧
    (u < 0 → usecs_to_ticks u = -Int.fdiv (-(u * 60)) 1000000) ∧
    usecs_to_ticks 500000 = 30 ∧
    (∀ (s : EventScheduler) (has_timer takes_snapshots : Bool),
      event_is_next s has_timer (usecs_to_ticks u) = false → has_timer = true →
      (loop_body s ⟨false, has_timer, u, takes_snapshots⟩).state._ticks =
        max (wrap64 (s._ticks + 1)) (usecs_to_ticks u)) := by
  have hw : wrap64 (u * 60) = u * 60 := wrap64_of_inInt64 _ hrange
  refine ⟨by unfold usecs_to_ticks; rw [hw], ?_, ?_, by decide, ?_⟩
  · intro h0
    unfold usecs_to_ticks
    rw [hw, Int.tdiv_eq_ediv (by omega) (by decide), Int.fdiv_eq_ediv _ (by decide)]
  · intro h0
    unfold usecs_to_ticks
    rw [hw, Int.fdiv_eq_ediv _ (by decide)]
    have hneg : u * 60 = -(-(u * 60)) := by omega
    conv => lhs; rw [hneg]
    rw [Int.neg_tdiv, Int.tdiv_eq_ediv (by omega) (by decide)]
  · intro s has_timer takes_snapshots hnext ht
    rw [loop_body_timer s ⟨false, has_timer, u, takes_snapshots⟩ hnext,
      timer_path_eq s ⟨false, has_timer, u, takes_snapshots⟩ ht]
    exact (advance_tick_count_spec s takes_snapshots _).choose_spec.clock

/-- Witness of C19 (amended): the deadline 500000 usecs of scenario C. -/
theorem usecs_to_ticks_truncates_witness :
    InInt64 (500000 * 60) ∧ usecs_to_ticks 500000 = Int.fdiv (500000 * 60) 1000000 :=
  ⟨by decide, (usecs_to_ticks_truncates 500000 (by decide)).2.1 (by decide)⟩

/-- C20: scenario C.  On a new scheduler (clock 0, nothing queued) with a timer declared at
500000 usecs, the first pass of `loop` asks for the timer, enters
`advance_tick_count` once with target 30, assigns 30 to `_ticks` as the only assignment,
without `draw` or `snapshot`, and then calls `fire_timer` once with the clock
at 30, whether or not snapshots are taken; both heaps stay empty. -/
theorem scenario_c_single_jump (takes_snapshots : Bool) :
    EventScheduler.new._ticks = 0 ∧
    loop_body EventScheduler.new ⟨false, true, 500000, takes_snapshots⟩ =
      { state := { _ticks := 30, _snapshot_times := [], _event_heap := [] }
        trace := [.next_timer, .advance 30, .set_ticks 30, .fire_timer 30]
        status := .returned } ∧
    (loop EventScheduler.new
        [⟨false, true, 500000, takes_snapshots⟩, ⟨true, false, 0, takes_snapshots⟩]).trace =
      [.next_timer, .advance 30, .set_ticks 30, .fire_timer 30] ∧
    clock_values (loop_body EventScheduler.new
      ⟨false, true, 500000, takes_snapshots⟩).trace = [30] := by
  cases takes_snapshots <;> decide

/-- Along a run of `loop` in which no declared timer tick is below `_ticks` when asked, no
queued event falls behind `_ticks`. -/
theorem loop_eventsNotBehind : ∀ (script : List Answers) (s : EventScheduler),
    WellFormed s → EventsNotBehind s → timers_not_stale s script = true →
    EventsNotBehind (loop s script).state := by
  intro script
  induction script with
  | nil => intro s _ inv _; exact inv
  | cons m rest ih =>
    intro s wf inv hfresh
    cases hd : m.done with
    | true => rw [loop_cons_done s m rest hd]; exact inv
    | false =>
      rcases loop_cons_cases s m rest hd with ⟨hr, h⟩ | ⟨_, h⟩
      · simp only [timers_not_stale, hd, hr, Bool.false_eq_true, if_false, Bool.and_eq_true,
          Bool.or_eq_true, Bool.not_eq_true', decide_eq_true_eq] at hfresh
        obtain ⟨hnow, hlater⟩ := hfresh
        have hnow2 : m.has_timer = true → s._ticks ≤ usecs_to_ticks m.at_usecs := by
          intro ht
          rcases hnow with h1 | h1
          · rw [ht] at h1; cases h1
          · exact h1
        rw [h]
        exact ih _ (loop_body_wellFormed s m wf) (loop_body_monotone s m wf inv hnow2 hr).1
          hlater
      · rw [h]; exact inv

/-- A run of `loop` that is still going on after the answers `pre` has kept the queued
events from falling behind `_ticks`, and the remaining answers declare no stale
timer from the state reached. -/
theorem loop_pending_invariant : ∀ (pre : List Answers) (s : EventScheduler)
    (rest : List Answers),
    WellFormed s → EventsNotBehind s → timers_not_stale s (pre ++ rest) = true →
    (loop s pre).status = .pending →
    EventsNotBehind (loop s pre).state ∧ timers_not_stale (loop s pre).state rest = true := by
  intro pre
  induction pre with
  | nil => intro s rest _ inv hfresh _; exact ⟨inv, hfresh⟩
  | cons m pre2 ih =>
    intro s rest wf inv hfresh hpend
    cases hd : m.done with
    | true =>
      rw [loop_cons_done s m pre2 hd] at hpend
      cases hpend
    | false =>
      rcases loop_cons_cases s m pre2 hd with ⟨hr, h⟩ | ⟨_, h⟩
      · rw [List.cons_append] at hfresh
        simp only [timers_not_stale, hd, hr, Bool.false_eq_true, if_false, Bool.and_eq_true,
          Bool.or_eq_true, Bool.not_eq_true', decide_eq_true_eq] at hfresh
        obtain ⟨hnow, hlater⟩ := hfresh
        have hnow2 : m.has_timer = true → s._ticks ≤ usecs_to_ticks m.at_usecs := by
          intro ht
          rcases hnow with h1 | h1
          · rw [ht] at h1; cases h1
          · exact h1
        rw [h] at hpend ⊢
        exact ih _ rest (loop_body_wellFormed s m wf)
          (loop_body_monotone s m wf inv hnow2 hr).1 hlater hpend
      · rw [h] at hpend
        cases hpend

/-- C14 (counterexample): a key press at tick 1 is queued on a new scheduler (clock 0) and
the card declares a timer at 0 usecs twice: the second `fire_timer` is called
with the clock at 2 while the key press at tick 1 is still in the heap. -/
theorem pending_behind_counterexample :
    (∀ e ∈ key_and_snapshot_at_one._event_heap, key_and_snapshot_at_one._ticks ≤ e.at_) ∧
    dispatch_clocks (loop key_and_snapshot_at_one timer_now_twice).trace = [1, 2] ∧
    (loop key_and_snapshot_at_one timer_now_twice).state._ticks = 2 ∧
    (loop key_and_snapshot_at_one timer_now_twice).state._event_heap =
      [.KeyDownEvent 1 65] ∧
    ¬ (∀ e ∈ (loop key_and_snapshot_at_one timer_now_twice).state._event_heap,
      (loop key_and_snapshot_at_one timer_now_twice).state._ticks ≤ e.at_) := by
  decide

/-- C14 (amended): if no queued event lies before `_ticks` when `loop` starts (all ticks
`int64_t` values, heaps in heap order), nothing is scheduled during the run
and every timer tick the card declares is at or above `_ticks` when it is
asked, then after every pass no event in the heap lies before `_ticks`, and in
every pass of the run each send and each `fire_timer` is made with the clock at
or below the tick of every event then in the heap. -/
theorem pending_not_behind (s : EventScheduler) (script : List Answers) (wf : WellFormed s)
    (inv : EventsNotBehind s) (hfresh : timers_not_stale s script = true) :
    (∀ e ∈ (loop s script).state._event_heap, (loop s script).state._ticks ≤ e.at_) ∧
    (∀ pre m post, script = pre ++ m :: post → (loop s pre).status = .pending →
      m.done = false →
      ∀ k ∈ dispatch_clocks (loop_body (loop s pre).state m).trace,
        ∀ e ∈ (loop_body (loop s pre).state m).state._event_heap, k ≤ e.at_) := by
  refine ⟨fun e he => ((loop_eventsNotBehind script s wf inv hfresh).2 e he).1, ?_⟩
  intro pre m post hsplit hpend hd k hk e he
  rw [hsplit] at hfresh
  obtain ⟨inv2, hfresh2⟩ := loop_pending_invariant pre s (m :: post) wf inv hfresh hpend
  have wf2 := loop_wellFormed pre s wf
  rcases loop_cons_cases (loop s pre).state m post hd with ⟨hr, _⟩ | ⟨h, _⟩
  · simp only [timers_not_stale, hd, hr, Bool.false_eq_true, if_false, Bool.and_eq_true,
      Bool.or_eq_true, Bool.not_eq_true', decide_eq_true_eq] at hfresh2
    obtain ⟨hnow, _⟩ := hfresh2
    have hnow2 : m.has_timer = true →
        (loop s pre).state._ticks ≤ usecs_to_ticks m.at_usecs := by
      intro ht
      rcases hnow with h1 | h1
      · rw [ht] at h1; cases h1
      · exact h1
    have inv3 := (loop_body_monotone (loop s pre).state m wf2 inv2 hnow2 hr).1
    have hk2 := (loop_body_events (loop s pre).state m).2.2.2.2 k hk
    rw [hk2]
    exact (inv3.2 e he).1
  · rw [h] at hk
    simp [dispatch_clocks, Action.dispatch_clock] at hk

/-- Witness of C14 (amended): the key press at tick 5 and a timer declared at tick 3; after
the pass the clock is at 3 and the key press is in the heap. -/
theorem pending_not_behind_witness :
    WellFormed key_at_five ∧ EventsNotBehind key_at_five ∧
    timers_not_stale key_at_five [⟨false, true, 50000, true⟩] = true ∧
    (loop key_at_five [⟨false, true, 50000, true⟩]).state._event_heap = [.KeyDownEvent 5 65] ∧
    (∀ e ∈ (loop key_at_five [⟨false, true, 50000, true⟩]).state._event_heap,
      (loop key_at_five [⟨false, true, 50000, true⟩]).state._ticks ≤ e.at_) :=
  ⟨wellFormed_schedule_event _ _ wellFormed_new, by unfold EventsNotBehind; decide, by decide,
    by decide,
    (pending_not_behind key_at_five [⟨false, true, 50000, true⟩]
      (wellFormed_schedule_event _ _ wellFormed_new) (by unfold EventsNotBehind; decide)
      (by decide)).1⟩

/-- C21: `advance_tick_count(target)` with snapshots taken, on a snapshot heap in heap order, calls
`snapshot` on exactly the queued ticks strictly below the target, with
multiplicity, in ascending order and with `_ticks` equal to the tick at each
call; afterwards the snapshot heap holds exactly the queued ticks at or above
the target and `_ticks` equals the target. -/
theorem advance_postcondition (s : EventScheduler) (ticks : Int)
    (hheap : IsHeap (fun t : Int => t) s._snapshot_times) :
    (advance_tick_count s true ticks).status = .returned ∧
    (snapshots_of (advance_tick_count s true ticks).trace).Perm
      (s._snapshot_times.filter (fun x => decide (x < ticks))) ∧
    (snapshots_of (advance_tick_count s true ticks).trace).Sorted (· ≤ ·) ∧
    (∀ S c, Action.snapshot S c ∈ (advance_tick_count s true ticks).trace → c = S) ∧
    (advance_tick_count s true ticks).state._snapshot_times.Perm
      (s._snapshot_times.filter (fun x => decide (ticks ≤ x))) ∧
    IsHeap (fun t : Int => t) (advance_tick_count s true ticks).state._snapshot_times ∧
    (advance_tick_count s true ticks).state._ticks = ticks := by
  obtain ⟨fired, sp⟩ := advance_tick_count_spec s true ticks
  obtain ⟨h1, h2, _, h4⟩ := sp.heap hheap
  have hrem := h4 rfl
  have hfired_lt : fired.filter (fun x => decide (x < ticks)) = fired :=
    List.filter_eq_self.mpr (fun x hx => by simpa using sp.below x hx)
  have hfired_ge : fired.filter (fun x => decide (ticks ≤ x)) = [] :=
    List.filter_eq_nil_iff.mpr (fun x hx => by have := sp.below x hx; simp; omega)
  have hrem_lt : (advance_tick_count s true ticks).state._snapshot_times.filter
      (fun x => decide (x < ticks)) = [] :=
    List.filter_eq_nil_iff.mpr (fun x hx => by have := hrem x hx; simp; omega)
  have hrem_ge : (advance_tick_count s true ticks).state._snapshot_times.filter
      (fun x => decide (ticks ≤ x)) = (advance_tick_count s true ticks).state._snapshot_times :=
    List.filter_eq_self.mpr (fun x hx => by simpa using hrem x hx)
  refine ⟨sp.status, ?_, ?_, fun S c h => (sp.mem_snapshot S c h).2, ?_, h1, sp.clock⟩
  · rw [sp.snapshots_eq]
    have := sp.perm.filter (fun x => decide (x < ticks))
    rw [List.filter_append, hfired_lt, hrem_lt, List.append_nil] at this
    exact this
  · rw [sp.snapshots_eq]; exact h2
  · have := sp.perm.filter (fun x => decide (ticks ≤ x))
    rw [List.filter_append, hfired_ge, hrem_ge, List.nil_append] at this
    exact this

/-- Witness of C21: scenario B, target 20. -/
theorem advance_postcondition_witness :
    IsHeap (fun t : Int => t) scenario_b._snapshot_times ∧
    (snapshots_of (advance_tick_count scenario_b true 20).trace).Perm
      (scenario_b._snapshot_times.filter (fun x => decide (x < 20))) :=
  ⟨wellFormed_scenario_b.1, (advance_postcondition scenario_b 20 wellFormed_scenario_b.1).2.1⟩

theorem snapshot_calls_no_draw (fired : List Int) (c : Int) :
    Action.draw c ∉ snapshot_calls fired := by
  induction fired with
  | nil => simp [snapshot_calls]
  | cons t ts ih => simp [snapshot_calls, ih]

/-- C22: in `advance_tick_count(target)` on a snapshot heap in heap order, when snapshots are
taken and some queued snapshot tick is strictly below the target, `draw` is
called once, directly after entry and before every `snapshot` call and every
assignment to `_ticks`; otherwise neither `draw` nor `snapshot` is called. -/
theorem draw_once_before_snapshots (s : EventScheduler) (takes_snapshots : Bool) (ticks : Int)
    (hheap : IsHeap (fun t : Int => t) s._snapshot_times) :
    ((takes_snapshots = true ∧ ∃ x ∈ s._snapshot_times, x < ticks) →
      ∃ rest, (advance_tick_count s takes_snapshots ticks).trace =
          .advance ticks :: .draw s._ticks :: rest ∧
        (∀ c, Action.draw c ∉ rest) ∧
        snapshots_of rest = snapshots_of (advance_tick_count s takes_snapshots ticks).trace ∧
        snapshots_of rest ≠ [] ∧
        clock_values rest = clock_values (advance_tick_count s takes_snapshots ticks).trace) ∧
    (¬ (takes_snapshots = true ∧ ∃ x ∈ s._snapshot_times, x < ticks) →
      (∀ c, Action.draw c ∉ (advance_tick_count s takes_snapshots ticks).trace) ∧
      (advance_tick_count s takes_snapshots ticks).trace =
        [.advance ticks, .set_ticks ticks]) := by
  have hdue : have_snapshots_before s ticks = true ↔ ∃ x ∈ s._snapshot_times, x < ticks := by
    constructor
    · intro h
      cases hs : s._snapshot_times with
      | nil => simp [have_snapshots_before, hs] at h
      | cons front rest =>
        exact ⟨front, List.mem_cons_self _ _, by simpa [have_snapshots_before, hs] using h⟩
    · rintro ⟨x, hx, hlt⟩
      cases hb : have_snapshots_before s ticks with
      | true => rfl
      | false =>
        have := have_snapshots_before_false s ticks hb hheap x hx
        omega
  obtain ⟨fired, sp⟩ := advance_tick_count_spec s takes_snapshots ticks
  constructor
  · rintro ⟨ht, hex⟩
    have hne := sp.some_due ht (hdue.mpr hex)
    refine ⟨snapshot_calls fired ++ [.set_ticks ticks], ?_, ?_, ?_, ?_, ?_⟩
    · rw [sp.trace]; simp [hne]
    · intro c hc
      rcases List.mem_append.mp hc with h | h
      · exact snapshot_calls_no_draw fired c h
      · simp at h
    · rw [sp.snapshots_eq]
      have h := snapshots_of_snapshot_calls fired
      simp only [snapshots_of] at h ⊢
      simp [Action.snapshot_tick, h]
    · have h := snapshots_of_snapshot_calls fired
      simp only [snapshots_of] at h ⊢
      simp [Action.snapshot_tick, h, hne]
    · rw [sp.clock_values_eq]
      have h := clock_values_snapshot_calls fired
      simp only [clock_values] at h ⊢
      simp [Action.assigned, h]
  · intro hnot
    have hc : (takes_snapshots && have_snapshots_before s ticks) = false := by
      cases ht : takes_snapshots with
      | false => rfl
      | true =>
        cases hb : have_snapshots_before s ticks with
        | false => rfl
        | true => exact absurd ⟨ht, hdue.mp hb⟩ hnot
    have htr : (advance_tick_count s takes_snapshots ticks).trace =
        [.advance ticks, .set_ticks ticks] := by
      simp [advance_tick_count, hc]
    refine ⟨?_, htr⟩
    intro c hmem
    rw [htr] at hmem
    simp at hmem

/-- Witness of C22: scenario B, target 20: one `draw`, then `snapshot(15)`. -/
theorem draw_once_before_snapshots_witness :
    IsHeap (fun t : Int => t) scenario_b._snapshot_times ∧
    (true = true ∧ ∃ x ∈ scenario_b._snapshot_times, x < 20) ∧
    ∃ rest, (advance_tick_count scenario_b true 20).trace =
        .advance 20 :: .draw scenario_b._ticks :: rest ∧
      (∀ c, Action.draw c ∉ rest) ∧
      snapshots_of rest = snapshots_of (advance_tick_count scenario_b true 20).trace ∧
      snapshots_of rest ≠ [] ∧
      clock_values rest = clock_values (advance_tick_count scenario_b true 20).trace :=
  ⟨wellFormed_scenario_b.1, by decide,
    (draw_once_before_snapshots scenario_b true 20 wellFormed_scenario_b.1).1 (by decide)⟩

/-- C23: when `takes_snapshots()` is false, `advance_tick_count(target)` returns after the single
assignment of the target to `_ticks`: it calls neither `draw` nor `snapshot`
and leaves the snapshot heap and the event heap unchanged. -/
theorem advance_without_snapshots (s : EventScheduler) (ticks : Int) :
    advance_tick_count s false ticks =
      { state := { s with _ticks := ticks }
        trace := [.advance ticks, .set_ticks ticks]
        status := .returned } ∧
    (advance_tick_count s false ticks).state._snapshot_times = s._snapshot_times ∧
    (advance_tick_count s false ticks).state._event_heap = s._event_heap ∧
    (advance_tick_count s false ticks).state._ticks = ticks ∧
    (∀ c, Action.draw c ∉ (advance_tick_count s false ticks).trace) ∧
    (∀ S c, Action.snapshot S c ∉ (advance_tick_count s false ticks).trace) := by
  have h : advance_tick_count s false ticks =
      { state := { s with _ticks := ticks }
        trace := [.advance ticks, .set_ticks ticks]
        status := .returned } := by
    simp [advance_tick_count]
  rw [h]
  refine ⟨rfl, rfl, rfl, rfl, ?_, ?_⟩
  · intro c hc; simp at hc
  · intro S c hc; simp at hc

theorem fire_snapshots_no_underflow : ∀ (fuel : Nat) (s : EventScheduler) (ticks : Int),
    (fire_snapshots fuel s ticks).status ≠ .underflow := by
  intro fuel
  induction fuel with
  | zero =>
    intro s ticks
    simp only [fire_snapshots]
    split <;> simp
  | succ fuel ih =>
    intro s ticks
    by_cases hb : have_snapshots_before s ticks = true
    · cases hs : s._snapshot_times with
      | nil => simp [have_snapshots_before, hs] at hb
      | cons front rest =>
        simp only [fire_snapshots, hb, if_true, hs]
        exact ih _ ticks
    · simp [fire_snapshots, hb]

/-- C24: no run of `loop` reads or pops the front of an empty heap: `loop` never ends in the
underflow status, a pass of its body either returns or throws the
"no timer, no event" exception, `advance_tick_count` always returns, and the snapshot loop
never reads an empty heap, whatever bound on its passes. -/
theorem no_heap_underflow (s : EventScheduler) (script : List Answers) :
    (loop s script).status ≠ .underflow ∧
    (∀ m, (loop_body s m).status = .returned ∨
      (loop_body s m).status = .threw "Event heap empty and timer not set to fire.") ∧
    (∀ takes_snapshots ticks, (advance_tick_count s takes_snapshots ticks).status = .returned) ∧
    (∀ fuel ticks, (fire_snapshots fuel s ticks).status ≠ .underflow) ∧
    (∀ m : Answers, event_is_next s m.has_timer (usecs_to_ticks m.at_usecs) = true →
      s._event_heap ≠ []) ∧
    (∀ ticks, have_snapshots_before s ticks = true → s._snapshot_times ≠ []) := by
  refine ⟨?_, ?_, fun t k => (advance_tick_count_spec s t k).choose_spec.status,
    fun fuel ticks => fire_snapshots_no_underflow fuel s ticks, ?_, ?_⟩
  · induction script generalizing s with
    | nil => simp [loop]
    | cons m rest ih =>
      cases hd : m.done with
      | true => rw [loop_cons_done s m rest hd]; simp
      | false =>
        rcases loop_cons_cases s m rest hd with ⟨_, h⟩ | ⟨_, h⟩
        · rw [h]; exact ih _
        · rw [h]; simp
  · intro m
    rcases loop_body_snapshots s m with ⟨_, hr, _⟩ | h
    · exact Or.inl hr
    · exact Or.inr (by rw [h])
  · intro m h
    obtain ⟨e, rest, he, _⟩ := (event_is_next_iff s _ _).mp h
    rw [he]; simp
  · intro ticks h
    cases hs : s._snapshot_times with
    | nil => simp [have_snapshots_before, hs] at h
    | cons front rest => simp

/-- C25: there is a sequence of `schedule_event` calls, four key presses that all have tick 7,
for which `loop` sends the events in an order other than the order of
scheduling: the second and the third are exchanged. -/
theorem tie_break_not_insertion_order :
    ∃ (events : List Event) (script : List Answers),
      (∀ e ∈ events, e.at_ = 7) ∧
      events = [.KeyDownEvent 7 1, .KeyDownEvent 7 2, .KeyDownEvent 7 3, .KeyDownEvent 7 4] ∧
      events_sent (loop (events.foldl schedule_event EventScheduler.new) script).trace =
        [.KeyDownEvent 7 1, .KeyDownEvent 7 3, .KeyDownEvent 7 2, .KeyDownEvent 7 4] ∧
      events_sent (loop (events.foldl schedule_event EventScheduler.new) script).trace ≠
        events :=
  ⟨four_keys_at_seven,
    [⟨false, false, 0, true⟩, ⟨false, false, 0, true⟩, ⟨false, false, 0, true⟩,
      ⟨false, false, 0, true⟩],
    by decide, by decide, by decide, by decide⟩

/-- A run of `loop` that ends by throwing has reached, with the run still going on, the pass
that throws, and that pass has only asked for the timer. -/
theorem loop_threw_split : ∀ (script : List Answers) (s : EventScheduler) (what : String),
    (loop s script).status = .threw what →
    ∃ pre m post, script = pre ++ m :: post ∧ (loop s pre).status = .pending ∧
      m.done = false ∧
      loop_body (loop s pre).state m =
        { state := (loop s pre).state, trace := [.next_timer]
          status := .threw "Event heap empty and timer not set to fire." } ∧
      (loop s script).state = (loop s pre).state ∧
      (loop s script).trace = (loop s pre).trace ++ [.next_timer] := by
  intro script
  induction script with
  | nil => intro s what h; simp [loop] at h
  | cons m rest ih =>
    intro s what h
    cases hd : m.done with
    | true =>
      rw [loop_cons_done s m rest hd] at h
      cases h
    | false =>
      rcases loop_cons_cases s m rest hd with ⟨hr, hl⟩ | ⟨hb, hl⟩
      · rw [hl] at h
        obtain ⟨pre, m2, post, hsplit, hpend, hd2, hbody, hstate, htrace⟩ :=
          ih (loop_body s m).state what h
        have hpre := loop_cons_returned s m pre hd hr
        refine ⟨m :: pre, m2, post, by rw [hsplit]; rfl, ?_, hd2, ?_, ?_, ?_⟩
        · rw [hpre]; exact hpend
        · rw [hpre]; exact hbody
        · rw [hl, hpre]; exact hstate
        · rw [hl, hpre]
          show _ ++ _ = (_ ++ _) ++ _
          rw [htrace, List.append_assoc]
      · refine ⟨[], m, rest, rfl, rfl, hd, hb, ?_, ?_⟩
        · rw [hl]; rfl
        · rw [hl]; rfl

/-- C28: a pass of the loop body that throws the "no timer, no event" exception leaves
`_ticks`, the event heap and the snapshot heap as they were and has made no
call but `next_timer`: no `draw`, no `snapshot`, no send and no `fire_timer`.
A run of `loop` that ends with the exception ends in the state in which the
throwing pass began, its trace being that of the passes before followed by
the one `next_timer` call. -/
theorem throw_is_atomic (s : EventScheduler) (script : List Answers) (what : String)
    (hthrow : (loop s script).status = .threw what) :
    what = "Event heap empty and timer not set to fire." ∧
    ∃ pre m post, script = pre ++ m :: post ∧ (loop s pre).status = .pending ∧
      m.done = false ∧
      (loop_body (loop s pre).state m).status = .threw what ∧
      (loop_body (loop s pre).state m).state = (loop s pre).state ∧
      (loop_body (loop s pre).state m).trace = [.next_timer] ∧
      (loop s script).state = (loop s pre).state ∧
      (loop s script).trace = (loop s pre).trace ++ [.next_timer] := by
  obtain ⟨pre, m, post, hsplit, hpend, hd, hbody, hstate, htrace⟩ :=
    loop_threw_split script s what hthrow
  have hwhat : what = "Event heap empty and timer not set to fire." := by
    have h1 : (loop s script).status = (loop s (pre ++ m :: post)).status := by rw [hsplit]
    have hrec : ∀ (pre2 : List Answers) (s2 : EventScheduler),
        (loop s2 pre2).status = .pending →
        (loop s2 (pre2 ++ m :: post)).status =
          (loop (loop s2 pre2).state (m :: post)).status := by
      intro pre2
      induction pre2 with
      | nil => intro s2 _; rfl
      | cons m3 pre3 ih3 =>
        intro s2 hp
        cases hd3 : m3.done with
        | true => rw [loop_cons_done s2 m3 pre3 hd3] at hp; cases hp
        | false =>
          rcases loop_cons_cases s2 m3 pre3 hd3 with ⟨hr3, hl3⟩ | ⟨_, hl3⟩
          · rw [List.cons_append, loop_cons_returned s2 m3 _ hd3 hr3, hl3]
            rw [hl3] at hp
            exact ih3 _ hp
          · rw [hl3] at hp; cases hp
    rw [h1, hrec pre s hpend, loop_cons_threw _ m post hd hbody] at hthrow
    cases hthrow
    rfl
  refine ⟨hwhat, pre, m, post, hsplit, hpend, hd, ?_, ?_, ?_, hstate, htrace⟩
  · rw [hbody, hwhat]
  · rw [hbody]
  · rw [hbody]

/-- Witness of C28: scenario B; the mouse move is dispatched in the first pass, and in the
second pass the heap is empty and no timer is declared. -/
theorem throw_is_atomic_witness :
    (loop scenario_b [⟨false, false, 0, true⟩, ⟨false, false, 0, true⟩]).status =
      .threw "Event heap empty and timer not set to fire." ∧
    ∃ pre m post, [⟨false, false, 0, true⟩, ⟨false, false, 0, true⟩] = pre ++ m :: post ∧
      (loop scenario_b pre).status = .pending ∧ m.done = false ∧
      (loop_body (loop scenario_b pre).state m).status =
        .threw "Event heap empty and timer not set to fire." ∧
      (loop_body (loop scenario_b pre).state m).state = (loop scenario_b pre).state ∧
      (loop_body (loop scenario_b pre).state m).trace = [.next_timer] ∧
      (loop scenario_b [⟨false, false, 0, true⟩, ⟨false, false, 0, true⟩]).state =
        (loop scenario_b pre).state ∧
      (loop scenario_b [⟨false, false, 0, true⟩, ⟨false, false, 0, true⟩]).trace =
        (loop scenario_b pre).trace ++ [.next_timer] :=
  ⟨by decide,
    (throw_is_atomic scenario_b [⟨false, false, 0, true⟩, ⟨false, false, 0, true⟩]
      "Event heap empty and timer not set to fire." (by decide)).2⟩

theorem clock_values_append (a b : List Action) :
    clock_values (a ++ b) = clock_values a ++ clock_values b := by
  simp [clock_values]

theorem clock_values_dispatches (tail : List Action)
    (h : ∀ a ∈ tail, a.is_dispatch = true) : clock_values tail = [] := by
  unfold clock_values
  rw [List.filterMap_eq_nil_iff]
  intro a ha
  have := h a ha
  cases a <;> simp_all [Action.is_dispatch, Action.assigned]

/-- The assignments to `_ticks` in a pass of the loop body that returns: the snapshot ticks
fired, then the advance target. -/
theorem loop_body_clock_values (s : EventScheduler) (m : Answers)
    (hr : (loop_body s m).status = .returned) :
    ∃ fired, clock_values (loop_body s m).trace = fired ++ [(loop_body s m).state._ticks] ∧
      snapshots_of (loop_body s m).trace = fired ∧
      (∀ x ∈ fired, x ∈ s._snapshot_times ∧ x < (loop_body s m).state._ticks) ∧
      (m.takes_snapshots = false → fired = []) ∧
      (IsHeap (fun t : Int => t) s._snapshot_times → fired.Sorted (· ≤ ·)) := by
  rcases loop_body_shape s m with ⟨s1, target, tail, h1, h2, hbody, htail⟩ | h
  · obtain ⟨fired, sp⟩ := advance_tick_count_spec s1 m.takes_snapshots target
    refine ⟨fired, ?_, ?_, ?_, sp.not_taken, ?_⟩
    · rw [hbody]
      show clock_values ([Action.next_timer] ++ (_ ++ tail)) = _ ++ [(advance_tick_count _ _ _).state._ticks]
      rw [clock_values_append, clock_values_append, sp.clock_values_eq,
        clock_values_dispatches tail htail, sp.clock]
      simp [clock_values, Action.assigned]
    · rw [hbody]
      show snapshots_of ([Action.next_timer] ++ (_ ++ tail)) = fired
      rw [snapshots_of_append, snapshots_of_append, sp.snapshots_eq,
        snapshots_of_dispatches tail htail]
      simp [snapshots_of, Action.snapshot_tick]
    · intro x hx
      rw [hbody]
      show x ∈ s._snapshot_times ∧ x < (advance_tick_count _ _ _).state._ticks
      rw [sp.clock, ← h2]
      exact ⟨sp.perm.subset (List.mem_append_left _ hx), sp.below x hx⟩
    · intro hh
      rw [← h2] at hh
      exact (sp.heap hh).2.1
  · rw [h] at hr; cases hr

/-- Along a run of `loop` without stale timers and with a constant answer of `takes_snapshots()`,
from a state in which no queued event and, if snapshots are taken, no queued
snapshot tick lies before `_ticks`: the values assigned to `_ticks` never
decrease, none is below the initial `_ticks`, and the same holds of the queued
events and, if snapshots are taken, snapshot ticks in the state reached. -/
theorem loop_clock_monotone : ∀ (script : List Answers) (s : EventScheduler) (c : Bool),
    WellFormed s → EventsNotBehind s →
    (c = true → ∀ x ∈ s._snapshot_times, s._ticks ≤ x) →
    (∀ m ∈ script, m.takes_snapshots = c) → timers_not_stale s script = true →
    (clock_values (loop s script).trace).Sorted (· ≤ ·) ∧
    (∀ v ∈ clock_values (loop s script).trace, s._ticks ≤ v) ∧
    EventsNotBehind (loop s script).state ∧
    (c = true → ∀ x ∈ (loop s script).state._snapshot_times, (loop s script).state._ticks ≤ x) := by
  intro script
  induction script with
  | nil =>
    intro s c _ inv hsn _ _
    exact ⟨by simp [loop, clock_values], by simp [loop, clock_values], inv, hsn⟩
  | cons m rest ih =>
    intro s c wf inv hsn hconst hfresh
    cases hd : m.done with
    | true =>
      rw [loop_cons_done s m rest hd]
      exact ⟨by simp [clock_values], by simp [clock_values], inv, hsn⟩
    | false =>
      rcases loop_cons_cases s m rest hd with ⟨hr, h⟩ | ⟨_, h⟩
      · simp only [timers_not_stale, hd, hr, Bool.false_eq_true, if_false, Bool.and_eq_true,
          Bool.or_eq_true, Bool.not_eq_true', decide_eq_true_eq] at hfresh
        obtain ⟨hnow, hlater⟩ := hfresh
        have hnow2 : m.has_timer = true → s._ticks ≤ usecs_to_ticks m.at_usecs := by
          intro ht
          rcases hnow with h1 | h1
          · rw [ht] at h1; cases h1
          · exact h1
        obtain ⟨inv2, hle, _⟩ := loop_body_monotone s m wf inv hnow2 hr
        have wf2 := loop_body_wellFormed s m wf
        have hm : m.takes_snapshots = c := hconst m (List.mem_cons_self _ _)
        have hsn2 : c = true → ∀ x ∈ (loop_body s m).state._snapshot_times,
            (loop_body s m).state._ticks ≤ x := by
          intro hc
          rcases loop_body_snapshots s m with ⟨target, _, _, hclock, _, _, hheap⟩ | h3
          · rw [hclock]
            exact (hheap wf.1).2 (by rw [hm, hc])
          · rw [h3] at hr; cases hr
        obtain ⟨hsorted, hall, inv3, hsn3⟩ := ih (loop_body s m).state c wf2 inv2 hsn2
          (fun m2 hm2 => hconst m2 (List.mem_cons_of_mem _ hm2)) hlater
        obtain ⟨fired, hcv, _, hfired, hnot, hfs⟩ := loop_body_clock_values s m hr
        have hfired_ge : ∀ x ∈ fired, s._ticks ≤ x := by
          intro x hx
          cases hc : c with
          | false =>
            have := hnot (by rw [hm, hc])
            rw [this] at hx
            simp at hx
          | true => exact hsn hc x (hfired x hx).1
        rw [h]
        refine ⟨?_, ?_, inv3, hsn3⟩
        · show (clock_values (_ ++ _)).Sorted _
          rw [clock_values_append, hcv]
          refine List.pairwise_append.mpr ⟨?_, hsorted, ?_⟩
          · refine List.pairwise_append.mpr ⟨hfs wf.1, List.pairwise_singleton _ _, ?_⟩
            intro a ha b hb
            simp at hb; subst hb
            exact le_of_lt (hfired a ha).2
          · intro a ha b hb
            have hb2 := hall b hb
            rcases List.mem_append.mp ha with h4 | h4
            · have := (hfired a h4).2
              omega
            · simp at h4; subst h4; exact hb2
        · intro v hv
          have hv2 : v ∈ clock_values ((loop_body s m).trace ++
              (loop (loop_body s m).state rest).trace) := hv
          rw [clock_values_append, hcv] at hv2
          rcases List.mem_append.mp hv2 with h4 | h4
          · rcases List.mem_append.mp h4 with h5 | h5
            · exact hfired_ge v h5
            · simp at h5; subst h5; exact hle
          · exact le_trans hle (hall v h4)
      · rw [h]
        exact ⟨by simp [clock_values, Action.assigned],
          by simp [clock_values, Action.assigned], inv, hsn⟩

/-- C26 (counterexample): a key press at tick 5 and a snapshot at tick 3 are queued on a new
scheduler (clock 0), `takes_snapshots()` is constantly false and no timer is
declared: after the pass the clock is at 5 and the snapshot tick 3 is still
queued, below the clock. -/
theorem monotone_clock_counterexample :
    (∀ e ∈ key_at_five_snapshot_at_three._event_heap,
      key_at_five_snapshot_at_three._ticks ≤ e.at_) ∧
    (∀ x ∈ key_at_five_snapshot_at_three._snapshot_times,
      key_at_five_snapshot_at_three._ticks ≤ x) ∧
    timers_not_stale key_at_five_snapshot_at_three [⟨false, false, 0, false⟩] = true ∧
    (loop key_at_five_snapshot_at_three [⟨false, false, 0, false⟩]).state._ticks = 5 ∧
    (loop key_at_five_snapshot_at_three [⟨false, false, 0, false⟩]).state._snapshot_times =
      [3] ∧
    ¬ (∀ x ∈ (loop key_at_five_snapshot_at_three
        [⟨false, false, 0, false⟩]).state._snapshot_times,
      (loop key_at_five_snapshot_at_three [⟨false, false, 0, false⟩]).state._ticks ≤ x) := by
  decide

/-- C26 (amended): if, when `loop` starts, every queued event and every queued snapshot tick
is at or above `_ticks` (heaps in heap order, ticks `int64_t` values), nothing
is scheduled during the run, `takes_snapshots()` is constant and every timer
tick the card declares is at or above `_ticks` when it is asked, then no
assignment to `_ticks` during the run decreases it and every pending event
stays at or above `_ticks`; every pending snapshot tick stays at or above
`_ticks` as well when the constant answer of `takes_snapshots()` is true. -/
theorem monotone_clock (s : EventScheduler) (script : List Answers) (c : Bool)
    (wf : WellFormed s) (inv : EventsNotBehind s)
    (hsnaps : ∀ x ∈ s._snapshot_times, s._ticks ≤ x)
    (hconst : ∀ m ∈ script, m.takes_snapshots = c)
    (hfresh : timers_not_stale s script = true) :
    (clock_values (loop s script).trace).Sorted (· ≤ ·) ∧
    (∀ v ∈ clock_values (loop s script).trace, s._ticks ≤ v) ∧
    (∀ e ∈ (loop s script).state._event_heap, (loop s script).state._ticks ≤ e.at_) ∧
    (c = true →
      ∀ x ∈ (loop s script).state._snapshot_times, (loop s script).state._ticks ≤ x) := by
  obtain ⟨h1, h2, h3, h4⟩ :=
    loop_clock_monotone script s c wf inv (fun _ => hsnaps) hconst hfresh
  exact ⟨h1, h2, fun e he => (h3.2 e he).1, h4⟩

/-- Witness of C26 (amended): scenario B with snapshots taken, no timer in the first pass and a
timer at tick 30 in the second. -/
theorem monotone_clock_witness :
    WellFormed scenario_b ∧ EventsNotBehind scenario_b ∧
    (∀ x ∈ scenario_b._snapshot_times, scenario_b._ticks ≤ x) ∧
    timers_not_stale scenario_b
      [⟨false, false, 0, true⟩, ⟨false, true, 500000, true⟩] = true ∧
    clock_values (loop scenario_b
      [⟨false, false, 0, true⟩, ⟨false, true, 500000, true⟩]).trace = [15, 15, 30] ∧
    (clock_values (loop scenario_b
      [⟨false, false, 0, true⟩, ⟨false, true, 500000, true⟩]).trace).Sorted (· ≤ ·) :=
  ⟨wellFormed_scenario_b, by unfold EventsNotBehind; decide, by decide, by decide, by decide,
    (monotone_clock scenario_b [⟨false, false, 0, true⟩, ⟨false, true, 500000, true⟩] true
      wellFormed_scenario_b (by unfold EventsNotBehind; decide) (by decide) (by decide)
      (by decide)).1⟩

/-- The snapshot loop does not look at the event heap. -/
theorem fire_snapshots_frame : ∀ (fuel : Nat) (s : EventScheduler) (h : List Event)
    (ticks : Int),
    fire_snapshots fuel { s with _event_heap := h } ticks =
      { state := { (fire_snapshots fuel s ticks).state with _event_heap := h }
        trace := (fire_snapshots fuel s ticks).trace
        status := (fire_snapshots fuel s ticks).status } := by
  intro fuel
  induction fuel with
  | zero =>
    intro s h ticks
    simp [fire_snapshots, have_snapshots_before]
  | succ fuel ih =>
    intro s h ticks
    obtain ⟨t0, sn, ev⟩ := s
    cases sn with
    | nil => simp [fire_snapshots, have_snapshots_before]
    | cons front rest =>
      by_cases hlt : front < ticks
      · have ih2 := ih { _ticks := front
                         _snapshot_times := pop_back (pop_heap greater (front :: rest))
                         _event_heap := ev } h ticks
        simp only at ih2
        simp only [fire_snapshots, have_snapshots_before, hlt, decide_True, if_true]
        rw [ih2]
      · simp [fire_snapshots, have_snapshots_before, hlt]

/-- The outcome of `advance_tick_count` depends on the event heap only in that it is handed on
unchanged. -/
theorem advance_frame (s : EventScheduler) (h : List Event) (takes_snapshots : Bool)
    (ticks : Int) :
    advance_tick_count { s with _event_heap := h } takes_snapshots ticks =
      { state := { (advance_tick_count s takes_snapshots ticks).state with _event_heap := h }
        trace := (advance_tick_count s takes_snapshots ticks).trace
        status := (advance_tick_count s takes_snapshots ticks).status } := by
  have hb : have_snapshots_before { s with _event_heap := h } ticks =
      have_snapshots_before s ticks := rfl
  have hst := (fire_snapshots_spec s._snapshot_times.length s ticks (le_refl _)).choose_spec.status
  by_cases hc : (takes_snapshots && have_snapshots_before s ticks) = true
  · simp only [advance_tick_count, hb, hc, if_true, fire_snapshots_frame, hst]
  · simp [advance_tick_count, hb, hc]

theorem advance_congr (s1 s2 : EventScheduler) (takes_snapshots : Bool) (ticks : Int)
    (hticks : s1._ticks = s2._ticks) (hsnaps : s1._snapshot_times = s2._snapshot_times) :
    (advance_tick_count s1 takes_snapshots ticks).trace =
      (advance_tick_count s2 takes_snapshots ticks).trace ∧
    (advance_tick_count s1 takes_snapshots ticks).state._ticks =
      (advance_tick_count s2 takes_snapshots ticks).state._ticks ∧
    (advance_tick_count s1 takes_snapshots ticks).state._snapshot_times =
      (advance_tick_count s2 takes_snapshots ticks).state._snapshot_times := by
  have h1 : s1 = { s2 with _event_heap := s1._event_heap } := by
    cases s1; cases s2; simp_all
  rw [h1, advance_frame]
  exact ⟨rfl, rfl, rfl⟩


/-- Two schedulers that agree on `_ticks` and on the snapshot heap and hold the same events
with pairwise distinct ticks, both in heap order, behave alike in a pass of the
loop body. -/
theorem loop_body_perm (s1 s2 : EventScheduler) (m : Answers)
    (hticks : s1._ticks = s2._ticks) (hsnaps : s1._snapshot_times = s2._snapshot_times)
    (hperm : s1._event_heap.Perm s2._event_heap) (wf1 : WellFormed s1) (wf2 : WellFormed s2)
    (hnd : (s1._event_heap.map Event.at_).Nodup) :
    (loop_body s1 m).trace = (loop_body s2 m).trace ∧
    (loop_body s1 m).status = (loop_body s2 m).status ∧
    (loop_body s1 m).state._ticks = (loop_body s2 m).state._ticks ∧
    (loop_body s1 m).state._snapshot_times = (loop_body s2 m).state._snapshot_times ∧
    (loop_body s1 m).state._event_heap.Perm (loop_body s2 m).state._event_heap ∧
    ((loop_body s1 m).state._event_heap.map Event.at_).Nodup := by
  cases h1 : s1._event_heap with
  | nil =>
    rw [h1] at hperm
    have h2 : s2._event_heap = [] := List.Perm.eq_nil hperm.symm
    have heq : s1 = s2 := by
      cases s1; cases s2; simp_all
    subst heq
    refine ⟨rfl, rfl, rfl, rfl, List.Perm.refl _, ?_⟩
    rcases loop_body_dispatch s1 m with
      ⟨e, rest, _, he, _⟩ | ⟨_, _, _, _, _, _, _, hev⟩ | ⟨_, _, h⟩
    · rw [h1] at he; cases he
    · rw [hev, h1]; simp
    · rw [h, h1]; simp
  | cons e1 r1 =>
    cases h2 : s2._event_heap with
    | nil =>
      rw [h1, h2] at hperm
      exact absurd (List.Perm.eq_nil hperm) (by simp)
    | cons e2 r2 =>
      have hh1 := wf1.2
      have hh2 := wf2.2
      rw [h1] at hh1 hnd
      rw [h2] at hh2
      rw [h1, h2] at hperm
      have hmem2 : e2 ∈ e1 :: r1 := hperm.symm.subset (List.mem_cons_self _ _)
      have hmem1 : e1 ∈ e2 :: r2 := hperm.subset (List.mem_cons_self _ _)
      have hle1 : e1.at_ ≤ e2.at_ := by
        rcases List.mem_cons.mp hmem2 with h | h
        · rw [h]
        · exact isHeap_head_le _ e1 r1 hh1 e2 h
      have hle2 : e2.at_ ≤ e1.at_ := by
        rcases List.mem_cons.mp hmem1 with h | h
        · rw [h]
        · exact isHeap_head_le _ e2 r2 hh2 e1 h
      have hee : e1 = e2 :=
        List.inj_on_of_nodup_map hnd (List.mem_cons_self _ _) hmem2 (by omega)
      subst hee
      have hr : r1.Perm r2 := List.Perm.cons_inv hperm
      have hnd_r : (r1.map Event.at_).Nodup := by
        rw [List.map_cons] at hnd
        exact (List.nodup_cons.mp hnd).2
      have hnext : event_is_next s1 m.has_timer (usecs_to_ticks m.at_usecs) =
          event_is_next s2 m.has_timer (usecs_to_ticks m.at_usecs) := by
        simp [event_is_next, h1, h2]
      cases hn : event_is_next s1 m.has_timer (usecs_to_ticks m.at_usecs) with
      | true =>
        have hn2 := hn
        rw [hnext] at hn2
        rw [loop_body_event s1 m hn, loop_body_event s2 m hn2,
          event_path_eq s1 m e1 r1 h1, event_path_eq s2 m e1 r2 h2]
        obtain ⟨f1, sp1⟩ := advance_tick_count_spec
          { s1 with _event_heap := pop_back (pop_heap is_later s1._event_heap) }
          m.takes_snapshots e1.at_
        obtain ⟨f2, sp2⟩ := advance_tick_count_spec
          { s2 with _event_heap := pop_back (pop_heap is_later s2._event_heap) }
          m.takes_snapshots e1.at_
        obtain ⟨c1, c2, c3⟩ := advance_congr
          { s1 with _event_heap := pop_back (pop_heap is_later s1._event_heap) }
          { s2 with _event_heap := pop_back (pop_heap is_later s2._event_heap) }
          m.takes_snapshots e1.at_ hticks hsnaps
        have p1 : (pop_back (pop_heap is_later s1._event_heap)).Perm r1 := by
          rw [h1]; exact (pop_back_pop_heap is_later Event.at_ is_later_comparesBy e1 r1).1
        have p2 : (pop_back (pop_heap is_later s2._event_heap)).Perm r2 := by
          rw [h2]; exact (pop_back_pop_heap is_later Event.at_ is_later_comparesBy e1 r2).1
        refine ⟨by simp only [c1], rfl, c2, c3, ?_, ?_⟩
        · show (advance_tick_count _ _ _).state._event_heap.Perm
            (advance_tick_count _ _ _).state._event_heap
          rw [sp1.events, sp2.events]
          exact (p1.trans hr).trans p2.symm
        · show ((advance_tick_count _ _ _).state._event_heap.map Event.at_).Nodup
          rw [sp1.events]
          exact (List.Perm.nodup_iff (p1.map Event.at_)).mpr hnd_r
      | false =>
        have hn2 := hn
        rw [hnext] at hn2
        have ht : m.has_timer = true := by
          cases hm : m.has_timer with
          | true => rfl
          | false => simp [event_is_next, h1, hm] at hn
        rw [loop_body_timer s1 m hn, loop_body_timer s2 m hn2,
          timer_path_eq s1 m ht, timer_path_eq s2 m ht, hticks]
        obtain ⟨f1, sp1⟩ := advance_tick_count_spec s1 m.takes_snapshots
          (max (wrap64 (s2._ticks + 1)) (usecs_to_ticks m.at_usecs))
        obtain ⟨f2, sp2⟩ := advance_tick_count_spec s2 m.takes_snapshots
          (max (wrap64 (s2._ticks + 1)) (usecs_to_ticks m.at_usecs))
        obtain ⟨c1, c2, c3⟩ := advance_congr s1 s2 m.takes_snapshots
          (max (wrap64 (s2._ticks + 1)) (usecs_to_ticks m.at_usecs)) hticks hsnaps
        refine ⟨by simp only [c1], rfl, c2, c3, ?_, ?_⟩
        · show (advance_tick_count _ _ _).state._event_heap.Perm
            (advance_tick_count _ _ _).state._event_heap
          rw [sp1.events, sp2.events, h1, h2]
          exact hperm
        · show ((advance_tick_count _ _ _).state._event_heap.map Event.at_).Nodup
          rw [sp1.events, h1]
          exact hnd

/-- Two schedulers that agree on `_ticks` and on the snapshot heap and hold the same events
with pairwise distinct ticks, both in heap order, give the same run of `loop`. -/
theorem loop_perm : ∀ (script : List Answers) (s1 s2 : EventScheduler),
    s1._ticks = s2._ticks → s1._snapshot_times = s2._snapshot_times →
    s1._event_heap.Perm s2._event_heap → WellFormed s1 → WellFormed s2 →
    (s1._event_heap.map Event.at_).Nodup →
    (loop s1 script).trace = (loop s2 script).trace ∧
    (loop s1 script).status = (loop s2 script).status ∧
    (loop s1 script).state._ticks = (loop s2 script).state._ticks ∧
    (loop s1 script).state._snapshot_times = (loop s2 script).state._snapshot_times ∧
    (loop s1 script).state._event_heap.Perm (loop s2 script).state._event_heap := by
  intro script
  induction script with
  | nil =>
    intro s1 s2 h1 h2 h3 _ _ _
    exact ⟨rfl, rfl, h1, h2, h3⟩
  | cons m rest ih =>
    intro s1 s2 h1 h2 h3 wf1 wf2 hnd
    obtain ⟨b1, b2, b3, b4, b5, b6⟩ := loop_body_perm s1 s2 m h1 h2 h3 wf1 wf2 hnd
    cases hd : m.done with
    | true =>
      rw [loop_cons_done s1 m rest hd, loop_cons_done s2 m rest hd]
      exact ⟨rfl, rfl, h1, h2, h3⟩
    | false =>
      rcases loop_cons_cases s1 m rest hd with ⟨hr1, hl1⟩ | ⟨hb1, hl1⟩
      · have hr2 : (loop_body s2 m).status = .returned := by rw [← b2]; exact hr1
        have hl2 := loop_cons_returned s2 m rest hd hr2
        obtain ⟨i1, i2, i3, i4, i5⟩ := ih (loop_body s1 m).state (loop_body s2 m).state b3 b4 b5
          (loop_body_wellFormed s1 m wf1) (loop_body_wellFormed s2 m wf2) b6
        rw [hl1, hl2]
        refine ⟨?_, i2, i3, i4, i5⟩
        show _ ++ _ = _ ++ _
        rw [b1, i1]
      · rcases loop_cons_cases s2 m rest hd with ⟨hr2, _⟩ | ⟨_, hl2⟩
        · rw [← b2, hb1] at hr2; cases hr2
        · rw [hl1, hl2]
          exact ⟨rfl, rfl, h1, h2, h3⟩

theorem schedule_events_frame (events : List Event) :
    ∀ s : EventScheduler,
      (events.foldl schedule_event s)._ticks = s._ticks ∧
      (events.foldl schedule_event s)._snapshot_times = s._snapshot_times ∧
      (events.foldl schedule_event s)._event_heap.Perm (s._event_heap ++ events) := by
  induction events with
  | nil => intro s; simp
  | cons e es ih =>
    intro s
    obtain ⟨h1, h2, h3⟩ := ih (schedule_event s e)
    refine ⟨h1, h2, ?_⟩
    refine h3.trans ?_
    have := (schedule_event_perm s e).append_right es
    simpa using this

/-- C27: for events with pairwise distinct ticks (distinct also from the ticks of the events
already queued), scheduled on a scheduler in heap order, every permutation of
the `schedule_event` calls gives the same run of `loop` on the same answers of
the `MainLoop`: the same calls in the same order, hence the same sequence of
events sent, and that sequence is in strictly ascending order of `at()`. -/
theorem schedule_order_independent (s : EventScheduler) (events1 events2 : List Event)
    (script : List Answers) (wf : WellFormed s) (hperm : events1.Perm events2)
    (hdistinct : ((s._event_heap ++ events1).map Event.at_).Nodup) :
    (loop (events1.foldl schedule_event s) script).trace =
      (loop (events2.foldl schedule_event s) script).trace ∧
    (loop (events1.foldl schedule_event s) script).status =
      (loop (events2.foldl schedule_event s) script).status ∧
    events_sent (loop (events1.foldl schedule_event s) script).trace =
      events_sent (loop (events2.foldl schedule_event s) script).trace ∧
    ((events_sent (loop (events1.foldl schedule_event s) script).trace).map
      Event.at_).Sorted (· < ·) := by
  obtain ⟨a1, a2, a3⟩ := schedule_events_frame events1 s
  obtain ⟨b1, b2, b3⟩ := schedule_events_frame events2 s
  have wf1 := wellFormed_schedule_events events1 s wf
  have wf2 := wellFormed_schedule_events events2 s wf
  have hnd : ((events1.foldl schedule_event s)._event_heap.map Event.at_).Nodup :=
    (List.Perm.nodup_iff (a3.map Event.at_)).mpr hdistinct
  have hp : (events1.foldl schedule_event s)._event_heap.Perm
      (events2.foldl schedule_event s)._event_heap :=
    (a3.trans (hperm.append_left _)).trans b3.symm
  obtain ⟨c1, c2, _, _, _⟩ := loop_perm script _ _ (a1.trans b1.symm) (a2.trans b2.symm) hp
    wf1 wf2 hnd
  refine ⟨c1, c2, by rw [c1], ?_⟩
  have hsorted := loop_events_sorted script _ wf1
  have hcons := loop_events_conserved script (events1.foldl schedule_event s)
  have hnd2 : ((events_sent (loop (events1.foldl schedule_event s) script).trace).map
      Event.at_).Nodup := by
    have h1 := (List.Perm.nodup_iff (hcons.map Event.at_)).mpr hnd
    rw [List.map_append] at h1
    exact (List.nodup_append.mp h1).1
  exact hsorted.lt_of_le hnd2

/-- Witness of C27: the key events of ticks 10, 20 and 30 scheduled in two different orders on a
new scheduler. -/
theorem schedule_order_independent_witness :
    WellFormed EventScheduler.new ∧
    [Event.KeyDownEvent 30 1, Event.KeyUpEvent 10 2, Event.KeyDownEvent 20 3].Perm
      [Event.KeyDownEvent 20 3, Event.KeyDownEvent 30 1, Event.KeyUpEvent 10 2] ∧
    ((EventScheduler.new._event_heap ++
      [Event.KeyDownEvent 30 1, Event.KeyUpEvent 10 2, Event.KeyDownEvent 20 3]).map
      Event.at_).Nodup ∧
    events_sent (loop ([Event.KeyDownEvent 30 1, Event.KeyUpEvent 10 2,
        Event.KeyDownEvent 20 3].foldl schedule_event EventScheduler.new)
      [⟨false, false, 0, true⟩, ⟨false, false, 0, true⟩, ⟨false, false, 0, true⟩]).trace =
      [.KeyUpEvent 10 2, .KeyDownEvent 20 3, .KeyDownEvent 30 1] ∧
    events_sent (loop ([Event.KeyDownEvent 30 1, Event.KeyUpEvent 10 2,
        Event.KeyDownEvent 20 3].foldl schedule_event EventScheduler.new)
      [⟨false, false, 0, true⟩, ⟨false, false, 0, true⟩, ⟨false, false, 0, true⟩]).trace =
    events_sent (loop ([Event.KeyDownEvent 20 3, Event.KeyDownEvent 30 1,
        Event.KeyUpEvent 10 2].foldl schedule_event EventScheduler.new)
      [⟨false, false, 0, true⟩, ⟨false, false, 0, true⟩, ⟨false, false, 0, true⟩]).trace :=
  ⟨wellFormed_new, by decide, by decide, by decide,
    (schedule_order_independent EventScheduler.new
      [.KeyDownEvent 30 1, .KeyUpEvent 10 2, .KeyDownEvent 20 3]
      [.KeyDownEvent 20 3, .KeyDownEvent 30 1, .KeyUpEvent 10 2]
      [⟨false, false, 0, true⟩, ⟨false, false, 0, true⟩, ⟨false, false, 0, true⟩]
      wellFormed_new (by decide) (by decide)).2.2.1⟩

/-! ## Theorems: admirals -/

theorem element_set_self {α : Type} (xs : List α) (i : Int) (x a : α)
    (h : element xs i = some a) : element (xs.set i.toNat x) i = some x := by
  unfold element at h ⊢
  by_cases h0 : 0 ≤ i
  · simp only [h0, if_true] at h ⊢
    have hl := (List.getElem?_eq_some.mp h).1
    simp [List.getElem?_set, hl]
  · simp [h0] at h

theorem element_set_other {α : Type} (xs : List α) (i j : Int) (x : α) (h0 : 0 ≤ i)
    (hij : j ≠ i) : element (xs.set i.toNat x) j = element xs j := by
  unfold element
  by_cases hj : 0 ≤ j
  · simp only [hj, if_true]
    have : i.toNat ≠ j.toNat := by omega
    simp [List.getElem?_set, this]
  · simp [hj]

theorem wrap32_of_inInt32 (x : Int) (h : InInt32 x) : wrap32 x = x := by
  unfold InInt32 at h
  unfold wrap32
  omega

/-- C29: `GetAdmiralFlagship(whichAdmiral)` returns `NULL` when `whichAdmiral < 0` and when the
admiral's `flagship` is `kNoShip`; otherwise, with `anObject` the object at
index `flagship`, it returns that object exactly when `anObject->id` equals
the admiral's `flagshipID`, and `NULL` when the two differ.  Directly after
`SetAdmiralFlagship(a, s)` with `a >= 0` and `s >= 0` (for an admiral and an
object inside their arrays, `kNoShip` being negative) it returns the object at
index `s`. -/
theorem flagship_stale_id (kNoShip : Int) (objects : Int → Option spaceObjectType)
    (gAdmiralData : List admiralType) (whichAdmiral : Int) :
    (whichAdmiral < 0 →
      GetAdmiralFlagship kNoShip objects gAdmiralData whichAdmiral = .returned none) ∧
    (∀ a, 0 ≤ whichAdmiral → element gAdmiralData whichAdmiral = some a →
      a.flagship = kNoShip →
      GetAdmiralFlagship kNoShip objects gAdmiralData whichAdmiral = .returned none) ∧
    (∀ a anObject, 0 ≤ whichAdmiral → element gAdmiralData whichAdmiral = some a →
      a.flagship ≠ kNoShip → objects a.flagship = some anObject →
      (GetAdmiralFlagship kNoShip objects gAdmiralData whichAdmiral =
          .returned (some a.flagship) ↔ anObject.id = a.flagshipID) ∧
      (anObject.id ≠ a.flagshipID →
        GetAdmiralFlagship kNoShip objects gAdmiralData whichAdmiral = .returned none)) ∧
    (∀ a anObject whichShip, 0 ≤ whichAdmiral → 0 ≤ whichShip → kNoShip < 0 →
      element gAdmiralData whichAdmiral = some a → objects whichShip = some anObject →
      ∃ after, SetAdmiralFlagship objects gAdmiralData whichAdmiral whichShip =
          .returned after ∧
        element after whichAdmiral =
          some { a with flagship := whichShip, flagshipID := anObject.id } ∧
        GetAdmiralFlagship kNoShip objects after whichAdmiral =
          .returned (some whichShip)) := by
  refine ⟨?_, ?_, ?_, ?_⟩
  · intro h
    simp [GetAdmiralFlagship, h]
  · intro a h0 ha hf
    have : ¬ whichAdmiral < 0 := by omega
    simp [GetAdmiralFlagship, this, ha, hf]
  · intro a anObject h0 ha hf hobj
    have : ¬ whichAdmiral < 0 := by omega
    by_cases hid : anObject.id = a.flagshipID
    · simp [GetAdmiralFlagship, this, ha, hf, hobj, hid]
    · simp [GetAdmiralFlagship, this, ha, hf, hobj, hid]
  · intro a anObject whichShip h0 hs hk ha hobj
    have h1 : ¬ whichAdmiral < 0 := by omega
    have h2 : whichShip ≠ kNoShip := by omega
    refine ⟨gAdmiralData.set whichAdmiral.toNat
      { a with flagship := whichShip, flagshipID := anObject.id }, ?_, ?_, ?_⟩
    · simp [SetAdmiralFlagship, h1, ha, hs, hobj]
    · exact element_set_self _ _ _ a ha
    · simp [GetAdmiralFlagship, h1, element_set_self _ _ _ a ha, h2, hobj]

/-- Witness of C29: two admirals without flagship and an object with id 77 at index 3; after
`SetAdmiralFlagship(1, 3)` the flagship of admiral 1 is the object at index 3,
and it is `NULL` again once the object at index 3 has the id 78. -/
theorem flagship_stale_id_witness :
    (∃ after, SetAdmiralFlagship (fun i => if i = 3 then some ⟨77⟩ else none)
          [⟨-1, -1, 0⟩, ⟨-1, -1, 100⟩] 1 3 = .returned after ∧
        element after 1 = some ⟨3, 77, 100⟩ ∧
        GetAdmiralFlagship (-1) (fun i => if i = 3 then some ⟨77⟩ else none) after 1 =
          .returned (some 3)) ∧
    GetAdmiralFlagship (-1) (fun i => if i = 3 then some ⟨78⟩ else none)
      [⟨-1, -1, 0⟩, ⟨3, 77, 100⟩] 1 = .returned none :=
  ⟨(flagship_stale_id (-1) (fun i => if i = 3 then some ⟨77⟩ else none)
      [⟨-1, -1, 0⟩, ⟨-1, -1, 100⟩] 1).2.2.2 ⟨-1, -1, 100⟩ ⟨77⟩ 3 (by decide) (by decide)
      (by decide) (by decide) (by decide),
    by decide⟩

/-- C30: with `gAdmiralData` an array of `kMaxPlayerNum` admirals,
`PayAdmiralAbsolute(whichAdmiral, howMuch)` with
`0 <= whichAdmiral < kMaxPlayerNum` and `cash + howMuch` an `int32_t` value
sets that admiral's `cash` to `max(0, cash + howMuch)` and changes nothing
else; with `whichAdmiral` outside that range it changes nothing. -/
theorem pay_admiral_absolute (kMaxPlayerNum : Int) (gAdmiralData : List admiralType)
    (whichAdmiral howMuch : Int) (hlen : (gAdmiralData.length : Int) = kMaxPlayerNum) :
    (0 ≤ whichAdmiral → whichAdmiral < kMaxPlayerNum →
      ∃ admiral, element gAdmiralData whichAdmiral = some admiral ∧
        (InInt32 (admiral.cash + howMuch) →
          ∃ after, PayAdmiralAbsolute kMaxPlayerNum gAdmiralData whichAdmiral howMuch =
              .returned after ∧
            element after whichAdmiral =
              some { admiral with cash := max 0 (admiral.cash + howMuch) } ∧
            after.length = gAdmiralData.length ∧
            ∀ j, j ≠ whichAdmiral → element after j = element gAdmiralData j)) ∧
    (¬ (0 ≤ whichAdmiral ∧ whichAdmiral < kMaxPlayerNum) →
      PayAdmiralAbsolute kMaxPlayerNum gAdmiralData whichAdmiral howMuch =
        .returned gAdmiralData) := by
  constructor
  · intro h0 hlt
    have hl : whichAdmiral.toNat < gAdmiralData.length := by omega
    have ha : element gAdmiralData whichAdmiral = some gAdmiralData[whichAdmiral.toNat] := by
      simp [element, h0, List.getElem?_eq_getElem hl]
    refine ⟨_, ha, ?_⟩
    intro hr
    have hw := wrap32_of_inInt32 _ hr
    have hmax : (if gAdmiralData[whichAdmiral.toNat].cash + howMuch < 0 then 0
        else gAdmiralData[whichAdmiral.toNat].cash + howMuch) =
        max 0 (gAdmiralData[whichAdmiral.toNat].cash + howMuch) := by
      split
      · rw [max_eq_left (by omega)]
      · rw [max_eq_right (by omega)]
    refine ⟨gAdmiralData.set whichAdmiral.toNat
      { gAdmiralData[whichAdmiral.toNat] with
        cash := max 0 (gAdmiralData[whichAdmiral.toNat].cash + howMuch) }, ?_, ?_, ?_, ?_⟩
    · simp only [PayAdmiralAbsolute, ha, hw, hmax]
      simp [h0, hlt]
    · exact element_set_self _ _ _ _ ha
    · simp
    · intro j hj
      exact element_set_other _ _ _ _ h0 hj
  · intro hnot
    have : ¬ (whichAdmiral ≥ 0 ∧ whichAdmiral < kMaxPlayerNum) := hnot
    simp only [PayAdmiralAbsolute, this, if_false]

/-- Witness of C30: four admirals; admiral 1 has 100 and is charged 250, which leaves 0. -/
theorem pay_admiral_absolute_witness :
    (([⟨-1, -1, 0⟩, ⟨-1, -1, 100⟩, ⟨-1, -1, 7⟩, ⟨-1, -1, 9⟩] : List admiralType).length : Int) =
      4 ∧
    PayAdmiralAbsolute 4 [⟨-1, -1, 0⟩, ⟨-1, -1, 100⟩, ⟨-1, -1, 7⟩, ⟨-1, -1, 9⟩] 1 (-250) =
      .returned [⟨-1, -1, 0⟩, ⟨-1, -1, 0⟩, ⟨-1, -1, 7⟩, ⟨-1, -1, 9⟩] ∧
    PayAdmiralAbsolute 4 [⟨-1, -1, 0⟩, ⟨-1, -1, 100⟩, ⟨-1, -1, 7⟩, ⟨-1, -1, 9⟩] 4 50 =
      .returned [⟨-1, -1, 0⟩, ⟨-1, -1, 100⟩, ⟨-1, -1, 7⟩, ⟨-1, -1, 9⟩] :=
  ⟨by decide, by decide,
    (pay_admiral_absolute 4 [⟨-1, -1, 0⟩, ⟨-1, -1, 100⟩, ⟨-1, -1, 7⟩, ⟨-1, -1, 9⟩] 4 50
      (by decide)).2 (by decide)⟩

end antares
